import Mathlib

/-!
Shallow embedding of the Hive tower-simulation core (the ECS world, the
mouse/placement system, the agent trip issuance and the elevator system),
translated from the TypeScript source.  Numbers are modelled as exact
rationals (the source uses JS numbers); JS `Map`/`Set` iteration order is
insertion order, modelled with association lists that preserve first
insertion order of keys.
-/

set_option maxRecDepth 2000

namespace Hive

/-- Grid cell, as in `GridRenderer.GridCell` (a pair of numbers). -/
structure GridCell where
  x : ℚ
  y : ℚ
  deriving DecidableEq

/-- `Position` component. -/
structure Pos where
  x : ℚ
  y : ℚ
  deriving DecidableEq

/-- `AgentMood`. -/
inductive Mood
  | happy
  | neutral
  | angry
  deriving DecidableEq

/-- `AgentPhase`. -/
inductive Phase
  | IDLE
  | WALK_TO_SHAFT
  | WAIT_AT_SHAFT
  | RIDING
  | WALK_TO_TARGET
  | AT_TARGET
  deriving DecidableEq

/-- `TravelDirection`. -/
inductive Dir
  | UP
  | DOWN
  | NONE
  deriving DecidableEq

/-- `ElevatorState`. -/
inductive ElevState
  | IDLE
  | MOVING
  | LOADING
  | UNLOADING
  deriving DecidableEq

/-- `RoomZone`. -/
inductive RoomZone
  | HALLWAY
  | LOBBY
  | OFFICE
  | CONDO
  | FOOD_COURT
  deriving DecidableEq

/-- `Agent` component.  Fields not read or written by any embedded
function (name, archetype, routine, schedule-minute fields, home/work
coordinates) are omitted; every field used by the embedded systems is kept. -/
structure Agent where
  mood : Mood
  speed : ℚ
  phase : Phase
  stress : ℚ
  waitMs : ℚ
  sourceFloorY : Option ℚ
  targetFloorY : Option ℚ
  targetX : ℚ
  targetY : ℚ
  desiredDirection : Dir
  assignedShaftX : Option ℚ
  waitX : Option ℚ
  assignedCarId : Option Nat
  callRegistered : Bool
  despawnOnArrival : Bool
  deriving DecidableEq

/-- `Floor` component (the constant `kind: 'floor'` tag is dropped). -/
structure Floor where
  zone : RoomZone
  occupied : Bool
  rent : ℚ
  windowSeed : ℚ
  deriving DecidableEq

/-- `ElevatorCar` component. -/
structure ElevatorCar where
  state : ElevState
  direction : Dir
  speed : ℚ
  column : ℚ
  bankId : Nat
  stopQueue : List ℚ
  phaseTimerMs : ℚ
  capacity : ℚ
  occupants : List Nat
  deriving DecidableEq

/-- `FloatingText` component. -/
structure FloatingText where
  text : String
  color : String
  ageMs : ℚ
  ttlMs : ℚ
  risePerSecond : ℚ
  deriving DecidableEq

/-! ### Component stores

Each store mirrors one `Map<EntityId, C>` of `ECSWorld.components`; the
`elevator` component carries no data (`{kind: 'elevator_shaft'}`), so its
store only records presence. -/

/-- `Map.get`: value attached to an entity, if any. -/
def storeGet (s : List (Nat × α)) (e : Nat) : Option α :=
  (s.find? (fun p => decide (p.1 = e))).map (·.2)

/-- `Map.set`: replace in place if the key is present, else append
(JS `Map` keeps the original insertion position on overwrite). -/
def storeSet (s : List (Nat × α)) (e : Nat) (v : α) : List (Nat × α) :=
  if s.any (fun p => decide (p.1 = e)) then
    s.map (fun p => if p.1 = e then (e, v) else p)
  else
    s ++ [(e, v)]

/-- `Map.delete`. -/
def storeDel (s : List (Nat × α)) (e : Nat) : List (Nat × α) :=
  s.filter (fun p => decide (p.1 ≠ e))

/-- `ECSWorld`: entity id counter, the insertion-ordered entity set, and one
store per component kind used by the embedded systems. -/
structure ECSWorld where
  nextEntityId : Nat
  entities : List Nat
  position : List (Nat × Pos)
  agent : List (Nat × Agent)
  floor : List (Nat × Floor)
  elevator : List (Nat × Unit)
  elevatorCar : List (Nat × ElevatorCar)
  floatingText : List (Nat × FloatingText)
  deriving DecidableEq

namespace ECSWorld

/-- `createEntity()`. -/
def createEntity (w : ECSWorld) : Nat × ECSWorld :=
  (w.nextEntityId,
   { w with
      nextEntityId := w.nextEntityId + 1
      entities := w.entities ++ [w.nextEntityId] })

/-- `destroyEntity(id)`: drop the id and every attached component. -/
def destroyEntity (w : ECSWorld) (e : Nat) : ECSWorld :=
  { w with
      entities := w.entities.filter (fun x => decide (x ≠ e))
      position := storeDel w.position e
      agent := storeDel w.agent e
      floor := storeDel w.floor e
      elevator := storeDel w.elevator e
      elevatorCar := storeDel w.elevatorCar e
      floatingText := storeDel w.floatingText e }

def getPos (w : ECSWorld) (e : Nat) : Option Pos := storeGet w.position e
def getAgent (w : ECSWorld) (e : Nat) : Option Agent := storeGet w.agent e
def getFloor (w : ECSWorld) (e : Nat) : Option Floor := storeGet w.floor e
def getElevator (w : ECSWorld) (e : Nat) : Option Unit := storeGet w.elevator e
def getCar (w : ECSWorld) (e : Nat) : Option ElevatorCar := storeGet w.elevatorCar e

/-- In the source, `addComponent` on a missing entity throws; on every
embedded call site the entity was just created or already queried, so we
model it as a set guarded by liveness. -/
def addPos (w : ECSWorld) (e : Nat) (v : Pos) : ECSWorld :=
  if e ∈ w.entities then { w with position := storeSet w.position e v } else w

def addAgent (w : ECSWorld) (e : Nat) (v : Agent) : ECSWorld :=
  if e ∈ w.entities then { w with agent := storeSet w.agent e v } else w

def addFloor (w : ECSWorld) (e : Nat) (v : Floor) : ECSWorld :=
  if e ∈ w.entities then { w with floor := storeSet w.floor e v } else w

def addElevator (w : ECSWorld) (e : Nat) : ECSWorld :=
  if e ∈ w.entities then { w with elevator := storeSet w.elevator e () } else w

def addCar (w : ECSWorld) (e : Nat) (v : ElevatorCar) : ECSWorld :=
  if e ∈ w.entities then { w with elevatorCar := storeSet w.elevatorCar e v } else w

def addFloatingText (w : ECSWorld) (e : Nat) (v : FloatingText) : ECSWorld :=
  if e ∈ w.entities then { w with floatingText := storeSet w.floatingText e v } else w

/-- In-place mutation of a component fetched with `getComponent` (TS objects
are mutated through the reference): a plain store update. -/
def setAgent (w : ECSWorld) (e : Nat) (v : Agent) : ECSWorld :=
  { w with agent := storeSet w.agent e v }

def setPos (w : ECSWorld) (e : Nat) (v : Pos) : ECSWorld :=
  { w with position := storeSet w.position e v }

def setCar (w : ECSWorld) (e : Nat) (v : ElevatorCar) : ECSWorld :=
  { w with elevatorCar := storeSet w.elevatorCar e v }

def setFloor (w : ECSWorld) (e : Nat) (v : Floor) : ECSWorld :=
  { w with floor := storeSet w.floor e v }

/-! `query(...)` returns the entities (in insertion order) holding all the
required components. -/

def queryPosAgent (w : ECSWorld) : List Nat :=
  w.entities.filter (fun e => (w.getPos e).isSome && (w.getAgent e).isSome)

def queryAgent (w : ECSWorld) : List Nat :=
  w.entities.filter (fun e => (w.getAgent e).isSome)

def queryPosFloor (w : ECSWorld) : List Nat :=
  w.entities.filter (fun e => (w.getPos e).isSome && (w.getFloor e).isSome)

def queryPosElevator (w : ECSWorld) : List Nat :=
  w.entities.filter (fun e => (w.getPos e).isSome && (w.getElevator e).isSome)

def queryPosCar (w : ECSWorld) : List Nat :=
  w.entities.filter (fun e => (w.getPos e).isSome && (w.getCar e).isSome)

end ECSWorld

open ECSWorld

/-! ### MouseSystem (floor-drag placement path)

Translated from `MouseSystem` in the source; `groundRow` is the constructor
argument.  `TOOL_COSTS[Tool.FLOOR] = 10`. -/

def floorCost : ℚ := 10

/-- `getEntityByTypeAt(cell, 'floor')`: first floor entity (query order) at
the cell. -/
def floorEntityAt (w : ECSWorld) (c : GridCell) : Option Nat :=
  w.queryPosFloor.find? (fun e =>
    match w.getPos e with
    | some p => decide (p.x = c.x ∧ p.y = c.y)
    | none => false)

/-- `getEntityByTypeAt(cell, 'elevator')`. -/
def elevatorEntityAt (w : ECSWorld) (c : GridCell) : Option Nat :=
  w.queryPosElevator.find? (fun e =>
    match w.getPos e with
    | some p => decide (p.x = c.x ∧ p.y = c.y)
    | none => false)

/-- `getStructureEntityAt(cell)`: a floor if present, else a shaft. -/
def getStructureEntityAt (w : ECSWorld) (c : GridCell) : Option Nat :=
  match floorEntityAt w c with
  | some e => some e
  | none => elevatorEntityAt w c

/-- The four axis-adjacent cells, in source order. -/
def axisNeighbors (c : GridCell) : List GridCell :=
  [⟨c.x - 1, c.y⟩, ⟨c.x + 1, c.y⟩, ⟨c.x, c.y - 1⟩, ⟨c.x, c.y + 1⟩]

/-- `hasExistingFloorNeighbor(cell)`. -/
def hasExistingFloorNeighbor (w : ECSWorld) (c : GridCell) : Bool :=
  (axisNeighbors c).any (fun n => (floorEntityAt w n).isSome)

/-- `isValidFloorSegmentPlacement(cell, planned)`; the `planned` set of cell
keys is modelled as the list of planned cells. -/
def isValidFloorSegmentPlacement (w : ECSWorld) (groundRow : ℚ)
    (c : GridCell) (planned : List GridCell) : Bool :=
  if c.y = groundRow then true
  else
    (axisNeighbors c).any (fun n =>
      (floorEntityAt w n).isSome || decide (n ∈ planned))

/-- `getFloorDragCells(start, end)`: one horizontal run at `start.y` from
`min x` to `max x` (the drag steps x by 1 until it exceeds `max x`). -/
def getFloorDragCells (s e : GridCell) : List GridCell :=
  let minX := min s.x e.x
  let maxX := max s.x e.x
  (List.range ((maxX - minX).floor.toNat + 1)).map
    (fun (i : ℕ) => (⟨minX + (i : ℚ), s.y⟩ : GridCell))

/-- The loop body of `canBuildFloorCells`, threading the
`hasExternalSupport` accumulator; returns `false` on the early returns. -/
def canBuildFloorCellsLoop (w : ECSWorld) (groundRow : ℚ)
    (planned : List GridCell) : List GridCell → Bool → Bool
  | [], support => support
  | c :: rest, support =>
    if (getStructureEntityAt w c).isSome then false
    else
      let support2 := support || hasExistingFloorNeighbor w c
      if isValidFloorSegmentPlacement w groundRow c planned then
        canBuildFloorCellsLoop w groundRow planned rest support2
      else false

/-- `canBuildFloorCells(cells)`. -/
def canBuildFloorCells (w : ECSWorld) (groundRow : ℚ)
    (cells : List GridCell) : Bool :=
  match cells with
  | [] => false
  | c0 :: _ => canBuildFloorCellsLoop w groundRow cells cells (decide (c0.y = groundRow))

/-- `spawnFloorSegment(cell)`.  The fresh id returned by `createEntity` is
the current `nextEntityId`.  The source seeds `windowSeed` from a
`Math.sin`-based cosmetic hash; the seed is never read by any embedded
logic, and the transcendental float computation is modelled as 0. -/
def spawnFloorSegment (w : ECSWorld) (groundRow : ℚ) (c : GridCell) : ECSWorld :=
  let e := w.nextEntityId
  let w1 := (w.createEntity).2
  let w2 := w1.addPos e ⟨c.x, c.y⟩
  w2.addFloor e
    { zone := if c.y = groundRow then RoomZone.LOBBY else RoomZone.HALLWAY
      occupied := true
      rent := 0
      windowSeed := 0 }

/-- `FloorDragPreview`. -/
structure FloorDragPreview where
  cells : List GridCell
  valid : Bool
  affordable : Bool
  cost : ℚ
  deriving DecidableEq

/-- `getFloorDragPreview(start, end, funds)`. -/
def getFloorDragPreview (w : ECSWorld) (groundRow : ℚ)
    (s e : GridCell) (funds : ℚ) : FloorDragPreview :=
  let cells := getFloorDragCells s e
  { cells := cells
    valid := canBuildFloorCells w groundRow cells
    affordable := decide (funds ≥ cells.length * floorCost)
    cost := cells.length * floorCost }

/-- `PlacementResult`, paired with the resulting world. -/
structure DragOutcome where
  world : ECSWorld
  changedMap : Bool
  spent : ℚ
  errorMessage : Option String
  deriving DecidableEq

/-- `applyFloorDrag(start, end, funds)`. -/
def applyFloorDrag (w : ECSWorld) (groundRow : ℚ)
    (s e : GridCell) (funds : ℚ) : DragOutcome :=
  let preview := getFloorDragPreview w groundRow s e funds
  if !preview.valid then
    { world := w, changedMap := false, spent := 0
      errorMessage := some "Invalid floor placement" }
  else if !preview.affordable then
    { world := w, changedMap := false, spent := 0
      errorMessage := some "Insufficient funds" }
  else
    { world := preview.cells.foldl (fun acc c => spawnFloorSegment acc groundRow c) w
      changedMap := decide (preview.cells.length > 0)
      spent := preview.cost
      errorMessage := none }

/-! ### Store lemmas -/

@[simp]
theorem storeGet_nil {α : Type} (e : Nat) : storeGet ([] : List (Nat × α)) e = none := rfl

theorem storeGet_cons {α : Type} (p : Nat × α) (s : List (Nat × α)) (e : Nat) :
    storeGet (p :: s) e = if p.1 = e then some p.2 else storeGet s e := by
  by_cases h : p.1 = e
  · unfold storeGet
    rw [List.find?_cons_of_pos _ (by simpa using h)]
    simp [h]
  · unfold storeGet
    rw [List.find?_cons_of_neg _ (by simpa using h)]
    simp [h, storeGet]

theorem storeGet_map_update_self {α : Type} (s : List (Nat × α)) (e : Nat) (v : α)
    (h : s.any (fun p => decide (p.1 = e)) = true) :
    storeGet (s.map (fun p => if p.1 = e then (e, v) else p)) e = some v := by
  induction s with
  | nil => simp at h
  | cons p ps ih =>
    by_cases hp : p.1 = e
    · simp [storeGet_cons, hp]
    · simp only [List.any_cons, decide_eq_true_eq, Bool.or_eq_true] at h
      rcases h with h | h
      · exact absurd h hp
      · simpa [storeGet_cons, hp] using ih h

theorem storeGet_append_single_self {α : Type} (s : List (Nat × α)) (e : Nat) (v : α) :
    storeGet (s ++ [(e, v)]) e = (storeGet s e).getD v := by
  induction s with
  | nil => simp [storeGet_cons]
  | cons p ps ih =>
    by_cases hp : p.1 = e
    · simp [storeGet_cons, hp]
    · simpa [storeGet_cons, hp] using ih

theorem storeGet_none_of_not_any {α : Type} (s : List (Nat × α)) (e : Nat)
    (h : s.any (fun p => decide (p.1 = e)) = false) : storeGet s e = none := by
  induction s with
  | nil => rfl
  | cons p ps ih =>
    simp only [List.any_cons, Bool.or_eq_false_iff, decide_eq_false_iff_not] at h
    simpa [storeGet_cons, h.1] using ih (by simpa using h.2)

@[simp]
theorem storeGet_storeSet_self {α : Type} (s : List (Nat × α)) (e : Nat) (v : α) :
    storeGet (storeSet s e v) e = some v := by
  unfold storeSet
  by_cases h : s.any (fun p => decide (p.1 = e)) = true
  · simpa [h] using storeGet_map_update_self s e v h
  · simp only [Bool.not_eq_true] at h
    rw [if_neg (by simp [h]), storeGet_append_single_self,
      storeGet_none_of_not_any s e h]
    rfl

theorem storeGet_map_update_ne {α : Type} (s : List (Nat × α)) (e e2 : Nat) (v : α)
    (h : e2 ≠ e) :
    storeGet (s.map (fun p => if p.1 = e then (e, v) else p)) e2 = storeGet s e2 := by
  induction s with
  | nil => rfl
  | cons p ps ih =>
    rw [List.map_cons, storeGet_cons, storeGet_cons]
    by_cases hp : p.1 = e
    · have hpe2 : ¬ p.1 = e2 := by rw [hp]; exact fun hc => h hc.symm
      rw [if_pos hp, if_neg (show ¬ ((e, v) : Nat × α).1 = e2 from Ne.symm h), if_neg hpe2]
      exact ih
    · rw [if_neg hp]
      by_cases hp2 : p.1 = e2
      · rw [if_pos hp2, if_pos hp2]
      · rw [if_neg hp2, if_neg hp2]
        exact ih

theorem storeGet_append_single_ne {α : Type} (s : List (Nat × α)) (e e2 : Nat) (v : α)
    (h : e2 ≠ e) : storeGet (s ++ [(e, v)]) e2 = storeGet s e2 := by
  induction s with
  | nil => simp [storeGet_cons, Ne.symm h]
  | cons p ps ih =>
    rw [List.cons_append, storeGet_cons, storeGet_cons]
    by_cases hp2 : p.1 = e2
    · rw [if_pos hp2, if_pos hp2]
    · rw [if_neg hp2, if_neg hp2]
      exact ih

theorem storeGet_storeSet_ne {α : Type} (s : List (Nat × α)) (e e2 : Nat) (v : α)
    (h : e2 ≠ e) : storeGet (storeSet s e v) e2 = storeGet s e2 := by
  unfold storeSet
  by_cases hany : s.any (fun p => decide (p.1 = e)) = true
  · rw [if_pos hany]
    exact storeGet_map_update_ne s e e2 v h
  · rw [if_neg hany]
    exact storeGet_append_single_ne s e e2 v h

@[simp]
theorem storeGet_storeDel_self {α : Type} (s : List (Nat × α)) (e : Nat) :
    storeGet (storeDel s e) e = none := by
  induction s with
  | nil => rfl
  | cons p ps ih =>
    by_cases hp : p.1 = e
    · simpa [storeDel, List.filter_cons, hp] using ih
    · simpa [storeDel, List.filter_cons, hp, storeGet_cons] using ih

theorem storeGet_storeDel_ne {α : Type} (s : List (Nat × α)) (e e2 : Nat)
    (h : e2 ≠ e) : storeGet (storeDel s e) e2 = storeGet s e2 := by
  induction s with
  | nil => rfl
  | cons p ps ih =>
    unfold storeDel at ih ⊢
    rw [List.filter_cons, storeGet_cons]
    by_cases hp : p.1 = e
    · have hpe2 : ¬ p.1 = e2 := by rw [hp]; exact fun hc => h hc.symm
      rw [if_neg (by simp [hp]), if_neg hpe2]
      exact ih
    · rw [if_pos (by simp [hp]), storeGet_cons]
      by_cases hp2 : p.1 = e2
      · rw [if_pos hp2, if_pos hp2]
      · rw [if_neg hp2, if_neg hp2]
        exact ih

/-! ### World bookkeeping lemmas -/

/-- Entity ids handed out so far are below the counter; holds for every
world built through `createEntity`. -/
def ECSWorld.wfBound (w : ECSWorld) : Prop :=
  ∀ id ∈ w.entities, id < w.nextEntityId

theorem nextEntityId_addPos (w : ECSWorld) (e : Nat) (v : Pos) :
    (w.addPos e v).nextEntityId = w.nextEntityId := by
  unfold ECSWorld.addPos; split <;> rfl

theorem nextEntityId_addFloor (w : ECSWorld) (e : Nat) (v : Floor) :
    (w.addFloor e v).nextEntityId = w.nextEntityId := by
  unfold ECSWorld.addFloor; split <;> rfl

theorem entities_addPos (w : ECSWorld) (e : Nat) (v : Pos) :
    (w.addPos e v).entities = w.entities := by
  unfold ECSWorld.addPos; split <;> rfl

theorem entities_addFloor (w : ECSWorld) (e : Nat) (v : Floor) :
    (w.addFloor e v).entities = w.entities := by
  unfold ECSWorld.addFloor; split <;> rfl

theorem getPos_addFloor (w : ECSWorld) (e e2 : Nat) (v : Floor) :
    (w.addFloor e v).getPos e2 = w.getPos e2 := by
  unfold ECSWorld.addFloor; split <;> rfl

theorem getFloor_addPos (w : ECSWorld) (e e2 : Nat) (v : Pos) :
    (w.addPos e v).getFloor e2 = w.getFloor e2 := by
  unfold ECSWorld.addPos; split <;> rfl

theorem getPos_addPos_mem (w : ECSWorld) (e : Nat) (v : Pos) (h : e ∈ w.entities) :
    (w.addPos e v).getPos e = some v := by
  simp [ECSWorld.addPos, h, ECSWorld.getPos]

theorem getPos_addPos_ne (w : ECSWorld) (e e2 : Nat) (v : Pos) (h : e2 ≠ e) :
    (w.addPos e v).getPos e2 = w.getPos e2 := by
  unfold ECSWorld.addPos
  split
  · simp [ECSWorld.getPos, storeGet_storeSet_ne _ _ _ _ h]
  · rfl

theorem getFloor_addFloor_mem (w : ECSWorld) (e : Nat) (v : Floor) (h : e ∈ w.entities) :
    (w.addFloor e v).getFloor e = some v := by
  simp [ECSWorld.addFloor, h, ECSWorld.getFloor]

theorem getFloor_addFloor_ne (w : ECSWorld) (e e2 : Nat) (v : Floor) (h : e2 ≠ e) :
    (w.addFloor e v).getFloor e2 = w.getFloor e2 := by
  unfold ECSWorld.addFloor
  split
  · simp [ECSWorld.getFloor, storeGet_storeSet_ne _ _ _ _ h]
  · rfl

/-! ### Spawned floor segments -/

theorem spawnFloorSegment_nextEntityId (w : ECSWorld) (gr : ℚ) (c : GridCell) :
    (spawnFloorSegment w gr c).nextEntityId = w.nextEntityId + 1 := by
  simp [spawnFloorSegment, ECSWorld.createEntity, nextEntityId_addPos, nextEntityId_addFloor]

theorem spawnFloorSegment_entities (w : ECSWorld) (gr : ℚ) (c : GridCell) :
    (spawnFloorSegment w gr c).entities = w.entities ++ [w.nextEntityId] := by
  simp [spawnFloorSegment, ECSWorld.createEntity, entities_addPos, entities_addFloor]

theorem spawnFloorSegment_wfBound (w : ECSWorld) (gr : ℚ) (c : GridCell)
    (h : w.wfBound) : (spawnFloorSegment w gr c).wfBound := by
  intro id hid
  rw [spawnFloorSegment_entities, List.mem_append] at hid
  rw [spawnFloorSegment_nextEntityId]
  rcases hid with hid | hid
  · exact Nat.lt_succ_of_lt (h id hid)
  · simp only [List.mem_singleton] at hid
    omega

theorem spawnFloorSegment_getPos_self (w : ECSWorld) (gr : ℚ) (c : GridCell) :
    (spawnFloorSegment w gr c).getPos w.nextEntityId = some ⟨c.x, c.y⟩ := by
  unfold spawnFloorSegment ECSWorld.createEntity
  rw [getPos_addFloor, getPos_addPos_mem]
  simp

theorem spawnFloorSegment_getFloor_self (w : ECSWorld) (gr : ℚ) (c : GridCell) :
    ((spawnFloorSegment w gr c).getFloor w.nextEntityId).isSome = true := by
  unfold spawnFloorSegment ECSWorld.createEntity
  rw [getFloor_addFloor_mem]
  · rfl
  · simp [entities_addPos]

theorem spawnFloorSegment_getPos_lt (w : ECSWorld) (gr : ℚ) (c : GridCell)
    (e : Nat) (h : e < w.nextEntityId) :
    (spawnFloorSegment w gr c).getPos e = w.getPos e := by
  unfold spawnFloorSegment
  rw [getPos_addFloor, getPos_addPos_ne _ _ _ _ (by omega : e ≠ w.nextEntityId)]
  rfl

theorem spawnFloorSegment_getFloor_lt (w : ECSWorld) (gr : ℚ) (c : GridCell)
    (e : Nat) (h : e < w.nextEntityId) :
    (spawnFloorSegment w gr c).getFloor e = w.getFloor e := by
  unfold spawnFloorSegment
  rw [getFloor_addFloor_ne _ _ _ _ (by omega : e ≠ w.nextEntityId), getFloor_addPos]
  rfl

/-- Facts established about one entity survive later floor spawns. -/
theorem foldSpawn_preserves (gr : ℚ) (cells : List GridCell) :
    ∀ (w : ECSWorld) (fe : Nat) (p : Pos), w.wfBound → fe ∈ w.entities →
      w.getPos fe = some p → (w.getFloor fe).isSome = true →
      let w2 := cells.foldl (fun acc c => spawnFloorSegment acc gr c) w
      fe ∈ w2.entities ∧ w2.getPos fe = some p ∧ (w2.getFloor fe).isSome = true := by
  induction cells with
  | nil => intro w fe p _ h1 h2 h3; exact ⟨h1, h2, h3⟩
  | cons c cs ih =>
    intro w fe p hwf h1 h2 h3
    have hlt : fe < w.nextEntityId := hwf fe h1
    refine ih (spawnFloorSegment w gr c) fe p (spawnFloorSegment_wfBound w gr c hwf) ?_ ?_ ?_
    · rw [spawnFloorSegment_entities, List.mem_append]; exact Or.inl h1
    · rw [spawnFloorSegment_getPos_lt w gr c fe hlt]; exact h2
    · rw [spawnFloorSegment_getFloor_lt w gr c fe hlt]; exact h3

/-- Folding `spawnFloorSegment` over a batch creates a floor entity at every
cell of the batch. -/
theorem foldSpawn_creates (gr : ℚ) (cells : List GridCell) :
    ∀ (w : ECSWorld), w.wfBound → ∀ c ∈ cells,
      let w2 := cells.foldl (fun acc c => spawnFloorSegment acc gr c) w
      ∃ fe, fe ∈ w2.entities ∧ w2.getPos fe = some ⟨c.x, c.y⟩ ∧
        (w2.getFloor fe).isSome = true := by
  induction cells with
  | nil => intro w _ c hc; cases hc
  | cons c0 cs ih =>
    intro w hwf c hc
    rcases List.mem_cons.mp hc with rfl | hc
    · refine ⟨w.nextEntityId, ?_⟩
      have h1 : w.nextEntityId ∈ (spawnFloorSegment w gr c).entities := by
        rw [spawnFloorSegment_entities]; simp
      exact foldSpawn_preserves gr cs (spawnFloorSegment w gr c) w.nextEntityId _
        (spawnFloorSegment_wfBound w gr c hwf) h1
        (spawnFloorSegment_getPos_self w gr c) (spawnFloorSegment_getFloor_self w gr c)
    · exact ih (spawnFloorSegment w gr c0) (spawnFloorSegment_wfBound w gr c0 hwf) c hc

/-! ### The batch validity predicate, characterised -/

theorem canBuildFloorCellsLoop_eq (w : ECSWorld) (gr : ℚ) (planned : List GridCell) :
    ∀ (cells : List GridCell) (support : Bool),
      canBuildFloorCellsLoop w gr planned cells support =
        (cells.all (fun c => !(getStructureEntityAt w c).isSome &&
            isValidFloorSegmentPlacement w gr c planned) &&
         (support || cells.any (fun c => hasExistingFloorNeighbor w c))) := by
  intro cells
  induction cells with
  | nil => intro support; simp [canBuildFloorCellsLoop]
  | cons c cs ih =>
    intro support
    unfold canBuildFloorCellsLoop
    by_cases hs : (getStructureEntityAt w c).isSome = true
    · rw [if_pos hs]
      simp only [List.all_cons, hs, Bool.not_true, Bool.false_and, Bool.and_false]
    · simp only [Bool.not_eq_true] at hs
      by_cases hv : isValidFloorSegmentPlacement w gr c planned = true
      · rw [if_neg (by simp [hs]), if_pos hv, ih]
        simp only [List.all_cons, List.any_cons, hs, hv, Bool.not_false, Bool.true_and,
          Bool.and_true, Bool.or_assoc]
      · simp only [Bool.not_eq_true] at hv
        rw [if_neg (by simp [hs]), if_neg (by simp [hv])]
        simp only [List.all_cons, hs, hv, Bool.not_false, Bool.true_and, Bool.false_and,
          Bool.and_false]

/-- The claim's description of a valid floor-drag batch: no cell holds a
structure, every above-ground cell has an axis-adjacent floor in the world
or in the batch, and some cell has external support (a pre-existing
adjacent floor, or the batch lies on the ground row). -/
def floorBatchValidSpec (w : ECSWorld) (gr : ℚ) (cells : List GridCell) : Prop :=
  cells ≠ [] ∧
  (∀ c ∈ cells, getStructureEntityAt w c = none) ∧
  (∀ c ∈ cells, c.y ≠ gr →
    ∃ n ∈ axisNeighbors c, (floorEntityAt w n).isSome = true ∨ n ∈ cells) ∧
  ((∃ c ∈ cells, c.y = gr) ∨ ∃ c ∈ cells, hasExistingFloorNeighbor w c = true)

instance wfBoundDecidable (w : ECSWorld) : Decidable w.wfBound := by
  unfold ECSWorld.wfBound
  infer_instance

instance floorBatchValidSpecDecidable (w : ECSWorld) (gr : ℚ) (cells : List GridCell) :
    Decidable (floorBatchValidSpec w gr cells) := by
  unfold floorBatchValidSpec
  infer_instance

theorem isValidFloorSegmentPlacement_iff (w : ECSWorld) (gr : ℚ) (c : GridCell)
    (planned : List GridCell) :
    isValidFloorSegmentPlacement w gr c planned = true ↔
      (c.y ≠ gr → ∃ n ∈ axisNeighbors c, (floorEntityAt w n).isSome = true ∨ n ∈ planned) := by
  unfold isValidFloorSegmentPlacement
  by_cases hy : c.y = gr
  · simp [hy]
  · simp [hy, List.any_eq_true]

/-- `canBuildFloorCells` agrees with the claim's validity description on
every batch whose cells share one row (as every drag batch does). -/
theorem canBuildFloorCells_iff (w : ECSWorld) (gr : ℚ) (cells : List GridCell)
    (hsame : ∀ c1 ∈ cells, ∀ c2 ∈ cells, GridCell.y c1 = GridCell.y c2) :
    canBuildFloorCells w gr cells = true ↔ floorBatchValidSpec w gr cells := by
  match cells with
  | [] => simp [canBuildFloorCells, floorBatchValidSpec]
  | c0 :: cs =>
    rw [canBuildFloorCells, canBuildFloorCellsLoop_eq]
    constructor
    · intro h
      simp only [Bool.and_eq_true, List.all_eq_true, Bool.and_eq_true, Bool.not_eq_true',
        Bool.or_eq_true, decide_eq_true_eq, List.any_eq_true] at h
      obtain ⟨hall, hsup⟩ := h
      refine ⟨by simp, ?_, ?_, ?_⟩
      · intro c hc
        have := (hall c hc).1
        simpa [Option.isSome_iff_exists] using
          (Option.not_isSome_iff_eq_none.mp (by simp [this]))
      · intro c hc hy
        exact (isValidFloorSegmentPlacement_iff w gr c (c0 :: cs)).mp (hall c hc).2 hy
      · rcases hsup with h0 | hnb
        · exact Or.inl ⟨c0, by simp, h0⟩
        · exact Or.inr hnb
    · rintro ⟨-, hfree, habove, hsup⟩
      simp only [Bool.and_eq_true, List.all_eq_true, Bool.and_eq_true, Bool.not_eq_true',
        Bool.or_eq_true, decide_eq_true_eq, List.any_eq_true]
      refine ⟨fun c hc => ⟨by simp [hfree c hc], ?_⟩, ?_⟩
      · exact (isValidFloorSegmentPlacement_iff w gr c (c0 :: cs)).mpr (habove c hc)
      · rcases hsup with ⟨c, hc, hcy⟩ | hnb
        · exact Or.inl (by rw [hsame c0 (by simp) c hc]; exact hcy)
        · exact Or.inr hnb

theorem getFloorDragCells_length (s e : GridCell) :
    (getFloorDragCells s e).length = (max s.x e.x - min s.x e.x).floor.toNat + 1 := by
  unfold getFloorDragCells
  rw [List.length_map, List.length_range]

theorem getFloorDragCells_ne_nil (s e : GridCell) : getFloorDragCells s e ≠ [] := by
  intro h
  have hlen := getFloorDragCells_length s e
  rw [h] at hlen
  exact Nat.succ_ne_zero _ hlen.symm

theorem getFloorDragCells_sameY (s e : GridCell) :
    ∀ c1 ∈ getFloorDragCells s e, ∀ c2 ∈ getFloorDragCells s e,
      GridCell.y c1 = GridCell.y c2 := by
  intro c1 h1 c2 h2
  simp only [getFloorDragCells, List.mem_map] at h1 h2
  obtain ⟨i1, -, rfl⟩ := h1
  obtain ⟨i2, -, rfl⟩ := h2
  rfl

/-- **C1.** `applyFloorDrag` is atomic: an invalid batch (in the claim's
sense) or insufficient funds leaves the world untouched with `spent = 0`
and `changedMap = false`; otherwise a floor entity is created at every cell
and `spent` is the batch size times the floor cost (10). -/
theorem applyFloorDrag_atomic (w : ECSWorld) (gr : ℚ) (s e : GridCell) (funds : ℚ)
    (hwf : w.wfBound) :
    ((¬ floorBatchValidSpec w gr (getFloorDragCells s e) ∨
        funds < (getFloorDragCells s e).length * floorCost) →
      (applyFloorDrag w gr s e funds).world = w ∧
      (applyFloorDrag w gr s e funds).spent = 0 ∧
      (applyFloorDrag w gr s e funds).changedMap = false) ∧
    (floorBatchValidSpec w gr (getFloorDragCells s e) →
      (getFloorDragCells s e).length * floorCost ≤ funds →
      (∀ c ∈ getFloorDragCells s e,
        ∃ fe, fe ∈ (applyFloorDrag w gr s e funds).world.entities ∧
          (applyFloorDrag w gr s e funds).world.getPos fe = some ⟨c.x, c.y⟩ ∧
          ((applyFloorDrag w gr s e funds).world.getFloor fe).isSome = true) ∧
      (applyFloorDrag w gr s e funds).spent = (getFloorDragCells s e).length * floorCost ∧
      (applyFloorDrag w gr s e funds).changedMap = true) := by
  have hiff := canBuildFloorCells_iff w gr (getFloorDragCells s e) (getFloorDragCells_sameY s e)
  constructor
  · intro hbad
    unfold applyFloorDrag getFloorDragPreview
    by_cases hv : canBuildFloorCells w gr (getFloorDragCells s e) = true
    · have hspec := hiff.mp hv
      rcases hbad with hbad | hbad
      · exact absurd hspec hbad
      · rw [if_neg (by simp [hv]), if_pos (by simp [decide_eq_true_eq, not_le, hbad])]
        exact ⟨rfl, rfl, rfl⟩
    · rw [if_pos (by simp [Bool.not_eq_true] at hv ⊢; exact hv)]
      exact ⟨rfl, rfl, rfl⟩
  · intro hspec hcost
    have hv : canBuildFloorCells w gr (getFloorDragCells s e) = true := hiff.mpr hspec
    unfold applyFloorDrag getFloorDragPreview
    rw [if_neg (by simp [hv]), if_neg (by simp [decide_eq_true_eq]; exact hcost)]
    refine ⟨?_, rfl, ?_⟩
    · intro c hc
      exact foldSpawn_creates gr (getFloorDragCells s e) w hwf c hc
    · simp only [decide_eq_true_eq]
      have := getFloorDragCells_ne_nil s e
      exact List.length_pos.mpr this

/-- Concrete instance of C1: three ground-row cells, enough funds. -/
def dragWitnessWorld : ECSWorld :=
  { nextEntityId := 1, entities := [], position := [], agent := [], floor := [],
    elevator := [], elevatorCar := [], floatingText := [] }

theorem applyFloorDrag_atomic_witness :
    (floorBatchValidSpec dragWitnessWorld 5 (getFloorDragCells ⟨0, 5⟩ ⟨2, 5⟩) ∧
      (getFloorDragCells ⟨0, 5⟩ ⟨2, 5⟩).length * floorCost ≤ 100) ∧
    ((applyFloorDrag dragWitnessWorld 5 ⟨0, 5⟩ ⟨2, 5⟩ 100).spent =
        (getFloorDragCells ⟨0, 5⟩ ⟨2, 5⟩).length * floorCost ∧
      (applyFloorDrag dragWitnessWorld 5 ⟨0, 5⟩ ⟨2, 5⟩ 100).changedMap = true) :=
  ⟨⟨by with_unfolding_all decide, by with_unfolding_all decide⟩,
    ((applyFloorDrag_atomic dragWitnessWorld 5 ⟨0, 5⟩ ⟨2, 5⟩ 100 (by decide)).2
      (by with_unfolding_all decide) (by with_unfolding_all decide)).2⟩

/-! ### AgentSystem: trip issuance -/

/-- `Math.round`: round half toward positive infinity, as a rational. -/
def jsRound (q : ℚ) : ℚ := ((round q : ℤ) : ℚ)

/-- `computeDirection(sourceFloorY, targetFloorY)`. -/
def computeDirection (sourceFloorY targetFloorY : ℚ) : Dir :=
  if targetFloorY < sourceFloorY then Dir.UP
  else if targetFloorY > sourceFloorY then Dir.DOWN
  else Dir.NONE

/-- `hasFloorAt(x, y)` (the scan over `query('position','floor')`). -/
def hasFloorAtXY (w : ECSWorld) (x y : ℚ) : Bool :=
  w.queryPosFloor.any (fun e =>
    match w.getPos e with
    | some p => decide (p.x = x ∧ p.y = y)
    | none => false)

/-- Add one shaft segment to the column map (`Map<number, Set<number>>`,
keyed in first-insertion order, each floor set in insertion order). -/
def insertShaftFloor (m : List (ℚ × List ℚ)) (x y : ℚ) : List (ℚ × List ℚ) :=
  if m.any (fun p => decide (p.1 = x)) then
    m.map (fun p => if p.1 = x then (x, if y ∈ p.2 then p.2 else p.2 ++ [y]) else p)
  else
    m ++ [(x, [y])]

/-- `getShaftFloorsByColumn()` (also the map built inside
`AgentSystem.getCandidateShaftColumns`). -/
def getShaftFloorsByColumn (w : ECSWorld) : List (ℚ × List ℚ) :=
  w.queryPosElevator.foldl
    (fun m e =>
      match w.getPos e with
      | some p => insertShaftFloor m p.x p.y
      | none => m)
    []

/-- `getCandidateShaftColumns(sourceFloorY, targetFloorY)`. -/
def getCandidateShaftColumns (w : ECSWorld) (sourceFloorY targetFloorY : ℚ) : List ℚ :=
  (getShaftFloorsByColumn w).filterMap (fun p =>
    if sourceFloorY ∈ p.2 ∧ targetFloorY ∈ p.2 then some p.1 else none)

/-- `chooseBestShaftColumn(columns, sourceX, destinationX)`: strict-min fold,
first minimum wins; only called on non-empty lists (`[]` yields 0). -/
def chooseBestShaftColumn (cols : List ℚ) (sourceX destinationX : ℚ) : ℚ :=
  match cols with
  | [] => 0
  | c0 :: _ =>
    (cols.foldl
      (fun (acc : ℚ × Option ℚ) col =>
        let score := |sourceX - col| + |destinationX - col|
        match acc.2 with
        | none => (col, some score)
        | some best => if score < best then (col, some score) else acc)
      (c0, none)).1

/-- `resolveWaitXForShaft(shaftX, floorY, preferredX)` (identical in
`AgentSystem` and `ElevatorSystem`). -/
def resolveWaitXForShaft (w : ECSWorld) (shaftX floorY preferredX : ℚ) : Option ℚ :=
  ([shaftX - 1, shaftX + 1].foldl
    (fun (acc : Option (ℚ × ℚ)) candidateX =>
      if hasFloorAtXY w candidateX floorY then
        let distance := |candidateX - preferredX|
        match acc with
        | none => some (candidateX, distance)
        | some best => if distance < best.2 then some (candidateX, distance) else acc
      else acc)
    none).map (·.1)

/-- `issueTrip(agentId, targetFloor, despawnOnArrival)`: returns the updated
world and the success boolean. -/
def issueTrip (w : ECSWorld) (agentId : Nat) (targetFloor : GridCell)
    (despawnOnArrival : Bool) : ECSWorld × Bool :=
  match w.getAgent agentId, w.getPos agentId with
  | some agent, some position =>
    let sourceFloorY := jsRound position.y
    let agent1 := { agent with
      targetX := targetFloor.x
      targetY := targetFloor.y
      targetFloorY := some targetFloor.y
      sourceFloorY := some sourceFloorY
      desiredDirection := computeDirection sourceFloorY targetFloor.y
      assignedCarId := none
      waitX := none
      callRegistered := false
      waitMs := 0
      despawnOnArrival := despawnOnArrival }
    if sourceFloorY = targetFloor.y then
      (w.setAgent agentId { agent1 with
        assignedShaftX := none, waitX := none, phase := Phase.WALK_TO_TARGET }, true)
    else
      let shafts := getCandidateShaftColumns w sourceFloorY targetFloor.y
      if shafts = [] then
        (w.setAgent agentId { agent1 with phase := Phase.IDLE, mood := Mood.angry }, false)
      else
        let assignedShaft := chooseBestShaftColumn shafts position.x targetFloor.x
        match resolveWaitXForShaft w assignedShaft sourceFloorY position.x with
        | none =>
          (w.setAgent agentId { agent1 with phase := Phase.IDLE, mood := Mood.angry }, false)
        | some waitX =>
          (w.setAgent agentId { agent1 with
            assignedShaftX := some assignedShaft, waitX := some waitX,
            phase := Phase.WALK_TO_SHAFT, mood := Mood.neutral }, true)
  | _, _ => (w, false)

theorem resolveWaitXForShaft_none (w : ECSWorld) (shaftX floorY preferredX : ℚ)
    (h1 : hasFloorAtXY w (shaftX - 1) floorY = false)
    (h2 : hasFloorAtXY w (shaftX + 1) floorY = false) :
    resolveWaitXForShaft w shaftX floorY preferredX = none := by
  unfold resolveWaitXForShaft
  simp [List.foldl, h1, h2]

/-- **C2.** For an agent whose (rounded) source floor differs from the
target floor, if no shaft column serves both floors, or the chosen column
has no walkable floor tile at `column ± 1` on the source floor, then
`issueTrip` returns `false` and leaves the agent in phase `IDLE` with mood
"angry".  (`issueTrip` is a total Lean function, so it cannot throw.) -/
theorem issueTrip_fails_without_route (w : ECSWorld) (agentId : Nat)
    (targetFloor : GridCell) (despawnOnArrival : Bool) (agent : Agent) (position : Pos)
    (hag : w.getAgent agentId = some agent) (hpos : w.getPos agentId = some position)
    (hdiff : jsRound position.y ≠ targetFloor.y)
    (hfail :
      getCandidateShaftColumns w (jsRound position.y) targetFloor.y = [] ∨
      (hasFloorAtXY w
          (chooseBestShaftColumn (getCandidateShaftColumns w (jsRound position.y) targetFloor.y)
            position.x targetFloor.x - 1) (jsRound position.y) = false ∧
       hasFloorAtXY w
          (chooseBestShaftColumn (getCandidateShaftColumns w (jsRound position.y) targetFloor.y)
            position.x targetFloor.x + 1) (jsRound position.y) = false)) :
    (issueTrip w agentId targetFloor despawnOnArrival).2 = false ∧
    ((issueTrip w agentId targetFloor despawnOnArrival).1.getAgent agentId).map Agent.phase =
      some Phase.IDLE ∧
    ((issueTrip w agentId targetFloor despawnOnArrival).1.getAgent agentId).map Agent.mood =
      some Mood.angry := by
  unfold issueTrip
  rw [hag, hpos]
  simp only [if_neg hdiff]
  by_cases hs : getCandidateShaftColumns w (jsRound position.y) targetFloor.y = []
  · simp only [if_pos hs]
    refine ⟨?_, ?_, ?_⟩ <;> simp [ECSWorld.setAgent, ECSWorld.getAgent]
  · simp only [if_neg hs]
    have hnone : resolveWaitXForShaft w
        (chooseBestShaftColumn (getCandidateShaftColumns w (jsRound position.y) targetFloor.y)
          position.x targetFloor.x) (jsRound position.y) position.x = none := by
      rcases hfail with hfail | hfail
      · exact absurd hfail hs
      · exact resolveWaitXForShaft_none w _ _ _ hfail.1 hfail.2
    rw [hnone]
    refine ⟨?_, ?_, ?_⟩ <;> simp [ECSWorld.setAgent, ECSWorld.getAgent]

/-- Concrete instance of C2 (the spec's scenario): one agent on the ground
row, a trip to an upper floor, and no shafts at all. -/
def tripWitnessAgent : Agent :=
  { mood := Mood.neutral, speed := 2, phase := Phase.IDLE, stress := 0, waitMs := 0,
    sourceFloorY := none, targetFloorY := none, targetX := 0, targetY := 0,
    desiredDirection := Dir.NONE, assignedShaftX := none, waitX := none,
    assignedCarId := none, callRegistered := false, despawnOnArrival := false }

def tripWitnessWorld : ECSWorld :=
  { nextEntityId := 2, entities := [1], position := [(1, ⟨0, 5⟩)],
    agent := [(1, tripWitnessAgent)], floor := [], elevator := [],
    elevatorCar := [], floatingText := [] }

theorem issueTrip_fails_without_route_witness :
    (tripWitnessWorld.getAgent 1 = some tripWitnessAgent ∧
      jsRound (5 : ℚ) ≠ (0 : ℚ) ∧
      getCandidateShaftColumns tripWitnessWorld (jsRound (5 : ℚ)) 0 = []) ∧
    ((issueTrip tripWitnessWorld 1 ⟨0, 0⟩ false).2 = false ∧
      ((issueTrip tripWitnessWorld 1 ⟨0, 0⟩ false).1.getAgent 1).map Agent.phase =
        some Phase.IDLE ∧
      ((issueTrip tripWitnessWorld 1 ⟨0, 0⟩ false).1.getAgent 1).map Agent.mood =
        some Mood.angry) :=
  ⟨⟨by with_unfolding_all decide, by with_unfolding_all decide,
      by with_unfolding_all decide⟩,
    issueTrip_fails_without_route tripWitnessWorld 1 ⟨0, 0⟩ false tripWitnessAgent ⟨0, 5⟩
      (by with_unfolding_all decide) (by with_unfolding_all decide)
      (by with_unfolding_all decide) (Or.inl (by with_unfolding_all decide))⟩

/-! ### ElevatorSystem -/

/-- Generic `Map.get` for non-Nat keys. -/
def mapGet {κ α : Type} [DecidableEq κ] (m : List (κ × α)) (k : κ) : Option α :=
  (m.find? (fun p => decide (p.1 = k))).map (·.2)

/-- Generic `Map.set` (replace in place, else append). -/
def mapSet {κ α : Type} [DecidableEq κ] (m : List (κ × α)) (k : κ) (v : α) : List (κ × α) :=
  if m.any (fun p => decide (p.1 = k)) then
    m.map (fun p => if p.1 = k then (k, v) else p)
  else
    m ++ [(k, v)]

/-- Stable insertion placing `a` before the first `b` it may precede
(`r a b` mirrors "comparator(a, b) ≤ 0"). -/
def insertSortedBy {α : Type} (r : α → α → Bool) (a : α) : List α → List α
  | [] => [a]
  | b :: bs => if r a b then a :: b :: bs else b :: insertSortedBy r a bs

/-- Stable sort (the unique stable order produced by JS `Array#sort` with a
consistent comparator). -/
def sortByBool {α : Type} (r : α → α → Bool) : List α → List α
  | [] => []
  | x :: xs => insertSortedBy r x (sortByBool r xs)

/-- `dedupeStops(stops)`. -/
def dedupeStops (stops : List ℚ) : List ℚ :=
  stops.foldl (fun result stop => if stop ∈ result then result else result ++ [stop]) []

/-- `ElevatorBank`. -/
structure ElevatorBank where
  id : Nat
  columns : List ℚ
  deriving DecidableEq

/-- `Math.max(...)` over a non-empty list (only called on non-empty sets). -/
def listMax : List ℚ → ℚ
  | [] => 0
  | h :: t => t.foldl max h

/-- The bank-building loop over the remaining sorted columns, carrying the
previous column, the active run and the banks built so far. -/
def buildBanksLoop : List ℚ → ℚ → List ℚ → List ElevatorBank → List ElevatorBank
  | [], _, active, banks => banks ++ [{ id := banks.length + 1, columns := active }]
  | c :: rest, prev, active, banks =>
    if c - prev ≤ 1 then buildBanksLoop rest c (active ++ [c]) banks
    else buildBanksLoop rest c [c] (banks ++ [{ id := banks.length + 1, columns := active }])

/-- `buildBanks(floorsByColumn)`: sort the served columns ascending and cut
a new bank at every gap above 1. -/
def buildBanks (floorsByColumn : List (ℚ × List ℚ)) : List ElevatorBank :=
  let sortedColumns := sortByBool (fun a b => decide (a ≤ b)) (floorsByColumn.map (·.1))
  match sortedColumns with
  | [] => []
  | c0 :: rest => buildBanksLoop rest c0 [c0] []

/-- Column → bank lookup (`buildBankLookup`); bank columns are pairwise
disjoint, so the first bank containing the column is the map entry.  The
same `find` is used by `dispatchCalls`. -/
def bankForColumn (banks : List ElevatorBank) (col : ℚ) : Option ElevatorBank :=
  banks.find? (fun bank => bank.columns.any (fun c => decide (c = col)))

/-- The `carsByColumn` map built at the start of `syncCars`. -/
def carsByColumnMap (w : ECSWorld) : List (ℚ × Nat) :=
  w.queryPosCar.foldl
    (fun m e =>
      match w.getCar e with
      | some car => mapSet m car.column e
      | none => m)
    []

/-- `syncCars(floorsByColumn, bankByColumn)`: refresh bank ids, spawn a car
for every served column without one (at its highest served floor), destroy
cars on columns with no shaft left and reset their assigned agents.  The
spawned car's `renderable` component is presentation-only and not
modelled. -/
def syncCars (w : ECSWorld) (floorsByColumn : List (ℚ × List ℚ))
    (banks : List ElevatorBank) : ECSWorld :=
  let carsByColumn := carsByColumnMap w
  let w1 := floorsByColumn.foldl
    (fun acc p =>
      match bankForColumn banks p.1 with
      | none => acc
      | some bank =>
        match mapGet carsByColumn p.1 with
        | some existingCarId =>
          match acc.getCar existingCarId with
          | some existingCar => acc.setCar existingCarId { existingCar with bankId := bank.id }
          | none => acc
        | none =>
          let carEntity := acc.nextEntityId
          let acc1 := (acc.createEntity).2
          let acc2 := acc1.addPos carEntity ⟨p.1, listMax p.2⟩
          acc2.addCar carEntity
            { state := ElevState.IDLE, direction := Dir.NONE, speed := 28/10,
              column := p.1, bankId := bank.id, stopQueue := [], phaseTimerMs := 0,
              capacity := 4, occupants := [] })
    w
  carsByColumn.foldl
    (fun acc p =>
      if floorsByColumn.any (fun q => decide (q.1 = p.1)) then acc
      else
        let acc1 := acc.destroyEntity p.2
        acc1.queryAgent.foldl
          (fun acc2 agentEntity =>
            match acc2.getAgent agentEntity with
            | some agent =>
              if agent.assignedCarId = some p.2 then
                acc2.setAgent agentEntity
                  { agent with
                      assignedCarId := none
                      waitX := none
                      callRegistered := false
                      phase := Phase.WAIT_AT_SHAFT }
              else acc2
            | none => acc2)
          acc1)
    w1

/-- `addStop(car, floor)`: push unless already queued. -/
def addStop (car : ElevatorCar) (floor : ℚ) : ElevatorCar :=
  if floor ∈ car.stopQueue then car
  else { car with stopQueue := car.stopQueue ++ [floor] }

/-- The `carsByBank` map built at the start of `dispatchCalls`. -/
def carsByBankMap (w : ECSWorld) : List (Nat × List Nat) :=
  w.queryPosCar.foldl
    (fun m e =>
      match w.getCar e with
      | some car => mapSet m car.bankId ((mapGet m car.bankId).getD [] ++ [e])
      | none => m)
    []

/-- One iteration of the candidate-scoring loop of `dispatchCalls`. -/
def pickBestCarStep (w : ECSWorld) (floorsByColumn : List (ℚ × List ℚ))
    (desiredDirection : Dir) (shaftX sourceFloor targetFloor : ℚ)
    (acc : Option (Nat × ℚ)) (carEntity : Nat) : Option (Nat × ℚ) :=
  match w.getCar carEntity, w.getPos carEntity with
  | some car, some carPosition =>
    match mapGet floorsByColumn car.column with
    | some servedFloors =>
      if sourceFloor ∈ servedFloors ∧ targetFloor ∈ servedFloors then
        let directionPenalty : ℚ :=
          if car.direction = Dir.NONE ∨ car.direction = desiredDirection then 0 else 8
        let score := |carPosition.y - sourceFloor| + directionPenalty +
          (car.occupants.length : ℚ) * 2 + (car.stopQueue.length : ℚ) * (14/10) +
          |car.column - shaftX| * (8/10)
        match acc with
        | none => some (carEntity, score)
        | some best => if score < best.2 then some (carEntity, score) else acc
      else acc
    | none => acc
  | _, _ => acc

/-- The candidate-scoring loop of `dispatchCalls`: lowest score wins, the
earliest candidate wins ties (strict `<` against the best so far). -/
def pickBestCar (w : ECSWorld) (floorsByColumn : List (ℚ × List ℚ))
    (desiredDirection : Dir) (shaftX sourceFloor targetFloor : ℚ)
    (carCandidates : List Nat) : Option Nat :=
  (carCandidates.foldl
    (pickBestCarStep w floorsByColumn desiredDirection shaftX sourceFloor targetFloor)
    none).map (·.1)

/-- The per-agent body of the `dispatchCalls` loop. -/
def dispatchAgent (acc : ECSWorld) (floorsByColumn : List (ℚ × List ℚ))
    (banks : List ElevatorBank) (carsByBank : List (Nat × List Nat))
    (agentEntity : Nat) : ECSWorld :=
  match acc.getAgent agentEntity with
  | none => acc
  | some agent =>
    if agent.phase ≠ Phase.WAIT_AT_SHAFT then acc
    else if agent.callRegistered ∧ agent.assignedCarId ≠ none then acc
    else
      match agent.assignedShaftX, agent.sourceFloorY, agent.targetFloorY with
      | some shaftX, some sourceFloor, some targetFloor =>
        match bankForColumn banks shaftX with
        | none => acc
        | some bank =>
          let carCandidates := (mapGet carsByBank bank.id).getD []
          match pickBestCar acc floorsByColumn agent.desiredDirection shaftX sourceFloor
              targetFloor carCandidates with
          | none => acc
          | some bestCarEntity =>
            match acc.getCar bestCarEntity with
            | none => acc
            | some selectedCar =>
              let acc1 := acc.setCar bestCarEntity
                (addStop (addStop selectedCar sourceFloor) targetFloor)
              let acc2 := acc1.setAgent agentEntity
                { agent with assignedCarId := some bestCarEntity, callRegistered := true }
              if shaftX ≠ selectedCar.column then
                match resolveWaitXForShaft acc2 selectedCar.column sourceFloor
                    ((agent.waitX).getD shaftX) with
                | none => acc2
                | some waitX =>
                  match acc2.getAgent agentEntity with
                  | some agent2 => acc2.setAgent agentEntity
                      { agent2 with
                          assignedShaftX := some selectedCar.column
                          waitX := some waitX
                          phase := Phase.WALK_TO_SHAFT }
                  | none => acc2
              else acc2
      | _, _, _ => acc

/-- `dispatchCalls(floorsByColumn, banks)`. -/
def dispatchCalls (w : ECSWorld) (floorsByColumn : List (ℚ × List ℚ))
    (banks : List ElevatorBank) : ECSWorld :=
  let carsByBank := carsByBankMap w
  w.queryPosAgent.foldl
    (fun acc agentEntity => dispatchAgent acc floorsByColumn banks carsByBank agentEntity)
    w

/-- The waiting comparator of `arrangeQueueLines` and `loadAtFloor`:
"`a` may precede `b`" is "comparator(a, b) = bWait - aWait ≤ 0"; a missing
agent compares equal (comparator 0). -/
def agentWaitBefore (w : ECSWorld) (a b : Nat) : Bool :=
  match w.getAgent a, w.getAgent b with
  | some aAgent, some bAgent => decide (bAgent.waitMs ≤ aAgent.waitMs)
  | _, _ => true

/-- `arrangeQueueLines()`: group waiting agents by (floor, shaft, side),
order each group by wait time (longest first) and fan it out from the
boarding tile, clamped to walkable tiles. -/
def arrangeQueueLines (w : ECSWorld) : ECSWorld :=
  let groups := w.queryPosAgent.foldl
    (fun (g : List ((ℚ × ℚ × ℚ) × List Nat)) agentEntity =>
      match w.getAgent agentEntity with
      | some agent =>
        if agent.phase = Phase.WAIT_AT_SHAFT then
          match agent.sourceFloorY, agent.assignedShaftX, agent.waitX with
          | some floorY, some shaftX, some sideX =>
            mapSet g (floorY, shaftX, sideX)
              ((mapGet g (floorY, shaftX, sideX)).getD [] ++ [agentEntity])
          | _, _, _ => g
        else g
      | none => g)
    []
  groups.foldl
    (fun acc group =>
      let floorY := group.1.1
      let shaftX := group.1.2.1
      let sideX := group.1.2.2
      let direction : ℚ := if sideX < shaftX then -1 else 1
      let sorted := sortByBool (agentWaitBefore acc) group.2
      (sorted.enum).foldl
        (fun acc2 pair =>
          match acc2.getPos pair.2 with
          | none => acc2
          | some _ =>
            let candidateX := sideX + direction * (pair.1 : ℚ)
            let assignedX := if hasFloorAtXY acc2 candidateX floorY then candidateX else sideX
            acc2.setPos pair.2 ⟨assignedX, floorY⟩)
        acc)
    w

/-- `unloadAtFloor(carEntity, column, floor)`. -/
def unloadAtFloor (w : ECSWorld) (carEntity : Nat) (column floor : ℚ) : ECSWorld :=
  match w.getCar carEntity with
  | none => w
  | some _ =>
    w.queryPosAgent.foldl
      (fun acc agentEntity =>
        match acc.getAgent agentEntity, acc.getPos agentEntity with
        | some agent, some _ =>
          if agent.phase ≠ Phase.RIDING ∨ agent.assignedCarId ≠ some carEntity then acc
          else if agent.targetFloorY ≠ some floor then acc
          else
            match resolveWaitXForShaft acc column floor agent.targetX with
            | none =>
              match acc.getCar carEntity with
              | some car => acc.setCar carEntity (addStop car floor)
              | none => acc
            | some exitX =>
              let acc1 := acc.setPos agentEntity ⟨exitX, floor⟩
              let acc2 := acc1.setAgent agentEntity
                { agent with
                    phase := Phase.WALK_TO_TARGET
                    sourceFloorY := some floor
                    assignedCarId := none
                    assignedShaftX := none
                    waitX := none
                    callRegistered := false
                    waitMs := 0 }
              match acc2.getCar carEntity with
              | some car => acc2.setCar carEntity
                  { car with occupants :=
                      car.occupants.filter (fun occ => decide (occ ≠ agentEntity)) }
              | none => acc2
        | _, _ => acc)
      w

/-- The waiting-agent scan at the start of `loadAtFloor`. -/
def waitingAgentsFor (w : ECSWorld) (carEntity : Nat) (column floor : ℚ) : List Nat :=
  w.queryPosAgent.filter (fun agentEntity =>
    match w.getAgent agentEntity with
    | some agent =>
      decide (agent.phase = Phase.WAIT_AT_SHAFT ∧ agent.assignedCarId = some carEntity ∧
        agent.assignedShaftX = some column ∧ agent.sourceFloorY = some floor)
    | none => false)

/-- The boarding-loop body of `loadAtFloor`. -/
def boardOneAgent (carEntity : Nat) (column floor : ℚ) (acc : ECSWorld)
    (agentEntity : Nat) : ECSWorld :=
  match acc.getAgent agentEntity, acc.getPos agentEntity with
  | some agent, some _ =>
    let acc1 := acc.setAgent agentEntity { agent with phase := Phase.RIDING, waitMs := 0 }
    let acc2 := acc1.setPos agentEntity ⟨column, floor⟩
    let acc3 :=
      match acc2.getCar carEntity with
      | some car2 =>
        if agentEntity ∈ car2.occupants then acc2
        else acc2.setCar carEntity { car2 with occupants := car2.occupants ++ [agentEntity] }
      | none => acc2
    match agent.targetFloorY with
    | some targetFloor =>
      match acc3.getCar carEntity with
      | some car3 => acc3.setCar carEntity (addStop car3 targetFloor)
      | none => acc3
    | none => acc3
  | _, _ => acc

/-- The overflow-loop body of `loadAtFloor`. -/
def clearOverflowAgent (acc : ECSWorld) (agentEntity : Nat) : ECSWorld :=
  match acc.getAgent agentEntity with
  | some agent =>
    acc.setAgent agentEntity { agent with assignedCarId := none, callRegistered := false }
  | none => acc

/-- The sorted waiting queue of `loadAtFloor` (longest wait first, stable). -/
def loadQueue (w : ECSWorld) (carEntity : Nat) (column floor : ℚ) : List Nat :=
  sortByBool (agentWaitBefore w) (waitingAgentsFor w carEntity column floor)

/-- `Math.max(0, car.capacity - car.occupants.length)` as a slice count. -/
def remainingCap (car : ElevatorCar) : Nat :=
  (max 0 (car.capacity - (car.occupants.length : ℚ))).floor.toNat

/-- `loadAtFloor(carEntity, column, floor)`: board the longest-waiting
agents up to the remaining capacity, enqueue their target floors, and clear
the dispatch lock of overflow agents. -/
def loadAtFloor (w : ECSWorld) (carEntity : Nat) (column floor : ℚ) : ECSWorld :=
  match w.getCar carEntity with
  | none => w
  | some car =>
    let sorted := loadQueue w carEntity column floor
    let boardingAgents := sorted.take (remainingCap car)
    let overflowAgents := sorted.drop (remainingCap car)
    let w1 := boardingAgents.foldl (boardOneAgent carEntity column floor) w
    overflowAgents.foldl clearOverflowAgent w1

/-- The per-car body of the `updateCars` loop. -/
def updateOneCar (acc : ECSWorld) (deltaMs : ℚ) (floorsByColumn : List (ℚ × List ℚ))
    (carEntity : Nat) : ECSWorld :=
  match acc.getCar carEntity, acc.getPos carEntity with
  | some car0, some position =>
    match mapGet floorsByColumn car0.column with
    | none => acc
    | some servedFloors =>
      let prunedQueue :=
        dedupeStops (car0.stopQueue.filter (fun stop => decide (stop ∈ servedFloors)))
      let car := { car0 with stopQueue := prunedQueue }
      let acc := acc.setCar carEntity car
      match car.state with
      | ElevState.IDLE =>
        if car.stopQueue.length > 0 then
          acc.setCar carEntity { car with direction := Dir.NONE, state := ElevState.MOVING }
        else
          acc.setCar carEntity { car with direction := Dir.NONE }
      | ElevState.MOVING =>
        match car.stopQueue.head? with
        | none => acc.setCar carEntity { car with state := ElevState.IDLE, direction := Dir.NONE }
        | some targetFloor =>
          if |position.y - targetFloor| < 1/100 then
            let acc1 := acc.setPos carEntity ⟨position.x, targetFloor⟩
            let acc2 := unloadAtFloor acc1 carEntity car.column targetFloor
            match acc2.getCar carEntity with
            | some car2 => acc2.setCar carEntity
                { car2 with
                    state := ElevState.UNLOADING
                    phaseTimerMs := 450
                    direction := Dir.NONE }
            | none => acc2
          else
            let speedDelta := car.speed * (deltaMs / 1000)
            if targetFloor < position.y then
              let newY := position.y - speedDelta
              if newY ≤ targetFloor then
                let acc1 := acc.setPos carEntity ⟨position.x, targetFloor⟩
                let acc2 := unloadAtFloor acc1 carEntity car.column targetFloor
                match acc2.getCar carEntity with
                | some car2 => acc2.setCar carEntity
                    { car2 with
                        state := ElevState.UNLOADING
                        phaseTimerMs := 450
                        direction := Dir.NONE }
                | none => acc2
              else
                (acc.setCar carEntity { car with direction := Dir.UP }).setPos carEntity
                  ⟨position.x, newY⟩
            else
              let newY := position.y + speedDelta
              if targetFloor ≤ newY then
                let acc1 := acc.setPos carEntity ⟨position.x, targetFloor⟩
                let acc2 := unloadAtFloor acc1 carEntity car.column targetFloor
                match acc2.getCar carEntity with
                | some car2 => acc2.setCar carEntity
                    { car2 with
                        state := ElevState.UNLOADING
                        phaseTimerMs := 450
                        direction := Dir.NONE }
                | none => acc2
              else
                (acc.setCar carEntity { car with direction := Dir.DOWN }).setPos carEntity
                  ⟨position.x, newY⟩
      | ElevState.UNLOADING =>
        let car2 := { car with phaseTimerMs := car.phaseTimerMs - deltaMs }
        if car2.phaseTimerMs ≤ 0 then
          let floor := jsRound position.y
          let acc1 := acc.setCar carEntity car2
          let acc2 := loadAtFloor acc1 carEntity car2.column floor
          match acc2.getCar carEntity with
          | some car3 => acc2.setCar carEntity
              { car3 with state := ElevState.LOADING, phaseTimerMs := 500 }
          | none => acc2
        else acc.setCar carEntity car2
      | ElevState.LOADING =>
        let car2 := { car with phaseTimerMs := car.phaseTimerMs - deltaMs }
        if car2.phaseTimerMs ≤ 0 then
          let floor := jsRound position.y
          let newQueue :=
            if car2.stopQueue.head? = some floor then car2.stopQueue.tail
            else car2.stopQueue.filter (fun stop => decide (stop ≠ floor))
          acc.setCar carEntity
            { car2 with
                stopQueue := newQueue
                state := if newQueue.length > 0 then ElevState.MOVING else ElevState.IDLE
                direction := Dir.NONE }
        else acc.setCar carEntity car2
  | _, _ => acc

/-- `updateCars(deltaMs, floorsByColumn)`. -/
def updateCars (w : ECSWorld) (deltaMs : ℚ) (floorsByColumn : List (ℚ × List ℚ)) : ECSWorld :=
  w.queryPosCar.foldl (fun acc carEntity => updateOneCar acc deltaMs floorsByColumn carEntity) w

/-- `syncRiders()`. -/
def syncRiders (w : ECSWorld) : ECSWorld :=
  w.queryPosAgent.foldl
    (fun acc agentEntity =>
      match acc.getAgent agentEntity, acc.getPos agentEntity with
      | some agent, some _ =>
        if agent.phase ≠ Phase.RIDING then acc
        else
          match agent.assignedCarId with
          | none => acc.setAgent agentEntity
              { agent with phase := Phase.WAIT_AT_SHAFT, callRegistered := false }
          | some carId =>
            match acc.getPos carId with
            | none => acc.setAgent agentEntity
                { agent with
                    assignedCarId := none
                    callRegistered := false
                    phase := Phase.WAIT_AT_SHAFT }
            | some carPosition => acc.setPos agentEntity carPosition
      | _, _ => acc)
    w

/-- `ElevatorSystem.update(deltaMs)`. -/
def elevatorUpdate (w : ECSWorld) (deltaMs : ℚ) : ECSWorld :=
  let floorsByColumn := getShaftFloorsByColumn w
  let banks := buildBanks floorsByColumn
  let w1 := syncCars w floorsByColumn banks
  let w2 := dispatchCalls w1 floorsByColumn banks
  let w3 := arrangeQueueLines w2
  let w4 := updateCars w3 deltaMs floorsByColumn
  syncRiders w4

/-! ### C3: dispatch picks the first minimal-score serving car -/

/-- A dispatch candidate is considered only if it has car and position
components and its column serves both the source and the target floor. -/
def carServes (w : ECSWorld) (floorsByColumn : List (ℚ × List ℚ))
    (sourceFloor targetFloor : ℚ) (carEntity : Nat) : Bool :=
  match w.getCar carEntity, w.getPos carEntity with
  | some car, some _ =>
    match mapGet floorsByColumn car.column with
    | some servedFloors => decide (sourceFloor ∈ servedFloors ∧ targetFloor ∈ servedFloors)
    | none => false
  | _, _ => false

/-- The dispatch score of a candidate: vertical distance, directional
mismatch penalty 8, occupants × 2, queued stops × 1.4, column distance ×
0.8 (0 for a candidate without components, which is never scored). -/
def dispatchScore (w : ECSWorld) (desiredDirection : Dir) (shaftX sourceFloor : ℚ)
    (carEntity : Nat) : ℚ :=
  match w.getCar carEntity, w.getPos carEntity with
  | some car, some carPosition =>
    |carPosition.y - sourceFloor| +
      (if car.direction = Dir.NONE ∨ car.direction = desiredDirection then 0 else 8) +
      (car.occupants.length : ℚ) * 2 + (car.stopQueue.length : ℚ) * (14/10) +
      |car.column - shaftX| * (8/10)
  | _, _ => 0

/-- First element of a list attaining the minimal score. -/
def firstMinBy {α : Type} (score : α → ℚ) : List α → Option α
  | [] => none
  | x :: xs =>
    match firstMinBy score xs with
    | none => some x
    | some y => if score x ≤ score y then some x else some y

theorem firstMinBy_eq_none {α : Type} (score : α → ℚ) (l : List α) :
    firstMinBy score l = none ↔ l = [] := by
  cases l with
  | nil => simp [firstMinBy]
  | cons x xs =>
    simp only [firstMinBy]
    constructor
    · intro h
      split at h
      · cases h
      · split at h <;> cases h
    · intro h; cases h

theorem firstMinBy_mem {α : Type} (score : α → ℚ) (l : List α) :
    ∀ (c : α), firstMinBy score l = some c → c ∈ l := by
  induction l with
  | nil => intro c h; cases h
  | cons x xs ih =>
    intro c h
    simp only [firstMinBy] at h
    cases hfm : firstMinBy score xs with
    | none =>
      rw [hfm] at h
      dsimp only at h
      cases h
      simp
    | some y =>
      rw [hfm] at h
      dsimp only at h
      by_cases hxy : score x ≤ score y
      · rw [if_pos hxy] at h
        cases h
        simp
      · rw [if_neg hxy] at h
        cases h
        simpa using Or.inr (ih _ hfm)

theorem firstMinBy_min {α : Type} (score : α → ℚ) (l : List α) :
    ∀ (c : α), firstMinBy score l = some c → ∀ b ∈ l, score c ≤ score b := by
  induction l with
  | nil => intro c h; cases h
  | cons x xs ih =>
    intro c h b hb
    simp only [firstMinBy] at h
    cases hfm : firstMinBy score xs with
    | none =>
      rw [hfm] at h
      dsimp only at h
      cases h
      rw [firstMinBy_eq_none] at hfm
      subst hfm
      rcases List.mem_cons.mp hb with rfl | hb
      · exact le_refl _
      · cases hb
    | some y =>
      rw [hfm] at h
      dsimp only at h
      by_cases hxy : score x ≤ score y
      · rw [if_pos hxy] at h
        cases h
        rcases List.mem_cons.mp hb with rfl | hb
        · exact le_refl _
        · exact le_trans hxy (ih y hfm b hb)
      · rw [if_neg hxy] at h
        cases h
        rcases List.mem_cons.mp hb with rfl | hb
        · exact le_of_lt (lt_of_not_le hxy)
        · exact ih c hfm b hb

theorem firstMinBy_earliest {α : Type} (score : α → ℚ) (l : List α) :
    ∀ (c : α), firstMinBy score l = some c →
      ∃ l1 l2, l = l1 ++ c :: l2 ∧ ∀ b ∈ l1, score c < score b := by
  induction l with
  | nil => intro c h; cases h
  | cons x xs ih =>
    intro c h
    simp only [firstMinBy] at h
    cases hfm : firstMinBy score xs with
    | none =>
      rw [hfm] at h
      dsimp only at h
      cases h
      exact ⟨[], xs, rfl, by simp⟩
    | some y =>
      rw [hfm] at h
      dsimp only at h
      by_cases hxy : score x ≤ score y
      · rw [if_pos hxy] at h
        cases h
        exact ⟨[], xs, rfl, by simp⟩
      · rw [if_neg hxy] at h
        cases h
        obtain ⟨l1, l2, heq, hlt⟩ := ih c hfm
        refine ⟨x :: l1, l2, by rw [heq, List.cons_append], ?_⟩
        intro b hb
        rcases List.mem_cons.mp hb with rfl | hb
        · exact lt_of_not_le hxy
        · exact hlt b hb

theorem firstMinBy_unique {α : Type} (score : α → ℚ) (l : List α) (c2 : α)
    (hinj : ∀ a ∈ l, ∀ b ∈ l, score a = score b → a = b)
    (hmem : c2 ∈ l) (hmin : ∀ b ∈ l, score c2 ≤ score b) :
    firstMinBy score l = some c2 := by
  cases hc : firstMinBy score l with
  | none =>
    rw [firstMinBy_eq_none] at hc
    subst hc
    cases hmem
  | some c =>
    have h1 := firstMinBy_min score l c hc c2 hmem
    have h2 := hmin c (firstMinBy_mem score l c hc)
    rw [hinj c (firstMinBy_mem score l c hc) c2 hmem (le_antisymm h1 h2)]

/-- `pickBestCarStep` as a guarded strict-min update over `carServes` and
`dispatchScore`. -/
theorem pickBestCarStep_eq (w : ECSWorld) (fbc : List (ℚ × List ℚ)) (dir : Dir)
    (shaftX src tgt : ℚ) (acc : Option (Nat × ℚ)) (e : Nat) :
    pickBestCarStep w fbc dir shaftX src tgt acc e =
      if carServes w fbc src tgt e then
        match acc with
        | none => some (e, dispatchScore w dir shaftX src e)
        | some best =>
          if dispatchScore w dir shaftX src e < best.2 then
            some (e, dispatchScore w dir shaftX src e)
          else acc
      else acc := by
  unfold pickBestCarStep carServes dispatchScore
  cases hcar : w.getCar e with
  | none => simp
  | some car =>
    cases hpos : w.getPos e with
    | none => simp
    | some pos =>
      simp only
      cases hserved : mapGet fbc car.column with
      | none => simp
      | some served =>
        simp only
        by_cases hmem : src ∈ served ∧ tgt ∈ served
        · simp [hmem]
        · simp [hmem]

theorem pickBest_go (score : Nat → ℚ) (serves : Nat → Bool)
    (step : Option (Nat × ℚ) → Nat → Option (Nat × ℚ))
    (hstep : ∀ acc e, step acc e =
      if serves e then
        match acc with
        | none => some (e, score e)
        | some best => if score e < best.2 then some (e, score e) else acc
      else acc) :
    ∀ (l : List Nat) (c : Nat),
      (l.foldl step (some (c, score c))).map (·.1) =
        firstMinBy score (c :: l.filter serves) := by
  intro l
  induction l with
  | nil =>
    intro c
    simp [firstMinBy]
  | cons x xs ih =>
    intro c
    rw [List.foldl_cons, hstep]
    by_cases hs : serves x = true
    · rw [if_pos hs]
      dsimp only
      by_cases hlt : score x < score c
      · rw [if_pos hlt, ih x, List.filter_cons_of_pos hs]
        have key : ∀ rest, firstMinBy score (c :: x :: rest) = firstMinBy score (x :: rest) := by
          intro rest
          simp only [firstMinBy]
          cases hr : firstMinBy score rest with
          | none =>
            dsimp only
            rw [if_neg (not_le.mpr hlt)]
          | some y =>
            dsimp only
            by_cases hxy : score x ≤ score y
            · rw [if_pos hxy]
              dsimp only
              rw [if_neg (not_le.mpr hlt)]
            · rw [if_neg hxy]
              dsimp only
              rw [if_neg (not_le.mpr (lt_trans (lt_of_not_le hxy) hlt))]
        rw [key]
      · rw [if_neg hlt, ih c, List.filter_cons_of_pos hs]
        have hcx : score c ≤ score x := le_of_not_lt hlt
        have key : ∀ rest, firstMinBy score (c :: x :: rest) = firstMinBy score (c :: rest) := by
          intro rest
          simp only [firstMinBy]
          cases hr : firstMinBy score rest with
          | none =>
            dsimp only
            rw [if_pos hcx]
          | some y =>
            dsimp only
            by_cases hxy : score x ≤ score y
            · rw [if_pos hxy]
              dsimp only
              rw [if_pos hcx, if_pos (le_trans hcx hxy)]
            · rw [if_neg hxy]
        rw [key]
    · simp only [Bool.not_eq_true] at hs
      rw [if_neg (by simp [hs]), ih c, List.filter_cons_of_neg (by simp [hs])]

theorem pickBest_fold (score : Nat → ℚ) (serves : Nat → Bool)
    (step : Option (Nat × ℚ) → Nat → Option (Nat × ℚ))
    (hstep : ∀ acc e, step acc e =
      if serves e then
        match acc with
        | none => some (e, score e)
        | some best => if score e < best.2 then some (e, score e) else acc
      else acc) :
    ∀ (l : List Nat),
      (l.foldl step none).map (·.1) = firstMinBy score (l.filter serves) := by
  intro l
  induction l with
  | nil => rfl
  | cons x xs ih =>
    rw [List.foldl_cons, hstep]
    by_cases hs : serves x = true
    · rw [if_pos hs, List.filter_cons_of_pos hs]
      dsimp only
      exact pickBest_go score serves step hstep xs x
    · simp only [Bool.not_eq_true] at hs
      rw [if_neg (by simp [hs]), ih, List.filter_cons_of_neg (by simp [hs])]

/-- `pickBestCar` is the first minimal-`dispatchScore` candidate among the
cars serving both floors. -/
theorem pickBestCar_eq_firstMinBy (w : ECSWorld) (fbc : List (ℚ × List ℚ)) (dir : Dir)
    (shaftX src tgt : ℚ) (cands : List Nat) :
    pickBestCar w fbc dir shaftX src tgt cands =
      firstMinBy (dispatchScore w dir shaftX src) (cands.filter (carServes w fbc src tgt)) := by
  unfold pickBestCar
  exact pickBest_fold (dispatchScore w dir shaftX src) (carServes w fbc src tgt)
    (pickBestCarStep w fbc dir shaftX src tgt)
    (fun acc e => pickBestCarStep_eq w fbc dir shaftX src tgt acc e) cands

theorem getCar_setAgent (w : ECSWorld) (e e2 : Nat) (a : Agent) :
    (w.setAgent e a).getCar e2 = w.getCar e2 := rfl

theorem getCar_setCar_self (w : ECSWorld) (e : Nat) (v : ElevatorCar) :
    (w.setCar e v).getCar e = some v :=
  storeGet_storeSet_self _ _ _

theorem getCar_setCar_ne (w : ECSWorld) (e e2 : Nat) (v : ElevatorCar) (h : e2 ≠ e) :
    (w.setCar e v).getCar e2 = w.getCar e2 :=
  storeGet_storeSet_ne _ _ _ _ h

theorem mem_addStop_self (car : ElevatorCar) (f : ℚ) : f ∈ (addStop car f).stopQueue := by
  unfold addStop
  by_cases h : f ∈ car.stopQueue
  · rw [if_pos h]; exact h
  · rw [if_neg h]; simp

theorem mem_addStop_of_mem (car : ElevatorCar) (f g : ℚ) (h : f ∈ car.stopQueue) :
    f ∈ (addStop car g).stopQueue := by
  unfold addStop
  by_cases hg : g ∈ car.stopQueue
  · rw [if_pos hg]; exact h
  · rw [if_neg hg]; simp [h]

theorem carServes_getCar (w : ECSWorld) (fbc : List (ℚ × List ℚ)) (src tgt : ℚ) (e : Nat)
    (h : carServes w fbc src tgt e = true) : ∃ car, w.getCar e = some car := by
  unfold carServes at h
  cases hcar : w.getCar e with
  | none => rw [hcar] at h; cases h
  | some car => exact ⟨car, rfl⟩

/-- The serving candidates of a dispatch round. -/
def dispatchServing (w : ECSWorld) (fbc : List (ℚ × List ℚ))
    (sourceFloor targetFloor : ℚ) (cands : List Nat) : List Nat :=
  cands.filter (carServes w fbc sourceFloor targetFloor)

/-- **C3.** For a waiting agent without a confirmed call, dispatch scores
exactly the bank's cars that serve both floors (formula: vertical distance
+ 8·[opposite direction] + occupants·2 + stops·1.4 + column distance·0.8),
picks the candidate with the lowest score — the earliest one on ties — and
enqueues both the source and the target floor on the winning car; with
pairwise-distinct scores, the minimal-score candidate is always the unique
assignment. -/
theorem dispatchAgent_first_min (w : ECSWorld) (fbc : List (ℚ × List ℚ))
    (banks : List ElevatorBank) (carsByBank : List (Nat × List Nat))
    (agentEntity : Nat) (agent : Agent) (bank : ElevatorBank)
    (shaftX sourceFloor targetFloor : ℚ)
    (hag : w.getAgent agentEntity = some agent)
    (hphase : agent.phase = Phase.WAIT_AT_SHAFT)
    (hcall : ¬(agent.callRegistered = true ∧ agent.assignedCarId ≠ none))
    (hsx : agent.assignedShaftX = some shaftX)
    (hsrc : agent.sourceFloorY = some sourceFloor)
    (htgt : agent.targetFloorY = some targetFloor)
    (hbank : bankForColumn banks shaftX = some bank) :
    (pickBestCar w fbc agent.desiredDirection shaftX sourceFloor targetFloor
        ((mapGet carsByBank bank.id).getD []) =
      firstMinBy (dispatchScore w agent.desiredDirection shaftX sourceFloor)
        (dispatchServing w fbc sourceFloor targetFloor ((mapGet carsByBank bank.id).getD []))) ∧
    (∀ c, pickBestCar w fbc agent.desiredDirection shaftX sourceFloor targetFloor
        ((mapGet carsByBank bank.id).getD []) = some c →
      c ∈ dispatchServing w fbc sourceFloor targetFloor ((mapGet carsByBank bank.id).getD []) ∧
      (∀ b ∈ dispatchServing w fbc sourceFloor targetFloor ((mapGet carsByBank bank.id).getD []),
        dispatchScore w agent.desiredDirection shaftX sourceFloor c ≤
          dispatchScore w agent.desiredDirection shaftX sourceFloor b) ∧
      (∃ l1 l2,
        dispatchServing w fbc sourceFloor targetFloor ((mapGet carsByBank bank.id).getD []) =
          l1 ++ c :: l2 ∧
        ∀ b ∈ l1, dispatchScore w agent.desiredDirection shaftX sourceFloor c <
          dispatchScore w agent.desiredDirection shaftX sourceFloor b) ∧
      ∃ car2, (dispatchAgent w fbc banks carsByBank agentEntity).getCar c = some car2 ∧
        sourceFloor ∈ car2.stopQueue ∧ targetFloor ∈ car2.stopQueue) ∧
    ((∀ a ∈ dispatchServing w fbc sourceFloor targetFloor ((mapGet carsByBank bank.id).getD []),
        ∀ b ∈ dispatchServing w fbc sourceFloor targetFloor ((mapGet carsByBank bank.id).getD []),
        dispatchScore w agent.desiredDirection shaftX sourceFloor a =
          dispatchScore w agent.desiredDirection shaftX sourceFloor b → a = b) →
      ∀ c2 ∈ dispatchServing w fbc sourceFloor targetFloor ((mapGet carsByBank bank.id).getD []),
        (∀ b ∈ dispatchServing w fbc sourceFloor targetFloor ((mapGet carsByBank bank.id).getD []),
          dispatchScore w agent.desiredDirection shaftX sourceFloor c2 ≤
            dispatchScore w agent.desiredDirection shaftX sourceFloor b) →
        pickBestCar w fbc agent.desiredDirection shaftX sourceFloor targetFloor
          ((mapGet carsByBank bank.id).getD []) = some c2) := by
  have heq := pickBestCar_eq_firstMinBy w fbc agent.desiredDirection shaftX sourceFloor
    targetFloor ((mapGet carsByBank bank.id).getD [])
  refine ⟨heq, ?_, ?_⟩
  · intro c hc
    rw [heq] at hc
    refine ⟨firstMinBy_mem _ _ c hc, firstMinBy_min _ _ c hc, firstMinBy_earliest _ _ c hc, ?_⟩
    have hserves : carServes w fbc sourceFloor targetFloor c = true := by
      have := firstMinBy_mem _ _ c hc
      unfold dispatchServing at this
      exact (List.mem_filter.mp this).2
    obtain ⟨car, hcar⟩ := carServes_getCar w fbc sourceFloor targetFloor c hserves
    refine ⟨addStop (addStop car sourceFloor) targetFloor, ?_, ?_, ?_⟩
    · unfold dispatchAgent
      rw [hag]
      dsimp only
      rw [if_neg (by simp [hphase]), if_neg hcall, hsx, hsrc, htgt]
      dsimp only
      rw [hbank]
      dsimp only
      rw [← heq] at hc
      rw [hc]
      dsimp only
      rw [hcar]
      dsimp only
      by_cases hcol : shaftX ≠ car.column
      · rw [if_pos hcol]
        split
        · rw [getCar_setAgent, getCar_setCar_self]
        · split
          · rw [getCar_setAgent, getCar_setAgent, getCar_setCar_self]
          · rw [getCar_setAgent, getCar_setCar_self]
      · rw [if_neg hcol]
        rw [getCar_setAgent, getCar_setCar_self]
    · exact mem_addStop_of_mem _ _ _ (mem_addStop_self car sourceFloor)
    · exact mem_addStop_self _ _
  · intro hinj c2 hmem hmin
    rw [heq]
    exact firstMinBy_unique _ _ c2 hinj hmem hmin

/-- Concrete instance of C3: one bank over columns 2 and 3, a loaded car on
column 2 and an empty car on column 3; the empty car (score 0.8) beats the
loaded one (score 4). -/
def dwAgent : Agent :=
  { tripWitnessAgent with
      phase := Phase.WAIT_AT_SHAFT
      sourceFloorY := some 5
      targetFloorY := some 3
      assignedShaftX := some 2
      waitX := some 1
      desiredDirection := Dir.UP }

def dwCar (col : ℚ) (occ : List Nat) : ElevatorCar :=
  { state := ElevState.IDLE, direction := Dir.NONE, speed := 28/10, column := col,
    bankId := 1, stopQueue := [], phaseTimerMs := 0, capacity := 4, occupants := occ }

def dispatchWitnessWorld : ECSWorld :=
  { nextEntityId := 40
    entities := [1, 2, 3, 4, 5, 6, 10, 21, 22]
    position := [(1, ⟨2, 5⟩), (2, ⟨2, 4⟩), (3, ⟨2, 3⟩), (4, ⟨3, 5⟩), (5, ⟨3, 4⟩),
                 (6, ⟨3, 3⟩), (10, ⟨1, 5⟩), (21, ⟨2, 5⟩), (22, ⟨3, 5⟩)]
    agent := [(10, dwAgent)]
    floor := []
    elevator := [(1, ()), (2, ()), (3, ()), (4, ()), (5, ()), (6, ())]
    elevatorCar := [(21, dwCar 2 [31, 32]), (22, dwCar 3 [])]
    floatingText := [] }

theorem dispatchAgent_first_min_witness :
    (dispatchWitnessWorld.getAgent 10 = some dwAgent ∧
      dwAgent.phase = Phase.WAIT_AT_SHAFT ∧
      bankForColumn (buildBanks (getShaftFloorsByColumn dispatchWitnessWorld)) 2 =
        some ⟨1, [2, 3]⟩ ∧
      pickBestCar dispatchWitnessWorld (getShaftFloorsByColumn dispatchWitnessWorld)
        dwAgent.desiredDirection 2 5 3
        ((mapGet (carsByBankMap dispatchWitnessWorld) 1).getD []) = some 22) ∧
    (∃ car2,
      (dispatchAgent dispatchWitnessWorld (getShaftFloorsByColumn dispatchWitnessWorld)
          (buildBanks (getShaftFloorsByColumn dispatchWitnessWorld))
          (carsByBankMap dispatchWitnessWorld) 10).getCar 22 = some car2 ∧
      (5 : ℚ) ∈ car2.stopQueue ∧ (3 : ℚ) ∈ car2.stopQueue) :=
  ⟨⟨by with_unfolding_all decide, rfl, by with_unfolding_all decide,
      by with_unfolding_all decide⟩,
    ((dispatchAgent_first_min dispatchWitnessWorld
        (getShaftFloorsByColumn dispatchWitnessWorld)
        (buildBanks (getShaftFloorsByColumn dispatchWitnessWorld))
        (carsByBankMap dispatchWitnessWorld) 10 dwAgent ⟨1, [2, 3]⟩ 2 5 3
        (by with_unfolding_all decide) rfl (by simp [dwAgent, tripWitnessAgent])
        rfl rfl rfl (by with_unfolding_all decide)).2.1 22
      (by with_unfolding_all decide)).2.2.2⟩

/-! ### C7/C10: boarding order and overflow handling in `loadAtFloor` -/

/-- The wait-time key read by the boarding comparator (0 for a missing
agent, as in the comparator's null guard). -/
def waitKey (w : ECSWorld) (e : Nat) : ℚ :=
  match w.getAgent e with
  | some agent => agent.waitMs
  | none => 0

/-- Descending order by a rational key. -/
def keyOrder {α : Type} (k : α → ℚ) (a b : α) : Bool := decide (k b ≤ k a)

theorem insertSortedBy_perm {α : Type} (r : α → α → Bool) (a : α) (l : List α) :
    List.Perm (insertSortedBy r a l) (a :: l) := by
  induction l with
  | nil => exact List.Perm.refl _
  | cons b bs ih =>
    unfold insertSortedBy
    by_cases h : r a b = true
    · rw [if_pos h]
    · rw [if_neg h]
      exact List.Perm.trans (ih.cons b) (List.Perm.swap a b bs)

theorem sortByBool_perm {α : Type} (r : α → α → Bool) (l : List α) :
    List.Perm (sortByBool r l) l := by
  induction l with
  | nil => exact List.Perm.refl _
  | cons x xs ih =>
    exact List.Perm.trans (insertSortedBy_perm r x (sortByBool r xs)) (ih.cons x)

theorem mem_sortByBool {α : Type} (r : α → α → Bool) (l : List α) (a : α) :
    a ∈ sortByBool r l ↔ a ∈ l :=
  (sortByBool_perm r l).mem_iff

theorem sortByBool_nodup {α : Type} (r : α → α → Bool) (l : List α) (h : l.Nodup) :
    (sortByBool r l).Nodup :=
  ((sortByBool_perm r l).nodup_iff).mpr h

theorem insertSortedBy_congr {α : Type} (r r2 : α → α → Bool) (a : α) (l : List α)
    (h : ∀ b ∈ l, r a b = r2 a b) : insertSortedBy r a l = insertSortedBy r2 a l := by
  induction l with
  | nil => rfl
  | cons b bs ih =>
    unfold insertSortedBy
    rw [h b (by simp)]
    by_cases hb : r2 a b = true
    · rw [if_pos hb, if_pos hb]
    · rw [if_neg hb, if_neg hb, ih (fun c hc => h c (by simp [hc]))]

theorem sortByBool_congr {α : Type} (r r2 : α → α → Bool) (l : List α)
    (h : ∀ a ∈ l, ∀ b ∈ l, r a b = r2 a b) : sortByBool r l = sortByBool r2 l := by
  induction l with
  | nil => rfl
  | cons x xs ih =>
    unfold sortByBool
    rw [ih (fun a ha b hb => h a (by simp [ha]) b (by simp [hb]))]
    refine insertSortedBy_congr r r2 x (sortByBool r2 xs) ?_
    intro b hb
    exact h x (by simp) b (by simp [(mem_sortByBool r2 xs b).mp hb])

theorem insertSortedBy_pairwise_key {α : Type} (k : α → ℚ) (a : α) (l : List α)
    (hl : l.Pairwise (fun x y => k y ≤ k x)) :
    (insertSortedBy (keyOrder k) a l).Pairwise (fun x y => k y ≤ k x) := by
  induction l with
  | nil => exact List.Pairwise.cons (by intro c hc; cases hc) List.Pairwise.nil
  | cons b bs ih =>
    unfold insertSortedBy
    by_cases h : keyOrder k a b = true
    · rw [if_pos h]
      have hab : k b ≤ k a := by simpa [keyOrder] using h
      refine List.Pairwise.cons ?_ hl
      intro c hc
      rcases List.mem_cons.mp hc with rfl | hc
      · exact hab
      · exact le_trans (List.rel_of_pairwise_cons hl hc) hab
    · rw [if_neg h]
      have hba : k a ≤ k b := le_of_lt (by simpa [keyOrder] using h)
      refine List.Pairwise.cons ?_ (ih (List.Pairwise.sublist (List.sublist_cons_self b bs) hl))
      intro c hc
      rcases List.mem_cons.mp (((insertSortedBy_perm (keyOrder k) a bs).mem_iff).mp hc) with rfl | hc
      · exact hba
      · exact List.rel_of_pairwise_cons hl hc

theorem sortByBool_pairwise_key {α : Type} (k : α → ℚ) (l : List α) :
    (sortByBool (keyOrder k) l).Pairwise (fun x y => k y ≤ k x) := by
  induction l with
  | nil => exact List.Pairwise.nil
  | cons x xs ih => exact insertSortedBy_pairwise_key k x (sortByBool (keyOrder k) xs) ih

theorem entities_setAgent (w : ECSWorld) (e : Nat) (v : Agent) :
    (w.setAgent e v).entities = w.entities := rfl

theorem entities_setPos (w : ECSWorld) (e : Nat) (v : Pos) :
    (w.setPos e v).entities = w.entities := rfl

theorem entities_setCar (w : ECSWorld) (e : Nat) (v : ElevatorCar) :
    (w.setCar e v).entities = w.entities := rfl

theorem getAgent_setPos (w : ECSWorld) (e e2 : Nat) (v : Pos) :
    (w.setPos e v).getAgent e2 = w.getAgent e2 := rfl

theorem getAgent_setCar (w : ECSWorld) (e e2 : Nat) (v : ElevatorCar) :
    (w.setCar e v).getAgent e2 = w.getAgent e2 := rfl

theorem getPos_setAgent (w : ECSWorld) (e e2 : Nat) (v : Agent) :
    (w.setAgent e v).getPos e2 = w.getPos e2 := rfl

theorem getPos_setCar (w : ECSWorld) (e e2 : Nat) (v : ElevatorCar) :
    (w.setCar e v).getPos e2 = w.getPos e2 := rfl

theorem getCar_setPos (w : ECSWorld) (e e2 : Nat) (v : Pos) :
    (w.setPos e v).getCar e2 = w.getCar e2 := rfl

theorem getAgent_setAgent_self (w : ECSWorld) (e : Nat) (v : Agent) :
    (w.setAgent e v).getAgent e = some v :=
  storeGet_storeSet_self _ _ _

theorem getAgent_setAgent_ne (w : ECSWorld) (e e2 : Nat) (v : Agent) (h : e2 ≠ e) :
    (w.setAgent e v).getAgent e2 = w.getAgent e2 :=
  storeGet_storeSet_ne _ _ _ _ h

theorem getPos_setPos_self (w : ECSWorld) (e : Nat) (v : Pos) :
    (w.setPos e v).getPos e = some v :=
  storeGet_storeSet_self _ _ _

theorem getPos_setPos_ne (w : ECSWorld) (e e2 : Nat) (v : Pos) (h : e2 ≠ e) :
    (w.setPos e v).getPos e2 = w.getPos e2 :=
  storeGet_storeSet_ne _ _ _ _ h

theorem addStop_capacity (car : ElevatorCar) (f : ℚ) :
    (addStop car f).capacity = car.capacity := by
  unfold addStop; split <;> rfl

theorem addStop_occupants (car : ElevatorCar) (f : ℚ) :
    (addStop car f).occupants = car.occupants := by
  unfold addStop; split <;> rfl

theorem addStop_column (car : ElevatorCar) (f : ℚ) :
    (addStop car f).column = car.column := by
  unfold addStop; split <;> rfl

theorem entities_boardOneAgent (carEntity : Nat) (col f : ℚ) (acc : ECSWorld) (e : Nat) :
    (boardOneAgent carEntity col f acc e).entities = acc.entities := by
  unfold boardOneAgent
  repeat' first | split | dsimp only
  all_goals rfl

theorem getAgent_boardOneAgent_ne (carEntity : Nat) (col f : ℚ) (acc : ECSWorld)
    (e e2 : Nat) (h : e2 ≠ e) :
    (boardOneAgent carEntity col f acc e).getAgent e2 = acc.getAgent e2 := by
  unfold boardOneAgent
  repeat' first | split | dsimp only
  all_goals simp [getAgent_setPos, getAgent_setCar, getAgent_setAgent_ne _ _ _ _ h]

theorem getPos_boardOneAgent_ne (carEntity : Nat) (col f : ℚ) (acc : ECSWorld)
    (e e2 : Nat) (h : e2 ≠ e) :
    (boardOneAgent carEntity col f acc e).getPos e2 = acc.getPos e2 := by
  unfold boardOneAgent
  repeat' first | split | dsimp only
  all_goals simp [getPos_setAgent, getPos_setCar, getPos_setPos_ne _ _ _ _ h]

/-- One boarding step keeps the car present and only grows its occupants
(by at most one) and its stop queue, leaving capacity and column alone. -/
theorem boardOneAgent_car (carEntity : Nat) (col f : ℚ) (acc : ECSWorld) (e : Nat)
    (car : ElevatorCar) (hcar : acc.getCar carEntity = some car) :
    ∃ car2, (boardOneAgent carEntity col f acc e).getCar carEntity = some car2 ∧
      car2.capacity = car.capacity ∧ car2.column = car.column ∧
      car2.occupants.length ≤ car.occupants.length + 1 ∧
      (∀ x ∈ car.occupants, x ∈ car2.occupants) ∧
      (∀ s ∈ car.stopQueue, s ∈ car2.stopQueue) := by
  unfold boardOneAgent
  cases hag : acc.getAgent e with
  | none => exact ⟨car, hcar, rfl, rfl, by omega, fun x hx => hx, fun s hs => hs⟩
  | some agent =>
    cases hpos : acc.getPos e with
    | none => exact ⟨car, hcar, rfl, rfl, by omega, fun x hx => hx, fun s hs => hs⟩
    | some pos =>
      dsimp only
      cases htf : agent.targetFloorY with
      | none =>
        dsimp only
        rw [getCar_setPos, getCar_setAgent, hcar]
        dsimp only
        by_cases hmem : e ∈ car.occupants
        · rw [if_pos hmem]
          exact ⟨car, by rw [getCar_setPos, getCar_setAgent]; exact hcar, rfl, rfl, by omega,
            fun x hx => hx, fun s hs => hs⟩
        · rw [if_neg hmem]
          refine ⟨{ car with occupants := car.occupants ++ [e] }, getCar_setCar_self _ _ _,
            rfl, rfl, by simp, ?_, fun s hs => hs⟩
          intro x hx; simp [hx]
      | some t =>
        dsimp only
        rw [getCar_setPos, getCar_setAgent, hcar]
        dsimp only
        by_cases hmem : e ∈ car.occupants
        · rw [if_pos hmem, getCar_setPos, getCar_setAgent, hcar]
          dsimp only
          refine ⟨addStop car t, getCar_setCar_self _ _ _, addStop_capacity _ _,
            addStop_column _ _, ?_, ?_, ?_⟩
          · rw [addStop_occupants]; omega
          · intro x hx; rw [addStop_occupants]; exact hx
          · intro s hs; exact mem_addStop_of_mem _ _ _ hs
        · rw [if_neg hmem, getCar_setCar_self]
          dsimp only
          refine ⟨addStop { car with occupants := car.occupants ++ [e] } t,
            getCar_setCar_self _ _ _, addStop_capacity _ _, addStop_column _ _, ?_, ?_, ?_⟩
          · rw [addStop_occupants]; simp
          · intro x hx; rw [addStop_occupants]; simp [hx]
          · intro s hs; exact mem_addStop_of_mem _ _ _ hs

/-- The boarding step on the agent itself: phase `RIDING`, wait reset, the
agent among the occupants, and its target floor queued. -/
theorem boardOneAgent_self (carEntity : Nat) (col f : ℚ) (acc : ECSWorld) (e : Nat)
    (agent : Agent) (car : ElevatorCar)
    (hag : acc.getAgent e = some agent) (hpos : (acc.getPos e).isSome = true)
    (hcar : acc.getCar carEntity = some car) :
    (boardOneAgent carEntity col f acc e).getAgent e =
      some { agent with phase := Phase.RIDING, waitMs := 0 } ∧
    ∃ car4, (boardOneAgent carEntity col f acc e).getCar carEntity = some car4 ∧
      e ∈ car4.occupants ∧
      ∀ t, agent.targetFloorY = some t → t ∈ car4.stopQueue := by
  unfold boardOneAgent
  rw [hag]
  cases hpos2 : acc.getPos e with
  | none => rw [hpos2] at hpos; cases hpos
  | some pos =>
    dsimp only
    cases htf : agent.targetFloorY with
    | none =>
      dsimp only
      rw [getCar_setPos, getCar_setAgent, hcar]
      dsimp only
      by_cases hmem : e ∈ car.occupants
      · rw [if_pos hmem]
        refine ⟨?_, car, by rw [getCar_setPos, getCar_setAgent]; exact hcar, hmem, ?_⟩
        · rw [getAgent_setPos, getAgent_setAgent_self]
        · intro t ht; cases ht
      · rw [if_neg hmem]
        refine ⟨?_, { car with occupants := car.occupants ++ [e] },
          getCar_setCar_self _ _ _, by simp, ?_⟩
        · rw [getAgent_setCar, getAgent_setPos, getAgent_setAgent_self]
        · intro t ht; cases ht
    | some t =>
      dsimp only
      rw [getCar_setPos, getCar_setAgent, hcar]
      dsimp only
      by_cases hmem : e ∈ car.occupants
      · rw [if_pos hmem, getCar_setPos, getCar_setAgent, hcar]
        dsimp only
        refine ⟨?_, addStop car t, getCar_setCar_self _ _ _, ?_, ?_⟩
        · rw [getAgent_setCar, getAgent_setPos, getAgent_setAgent_self]
        · rw [addStop_occupants]; exact hmem
        · intro t2 ht2
          cases ht2
          exact mem_addStop_self _ _
      · rw [if_neg hmem, getCar_setCar_self]
        dsimp only
        refine ⟨?_, addStop { car with occupants := car.occupants ++ [e] } t,
          getCar_setCar_self _ _ _, ?_, ?_⟩
        · rw [getAgent_setCar, getAgent_setCar, getAgent_setPos, getAgent_setAgent_self]
        · rw [addStop_occupants]; simp
        · intro t2 ht2
          cases ht2
          exact mem_addStop_self _ _

theorem entities_clearOverflowAgent (acc : ECSWorld) (e : Nat) :
    (clearOverflowAgent acc e).entities = acc.entities := by
  unfold clearOverflowAgent
  split <;> rfl

theorem getCar_clearOverflowAgent (acc : ECSWorld) (e e2 : Nat) :
    (clearOverflowAgent acc e).getCar e2 = acc.getCar e2 := by
  unfold clearOverflowAgent
  split <;> rfl

theorem getPos_clearOverflowAgent (acc : ECSWorld) (e e2 : Nat) :
    (clearOverflowAgent acc e).getPos e2 = acc.getPos e2 := by
  unfold clearOverflowAgent
  split <;> rfl

theorem getAgent_clearOverflowAgent_ne (acc : ECSWorld) (e e2 : Nat) (h : e2 ≠ e) :
    (clearOverflowAgent acc e).getAgent e2 = acc.getAgent e2 := by
  unfold clearOverflowAgent
  split
  · exact getAgent_setAgent_ne _ _ _ _ h
  · rfl

theorem clearOverflowAgent_self (acc : ECSWorld) (e : Nat) (agent : Agent)
    (hag : acc.getAgent e = some agent) :
    (clearOverflowAgent acc e).getAgent e =
      some { agent with assignedCarId := none, callRegistered := false } := by
  unfold clearOverflowAgent
  rw [hag]
  exact getAgent_setAgent_self _ _ _

/-! ### Fold lemmas for the two `loadAtFloor` loops -/

theorem foldBoard_getAgent_ne (carEntity : Nat) (col f : ℚ) (l : List Nat) :
    ∀ (acc : ECSWorld) (e2 : Nat), e2 ∉ l →
      (l.foldl (boardOneAgent carEntity col f) acc).getAgent e2 = acc.getAgent e2 := by
  induction l with
  | nil => intro acc e2 _; rfl
  | cons x xs ih =>
    intro acc e2 h
    rw [List.foldl_cons, ih _ e2 (fun hc => h (by simp [hc])),
      getAgent_boardOneAgent_ne _ _ _ _ _ _ (fun hc => h (by simp [hc]))]

theorem foldBoard_getPos_ne (carEntity : Nat) (col f : ℚ) (l : List Nat) :
    ∀ (acc : ECSWorld) (e2 : Nat), e2 ∉ l →
      (l.foldl (boardOneAgent carEntity col f) acc).getPos e2 = acc.getPos e2 := by
  induction l with
  | nil => intro acc e2 _; rfl
  | cons x xs ih =>
    intro acc e2 h
    rw [List.foldl_cons, ih _ e2 (fun hc => h (by simp [hc])),
      getPos_boardOneAgent_ne _ _ _ _ _ _ (fun hc => h (by simp [hc]))]

theorem foldBoard_entities (carEntity : Nat) (col f : ℚ) (l : List Nat) :
    ∀ (acc : ECSWorld),
      (l.foldl (boardOneAgent carEntity col f) acc).entities = acc.entities := by
  induction l with
  | nil => intro acc; rfl
  | cons x xs ih =>
    intro acc
    rw [List.foldl_cons, ih, entities_boardOneAgent]

theorem foldBoard_car (carEntity : Nat) (col f : ℚ) (l : List Nat) :
    ∀ (acc : ECSWorld) (car : ElevatorCar), acc.getCar carEntity = some car →
      ∃ car2, (l.foldl (boardOneAgent carEntity col f) acc).getCar carEntity = some car2 ∧
        car2.capacity = car.capacity ∧ car2.column = car.column ∧
        car2.occupants.length ≤ car.occupants.length + l.length ∧
        (∀ x ∈ car.occupants, x ∈ car2.occupants) ∧
        (∀ s ∈ car.stopQueue, s ∈ car2.stopQueue) := by
  induction l with
  | nil =>
    intro acc car hcar
    exact ⟨car, hcar, rfl, rfl, by omega, fun x hx => hx, fun s hs => hs⟩
  | cons x xs ih =>
    intro acc car hcar
    obtain ⟨car1, h1, hcap1, hcol1, hlen1, hocc1, hstop1⟩ :=
      boardOneAgent_car carEntity col f acc x car hcar
    obtain ⟨car2, h2, hcap2, hcol2, hlen2, hocc2, hstop2⟩ :=
      ih (boardOneAgent carEntity col f acc x) car1 h1
    refine ⟨car2, h2, hcap2.trans hcap1, hcol2.trans hcol1, ?_, ?_, ?_⟩
    · simp only [List.length_cons]; omega
    · exact fun y hy => hocc2 y (hocc1 y hy)
    · exact fun s hs => hstop2 s (hstop1 s hs)

theorem foldBoard_boards (carEntity : Nat) (col f : ℚ) (l : List Nat) (hnodup : l.Nodup) :
    ∀ (acc : ECSWorld) (car : ElevatorCar), acc.getCar carEntity = some car →
      (∀ a ∈ l, (acc.getAgent a).isSome = true ∧ (acc.getPos a).isSome = true) →
      ∀ a ∈ l, ∀ ag, acc.getAgent a = some ag →
        (l.foldl (boardOneAgent carEntity col f) acc).getAgent a =
          some { ag with phase := Phase.RIDING, waitMs := 0 } ∧
        ∃ carF, (l.foldl (boardOneAgent carEntity col f) acc).getCar carEntity = some carF ∧
          a ∈ carF.occupants ∧ ∀ t, ag.targetFloorY = some t → t ∈ carF.stopQueue := by
  induction l with
  | nil => intro acc car _ _ a ha; cases ha
  | cons x xs ih =>
    intro acc car hcar hcomp a ha ag hag
    have hxnotin : x ∉ xs := (List.nodup_cons.mp hnodup).1
    have hnodup2 : xs.Nodup := (List.nodup_cons.mp hnodup).2
    rcases List.mem_cons.mp ha with rfl | ha
    · obtain ⟨hagNew, carMid, hcarMid, hmemMid, hstopMid⟩ :=
        boardOneAgent_self carEntity col f acc a ag car hag
          ((hcomp a (by simp)).2) hcar
      rw [List.foldl_cons]
      constructor
      · rw [foldBoard_getAgent_ne carEntity col f xs _ a hxnotin]
        exact hagNew
      · obtain ⟨carF, hF, _, _, _, hoccF, hstopF⟩ :=
          foldBoard_car carEntity col f xs (boardOneAgent carEntity col f acc a) carMid hcarMid
        refine ⟨carF, hF, hoccF a hmemMid, ?_⟩
        intro t ht
        exact hstopF t (hstopMid t ht)
    · have hax : a ≠ x := fun hc => hxnotin (hc ▸ ha)
      rw [List.foldl_cons]
      obtain ⟨car1, hcar1, _, _, _, _, _⟩ := boardOneAgent_car carEntity col f acc x car hcar
      refine ih hnodup2 (boardOneAgent carEntity col f acc x) car1 hcar1 ?_ a ha ag ?_
      · intro b hb
        have hbx : b ≠ x := fun hc => hxnotin (hc ▸ hb)
        rw [getAgent_boardOneAgent_ne _ _ _ _ _ _ hbx,
          getPos_boardOneAgent_ne _ _ _ _ _ _ hbx]
        exact hcomp b (by simp [hb])
      · rw [getAgent_boardOneAgent_ne _ _ _ _ _ _ hax]
        exact hag

theorem foldClear_getCar (l : List Nat) :
    ∀ (acc : ECSWorld) (e2 : Nat),
      (l.foldl clearOverflowAgent acc).getCar e2 = acc.getCar e2 := by
  induction l with
  | nil => intro acc e2; rfl
  | cons x xs ih =>
    intro acc e2
    rw [List.foldl_cons, ih, getCar_clearOverflowAgent]

theorem foldClear_getPos (l : List Nat) :
    ∀ (acc : ECSWorld) (e2 : Nat),
      (l.foldl clearOverflowAgent acc).getPos e2 = acc.getPos e2 := by
  induction l with
  | nil => intro acc e2; rfl
  | cons x xs ih =>
    intro acc e2
    rw [List.foldl_cons, ih, getPos_clearOverflowAgent]

theorem foldClear_entities (l : List Nat) :
    ∀ (acc : ECSWorld), (l.foldl clearOverflowAgent acc).entities = acc.entities := by
  induction l with
  | nil => intro acc; rfl
  | cons x xs ih =>
    intro acc
    rw [List.foldl_cons, ih, entities_clearOverflowAgent]

theorem foldClear_getAgent_ne (l : List Nat) :
    ∀ (acc : ECSWorld) (e2 : Nat), e2 ∉ l →
      (l.foldl clearOverflowAgent acc).getAgent e2 = acc.getAgent e2 := by
  induction l with
  | nil => intro acc e2 _; rfl
  | cons x xs ih =>
    intro acc e2 h
    rw [List.foldl_cons, ih _ e2 (fun hc => h (by simp [hc])),
      getAgent_clearOverflowAgent_ne _ _ _ (fun hc => h (by simp [hc]))]

theorem foldClear_clears (l : List Nat) (hnodup : l.Nodup) :
    ∀ (acc : ECSWorld), ∀ b ∈ l, ∀ ag, acc.getAgent b = some ag →
      (l.foldl clearOverflowAgent acc).getAgent b =
        some { ag with assignedCarId := none, callRegistered := false } := by
  induction l with
  | nil => intro acc b hb; cases hb
  | cons x xs ih =>
    intro acc b hb ag hag
    have hxnotin : x ∉ xs := (List.nodup_cons.mp hnodup).1
    rcases List.mem_cons.mp hb with rfl | hb
    · rw [List.foldl_cons, foldClear_getAgent_ne xs _ b hxnotin]
      exact clearOverflowAgent_self acc b ag hag
    · have hbx : b ≠ x := fun hc => hxnotin (hc ▸ hb)
      rw [List.foldl_cons]
      refine ih (List.nodup_cons.mp hnodup).2 (clearOverflowAgent acc x) b hb ag ?_
      rw [getAgent_clearOverflowAgent_ne _ _ _ hbx]
      exact hag

theorem mem_queryPosAgent (w : ECSWorld) (a : Nat) :
    a ∈ w.queryPosAgent ↔
      a ∈ w.entities ∧ (w.getPos a).isSome = true ∧ (w.getAgent a).isSome = true := by
  simp [ECSWorld.queryPosAgent, List.mem_filter]

theorem waitingAgentsFor_facts (w : ECSWorld) (carEntity : Nat) (column floor : ℚ)
    (a : Nat) (h : a ∈ waitingAgentsFor w carEntity column floor) :
    a ∈ w.entities ∧ (w.getPos a).isSome = true ∧ (w.getAgent a).isSome = true := by
  unfold waitingAgentsFor at h
  exact (mem_queryPosAgent w a).mp (List.mem_filter.mp h).1

theorem waitingAgentsFor_nodup (w : ECSWorld) (carEntity : Nat) (column floor : ℚ)
    (h : w.entities.Nodup) : (waitingAgentsFor w carEntity column floor).Nodup :=
  List.Nodup.filter _ (List.Nodup.filter _ h)

theorem mem_loadQueue (w : ECSWorld) (carEntity : Nat) (column floor : ℚ) (a : Nat) :
    a ∈ loadQueue w carEntity column floor ↔
      a ∈ waitingAgentsFor w carEntity column floor :=
  mem_sortByBool _ _ a

theorem loadQueue_nodup (w : ECSWorld) (carEntity : Nat) (column floor : ℚ)
    (h : w.entities.Nodup) : (loadQueue w carEntity column floor).Nodup :=
  sortByBool_nodup _ _ (waitingAgentsFor_nodup w carEntity column floor h)

theorem loadQueue_pairwise (w : ECSWorld) (carEntity : Nat) (column floor : ℚ) :
    (loadQueue w carEntity column floor).Pairwise
      (fun x y => waitKey w y ≤ waitKey w x) := by
  unfold loadQueue
  rw [sortByBool_congr (agentWaitBefore w) (keyOrder (waitKey w)) _ ?_]
  · exact sortByBool_pairwise_key _ _
  · intro a ha b hb
    obtain ⟨-, -, hagA⟩ := waitingAgentsFor_facts w carEntity column floor a ha
    obtain ⟨-, -, hagB⟩ := waitingAgentsFor_facts w carEntity column floor b hb
    obtain ⟨agA, hA⟩ := Option.isSome_iff_exists.mp hagA
    obtain ⟨agB, hB⟩ := Option.isSome_iff_exists.mp hagB
    unfold agentWaitBefore keyOrder waitKey
    rw [hA, hB]

/-- **C7.** `loadAtFloor` boards the longest-waiting assigned agents first,
up to the car's remaining capacity: every boarded agent out-waits every
overflow agent; at most `remainingCap` agents board; every boarded agent
rides (phase `RIDING`), is an occupant of the car, and has its target floor
in the stop queue; overflow agents are not destroyed and only lose their
dispatch lock (`assignedCarId`/`callRegistered`). -/
theorem loadAtFloor_boards_longest_wait (w : ECSWorld) (carEntity : Nat)
    (column floor : ℚ) (car : ElevatorCar)
    (hnodup : w.entities.Nodup) (hcar : w.getCar carEntity = some car) :
    (∀ a ∈ (loadQueue w carEntity column floor).take (remainingCap car),
      ∀ b ∈ (loadQueue w carEntity column floor).drop (remainingCap car),
        waitKey w b ≤ waitKey w a) ∧
    ((loadQueue w carEntity column floor).take (remainingCap car)).length ≤
      remainingCap car ∧
    (∀ a ∈ (loadQueue w carEntity column floor).take (remainingCap car),
      ∀ ag, w.getAgent a = some ag →
        (loadAtFloor w carEntity column floor).getAgent a =
          some { ag with phase := Phase.RIDING, waitMs := 0 } ∧
        ∃ carF, (loadAtFloor w carEntity column floor).getCar carEntity = some carF ∧
          a ∈ carF.occupants ∧ ∀ t, ag.targetFloorY = some t → t ∈ carF.stopQueue) ∧
    (∀ b ∈ (loadQueue w carEntity column floor).drop (remainingCap car),
      b ∈ (loadAtFloor w carEntity column floor).entities ∧
      ∀ ag, w.getAgent b = some ag →
        (loadAtFloor w carEntity column floor).getAgent b =
          some { ag with assignedCarId := none, callRegistered := false }) := by
  have hqnodup := loadQueue_nodup w carEntity column floor hnodup
  have hpair := loadQueue_pairwise w carEntity column floor
  have hsplit := List.take_append_drop (remainingCap car) (loadQueue w carEntity column floor)
  have hdisj : List.Disjoint ((loadQueue w carEntity column floor).take (remainingCap car))
      ((loadQueue w carEntity column floor).drop (remainingCap car)) :=
    List.disjoint_take_drop hqnodup (le_refl _)
  have htakeN : ((loadQueue w carEntity column floor).take (remainingCap car)).Nodup := by
    rw [← hsplit] at hqnodup
    exact (List.nodup_append.mp hqnodup).1
  have hdropN : ((loadQueue w carEntity column floor).drop (remainingCap car)).Nodup := by
    have := loadQueue_nodup w carEntity column floor hnodup
    rw [← hsplit] at this
    exact (List.nodup_append.mp this).2.1
  have hloadEq : loadAtFloor w carEntity column floor =
      ((loadQueue w carEntity column floor).drop (remainingCap car)).foldl clearOverflowAgent
        (((loadQueue w carEntity column floor).take (remainingCap car)).foldl
          (boardOneAgent carEntity column floor) w) := by
    unfold loadAtFloor
    rw [hcar]
  refine ⟨?_, List.length_take_le _ _, ?_, ?_⟩
  · intro a ha b hb
    rw [← hsplit] at hpair
    exact (List.pairwise_append.mp hpair).2.2 a ha b hb
  · intro a ha ag hag
    have haq : a ∈ loadQueue w carEntity column floor := by
      rw [← hsplit]
      exact List.mem_append.mpr (Or.inl ha)
    obtain ⟨hboard, carF, hcarF, hmemF, hstopF⟩ :=
      foldBoard_boards carEntity column floor _ htakeN w car hcar
        (fun b hb => by
          obtain ⟨-, hp, hA⟩ := waitingAgentsFor_facts w carEntity column floor b
            ((mem_loadQueue w carEntity column floor b).mp (by
              rw [← hsplit]; exact List.mem_append.mpr (Or.inl hb)))
          exact ⟨hA, hp⟩)
        a ha ag hag
    rw [hloadEq]
    constructor
    · rw [foldClear_getAgent_ne _ _ a (fun hc => hdisj ha hc)]
      exact hboard
    · exact ⟨carF, by rw [foldClear_getCar]; exact hcarF, hmemF, hstopF⟩
  · intro b hb
    have hbq : b ∈ loadQueue w carEntity column floor := by
      rw [← hsplit]
      exact List.mem_append.mpr (Or.inr hb)
    obtain ⟨hent, -, -⟩ := waitingAgentsFor_facts w carEntity column floor b
      ((mem_loadQueue w carEntity column floor b).mp hbq)
    constructor
    · rw [hloadEq, foldClear_entities, foldBoard_entities]
      exact hent
    · intro ag hag
      rw [hloadEq]
      refine foldClear_clears _ hdropN _ b hb ag ?_
      rw [foldBoard_getAgent_ne _ _ _ _ _ b (fun hc => hdisj hc hb)]
      exact hag

/-- **C10.** Overflow agents of `loadAtFloor` are mutated only in
`assignedCarId` and `callRegistered`: the whole remaining agent record
(waitMs, stress, mood, phase, assignedShaftX, waitX, …) and the position
are unchanged, so accumulated wait time and boarding priority survive. -/
theorem loadAtFloor_overflow_frame (w : ECSWorld) (carEntity : Nat)
    (column floor : ℚ) (car : ElevatorCar)
    (hnodup : w.entities.Nodup) (hcar : w.getCar carEntity = some car) :
    ∀ b ∈ (loadQueue w carEntity column floor).drop (remainingCap car),
      ∀ ag, w.getAgent b = some ag →
        (loadAtFloor w carEntity column floor).getAgent b =
          some { ag with assignedCarId := none, callRegistered := false } ∧
        ((loadAtFloor w carEntity column floor).getAgent b).map Agent.waitMs =
          some ag.waitMs ∧
        ((loadAtFloor w carEntity column floor).getAgent b).map Agent.stress =
          some ag.stress ∧
        ((loadAtFloor w carEntity column floor).getAgent b).map Agent.mood =
          some ag.mood ∧
        ((loadAtFloor w carEntity column floor).getAgent b).map Agent.phase =
          some ag.phase ∧
        ((loadAtFloor w carEntity column floor).getAgent b).map Agent.assignedShaftX =
          some ag.assignedShaftX ∧
        ((loadAtFloor w carEntity column floor).getAgent b).map Agent.waitX =
          some ag.waitX ∧
        (loadAtFloor w carEntity column floor).getPos b = w.getPos b := by
  intro b hb ag hag
  have hmain :=
    ((loadAtFloor_boards_longest_wait w carEntity column floor car hnodup hcar).2.2.2
      b hb).2 ag hag
  have hqnodup := loadQueue_nodup w carEntity column floor hnodup
  have hsplit := List.take_append_drop (remainingCap car) (loadQueue w carEntity column floor)
  have hdisj : List.Disjoint ((loadQueue w carEntity column floor).take (remainingCap car))
      ((loadQueue w carEntity column floor).drop (remainingCap car)) :=
    List.disjoint_take_drop hqnodup (le_refl _)
  have hpos : (loadAtFloor w carEntity column floor).getPos b = w.getPos b := by
    unfold loadAtFloor
    rw [hcar]
    dsimp only
    rw [foldClear_getPos, foldBoard_getPos_ne _ _ _ _ _ b (fun hc => hdisj hc hb)]
  exact ⟨hmain, by rw [hmain]; rfl, by rw [hmain]; rfl, by rw [hmain]; rfl,
    by rw [hmain]; rfl, by rw [hmain]; rfl, by rw [hmain]; rfl, hpos⟩

/-- Concrete instance of C7/C10 (the spec's scenario): a capacity-1 car and
two waiting agents with 20s and 5s of accumulated wait. -/
def lwAgent (wait : ℚ) : Agent :=
  { tripWitnessAgent with
      phase := Phase.WAIT_AT_SHAFT
      sourceFloorY := some 5
      targetFloorY := some 3
      assignedShaftX := some 2
      waitX := some 1
      assignedCarId := some 50
      callRegistered := true
      waitMs := wait }

def lwCar : ElevatorCar :=
  { state := ElevState.UNLOADING, direction := Dir.NONE, speed := 28/10, column := 2,
    bankId := 1, stopQueue := [5], phaseTimerMs := 100, capacity := 1, occupants := [] }

def loadWitnessWorld : ECSWorld :=
  { nextEntityId := 60
    entities := [42, 41, 50]
    position := [(42, ⟨1, 5⟩), (41, ⟨1, 5⟩), (50, ⟨2, 5⟩)]
    agent := [(42, lwAgent 5000), (41, lwAgent 20000)]
    floor := []
    elevator := []
    elevatorCar := [(50, lwCar)]
    floatingText := [] }

theorem loadAtFloor_boards_longest_wait_witness :
    (loadWitnessWorld.entities.Nodup ∧
      loadWitnessWorld.getCar 50 = some lwCar ∧
      (loadQueue loadWitnessWorld 50 2 5).take (remainingCap lwCar) = [41] ∧
      (loadQueue loadWitnessWorld 50 2 5).drop (remainingCap lwCar) = [42]) ∧
    (loadAtFloor loadWitnessWorld 50 2 5).getAgent 41 =
      some { lwAgent 20000 with phase := Phase.RIDING, waitMs := 0 } := by
  have htake : (loadQueue loadWitnessWorld 50 2 5).take (remainingCap lwCar) = [41] := by
    with_unfolding_all rfl
  have hdrop : (loadQueue loadWitnessWorld 50 2 5).drop (remainingCap lwCar) = [42] := by
    with_unfolding_all rfl
  have hcar : loadWitnessWorld.getCar 50 = some lwCar := by with_unfolding_all rfl
  have hag : loadWitnessWorld.getAgent 41 = some (lwAgent 20000) := by
    with_unfolding_all rfl
  have hmem : 41 ∈ (loadQueue loadWitnessWorld 50 2 5).take (remainingCap lwCar) := by
    rw [htake]; simp
  refine ⟨⟨by decide, hcar, htake, hdrop⟩, ?_⟩
  exact ((loadAtFloor_boards_longest_wait loadWitnessWorld 50 2 5 lwCar (by decide)
      hcar).2.2.1 41 hmem (lwAgent 20000) hag).1

theorem loadAtFloor_overflow_frame_witness :
    (loadWitnessWorld.getCar 50 = some lwCar ∧
      (loadQueue loadWitnessWorld 50 2 5).drop (remainingCap lwCar) = [42]) ∧
    ((loadAtFloor loadWitnessWorld 50 2 5).getAgent 42 =
        some { lwAgent 5000 with assignedCarId := none, callRegistered := false } ∧
      (loadAtFloor loadWitnessWorld 50 2 5).getPos 42 = loadWitnessWorld.getPos 42) := by
  have hdrop : (loadQueue loadWitnessWorld 50 2 5).drop (remainingCap lwCar) = [42] := by
    with_unfolding_all rfl
  have hcar : loadWitnessWorld.getCar 50 = some lwCar := by with_unfolding_all rfl
  have hag : loadWitnessWorld.getAgent 42 = some (lwAgent 5000) := by
    with_unfolding_all rfl
  have hmem : 42 ∈ (loadQueue loadWitnessWorld 50 2 5).drop (remainingCap lwCar) := by
    rw [hdrop]; simp
  have h := loadAtFloor_overflow_frame loadWitnessWorld 50 2 5 lwCar (by decide)
    hcar 42 hmem (lwAgent 5000) hag
  exact ⟨⟨hcar, hdrop⟩, h.1, h.2.2.2.2.2.2.2⟩

/-! ### C4: the capacity bound is an invariant of `ElevatorSystem.update` -/

/-- No car ever holds more occupants than its capacity. -/
def CapInv (w : ECSWorld) : Prop :=
  ∀ e car, w.getCar e = some car → (car.occupants.length : ℚ) ≤ car.capacity

theorem foldl_preserves {α : Type} {P : ECSWorld → Prop}
    (step : ECSWorld → α → ECSWorld) (l : List α)
    (h : ∀ acc a, a ∈ l → P acc → P (step acc a)) :
    ∀ acc, P acc → P (l.foldl step acc) := by
  induction l with
  | nil => intro acc hp; exact hp
  | cons x xs ih =>
    intro acc hp
    rw [List.foldl_cons]
    exact ih (fun acc2 a ha hp2 => h acc2 a (by simp [ha]) hp2) _
      (h acc x (by simp) hp)

theorem CapInv_of_getCar_eq {w w2 : ECSWorld}
    (h : ∀ e, w2.getCar e = w.getCar e) (hw : CapInv w) : CapInv w2 := by
  intro e car hcar
  exact hw e car (by rw [← h e]; exact hcar)

theorem CapInv_setAgent (w : ECSWorld) (e : Nat) (v : Agent) (hw : CapInv w) :
    CapInv (w.setAgent e v) :=
  CapInv_of_getCar_eq (fun e2 => getCar_setAgent w e e2 v) hw

theorem CapInv_setPos (w : ECSWorld) (e : Nat) (v : Pos) (hw : CapInv w) :
    CapInv (w.setPos e v) :=
  CapInv_of_getCar_eq (fun e2 => getCar_setPos w e e2 v) hw

theorem CapInv_setCar (w : ECSWorld) (e : Nat) (v : ElevatorCar)
    (hv : (v.occupants.length : ℚ) ≤ v.capacity) (hw : CapInv w) :
    CapInv (w.setCar e v) := by
  intro e2 car hcar
  by_cases he : e2 = e
  · subst he
    rw [getCar_setCar_self] at hcar
    cases hcar
    exact hv
  · rw [getCar_setCar_ne _ _ _ _ he] at hcar
    exact hw e2 car hcar

theorem getCar_destroyEntity (w : ECSWorld) (t e : Nat) :
    (w.destroyEntity t).getCar e = if e = t then none else w.getCar e := by
  by_cases he : e = t
  · rw [if_pos he, he]
    exact storeGet_storeDel_self _ _
  · rw [if_neg he]
    exact storeGet_storeDel_ne _ _ _ he

theorem CapInv_destroyEntity (w : ECSWorld) (t : Nat) (hw : CapInv w) :
    CapInv (w.destroyEntity t) := by
  intro e car hcar
  rw [getCar_destroyEntity] at hcar
  by_cases he : e = t
  · rw [if_pos he] at hcar; cases hcar
  · rw [if_neg he] at hcar
    exact hw e car hcar

theorem getCar_createEntity (w : ECSWorld) (e : Nat) :
    ((w.createEntity).2).getCar e = w.getCar e := rfl

theorem getCar_addPos (w : ECSWorld) (e e2 : Nat) (v : Pos) :
    (w.addPos e v).getCar e2 = w.getCar e2 := by
  unfold ECSWorld.addPos
  split <;> rfl

theorem CapInv_addCar (w : ECSWorld) (e : Nat) (v : ElevatorCar)
    (hv : (v.occupants.length : ℚ) ≤ v.capacity) (hw : CapInv w) :
    CapInv (w.addCar e v) := by
  unfold ECSWorld.addCar
  split
  · intro e2 car hcar
    have hget : ({ w with elevatorCar := storeSet w.elevatorCar e v } : ECSWorld).getCar e2 =
        storeGet (storeSet w.elevatorCar e v) e2 := rfl
    rw [hget] at hcar
    by_cases he : e2 = e
    · rw [he, storeGet_storeSet_self] at hcar
      cases hcar
      exact hv
    · rw [storeGet_storeSet_ne _ _ _ _ he] at hcar
      exact hw e2 car hcar
  · exact hw

theorem getCar_boardOneAgent_ne (carEntity : Nat) (col f : ℚ) (acc : ECSWorld)
    (e e2 : Nat) (h : e2 ≠ carEntity) :
    (boardOneAgent carEntity col f acc e).getCar e2 = acc.getCar e2 := by
  unfold boardOneAgent
  repeat' first | split | dsimp only
  all_goals simp [getCar_setPos, getCar_setAgent, getCar_setCar_ne _ _ _ _ h]

theorem foldBoard_getCar_ne (carEntity : Nat) (col f : ℚ) (l : List Nat) :
    ∀ (acc : ECSWorld) (e2 : Nat), e2 ≠ carEntity →
      (l.foldl (boardOneAgent carEntity col f) acc).getCar e2 = acc.getCar e2 := by
  induction l with
  | nil => intro acc e2 _; rfl
  | cons x xs ih =>
    intro acc e2 h
    rw [List.foldl_cons, ih _ e2 h, getCar_boardOneAgent_ne _ _ _ _ _ _ h]

theorem remainingCap_le (car : ElevatorCar) :
    (remainingCap car : ℚ) ≤ max 0 (car.capacity - (car.occupants.length : ℚ)) := by
  unfold remainingCap
  have hnn : (0 : ℚ) ≤ max 0 (car.capacity - (car.occupants.length : ℚ)) := le_max_left _ _
  have hfl : (0 : ℤ) ≤ (max 0 (car.capacity - (car.occupants.length : ℚ))).floor :=
    Int.floor_nonneg.mpr hnn
  calc ((max 0 (car.capacity - (car.occupants.length : ℚ))).floor.toNat : ℚ)
      = (((max 0 (car.capacity - (car.occupants.length : ℚ))).floor.toNat : ℤ) : ℚ) := by
        push_cast
        ring
    _ = (((max 0 (car.capacity - (car.occupants.length : ℚ))).floor : ℤ) : ℚ) := by
        rw [Int.toNat_of_nonneg hfl]
    _ ≤ max 0 (car.capacity - (car.occupants.length : ℚ)) := Int.floor_le _

theorem loadAtFloor_CapInv (w : ECSWorld) (carEntity : Nat) (column floor : ℚ)
    (hw : CapInv w) : CapInv (loadAtFloor w carEntity column floor) := by
  unfold loadAtFloor
  cases hcar : w.getCar carEntity with
  | none => exact hw
  | some car =>
    dsimp only
    intro e car2 hcar2
    rw [foldClear_getCar] at hcar2
    by_cases he : e = carEntity
    · rw [he] at hcar2
      obtain ⟨carF, hF, hcapF, -, hlenF, -, -⟩ :=
        foldBoard_car carEntity column floor _ w car hcar
      rw [hF] at hcar2
      cases hcar2
      have hbase := hw carEntity car hcar
      have hblen : ((loadQueue w carEntity column floor).take (remainingCap car)).length ≤
          remainingCap car := List.length_take_le _ _
      have hrc := remainingCap_le car
      rw [hcapF]
      have h1 : (car2.occupants.length : ℚ) ≤
          (car.occupants.length : ℚ) +
            (((loadQueue w carEntity column floor).take (remainingCap car)).length : ℚ) := by
        exact_mod_cast hlenF
      have h2 : ((((loadQueue w carEntity column floor).take (remainingCap car)).length : ℕ) : ℚ) ≤
          (remainingCap car : ℚ) := by exact_mod_cast hblen
      have h3 : (car2.occupants.length : ℚ) ≤
          (car.occupants.length : ℚ) + max 0 (car.capacity - (car.occupants.length : ℚ)) :=
        le_trans h1 (by linarith)
      rcases max_cases (0 : ℚ) (car.capacity - (car.occupants.length : ℚ)) with
        ⟨hm, hge⟩ | ⟨hm, hlt⟩
      · rw [hm] at h3
        linarith
      · rw [hm] at h3
        linarith
    · rw [foldBoard_getCar_ne _ _ _ _ _ _ he] at hcar2
      exact hw e car2 hcar2

theorem CapInv_unloadAtFloor (w : ECSWorld) (carEntity : Nat) (column floor : ℚ)
    (hw : CapInv w) : CapInv (unloadAtFloor w carEntity column floor) := by
  unfold unloadAtFloor
  split
  · exact hw
  · refine foldl_preserves _ _ ?_ w hw
    intro acc a _ hacc
    split
    · rename_i agent posv hag hpos
      split
      · exact hacc
      · split
        · exact hacc
        · split
          · split
            · rename_i car hcar
              refine CapInv_setCar _ _ _ ?_ hacc
              rw [addStop_occupants, addStop_capacity]
              exact hacc carEntity car hcar
            · exact hacc
          · rename_i exitX hres
            dsimp only
            have h2 : CapInv ((acc.setPos a ⟨exitX, floor⟩).setAgent a
                { agent with
                    phase := Phase.WALK_TO_TARGET
                    sourceFloorY := some floor
                    assignedCarId := none
                    assignedShaftX := none
                    waitX := none
                    callRegistered := false
                    waitMs := 0 }) :=
              CapInv_setAgent _ _ _ (CapInv_setPos _ _ _ hacc)
            split
            · rename_i car hcar
              refine CapInv_setCar _ _ _ ?_ h2
              calc ((car.occupants.filter (fun occ => decide (occ ≠ a))).length : ℚ)
                  ≤ (car.occupants.length : ℚ) := by
                    exact_mod_cast List.length_filter_le _ _
                _ ≤ car.capacity := h2 carEntity car hcar
            · exact h2
    · exact hacc


theorem CapInv_setCar_of_getCar {w : ECSWorld} {e : Nat} {car : ElevatorCar}
    (hw : CapInv w) (hcar : w.getCar e = some car) (v : ElevatorCar)
    (hocc : v.occupants = car.occupants) (hcap : v.capacity = car.capacity) :
    CapInv (w.setCar e v) :=
  CapInv_setCar _ _ _ (by rw [hocc, hcap]; exact hw e car hcar) hw

theorem CapInv_updateOneCar (deltaMs : ℚ) (fbc : List (ℚ × List ℚ)) (carEntity : Nat)
    (acc : ECSWorld) (hw : CapInv acc) : CapInv (updateOneCar acc deltaMs fbc carEntity) := by
  unfold updateOneCar
  split
  · rename_i car0 position hcar0 hpos
    split
    · exact hw
    · rename_i servedFloors hserved
      dsimp only
      split
      · split
        · exact CapInv_setCar _ _ _ (hw carEntity car0 hcar0)
            (CapInv_setCar _ _ _ (hw carEntity car0 hcar0) hw)
        · exact CapInv_setCar _ _ _ (hw carEntity car0 hcar0)
            (CapInv_setCar _ _ _ (hw carEntity car0 hcar0) hw)
      · split
        · exact CapInv_setCar _ _ _ (hw carEntity car0 hcar0)
            (CapInv_setCar _ _ _ (hw carEntity car0 hcar0) hw)
        · rename_i targetFloor hhead
          split
          · split
            · rename_i car2 hcar2
              refine CapInv_setCar_of_getCar ?_ hcar2 _ rfl rfl
              exact CapInv_unloadAtFloor _ _ _ _ (CapInv_setPos _ _ _
                (CapInv_setCar _ _ _ (hw carEntity car0 hcar0) hw))
            · exact CapInv_unloadAtFloor _ _ _ _ (CapInv_setPos _ _ _
                (CapInv_setCar _ _ _ (hw carEntity car0 hcar0) hw))
          · split
            · split
              · split
                · rename_i car2 hcar2
                  refine CapInv_setCar_of_getCar ?_ hcar2 _ rfl rfl
                  exact CapInv_unloadAtFloor _ _ _ _ (CapInv_setPos _ _ _
                    (CapInv_setCar _ _ _ (hw carEntity car0 hcar0) hw))
                · exact CapInv_unloadAtFloor _ _ _ _ (CapInv_setPos _ _ _
                    (CapInv_setCar _ _ _ (hw carEntity car0 hcar0) hw))
              · exact CapInv_setPos _ _ _ (CapInv_setCar _ _ _ (hw carEntity car0 hcar0)
                  (CapInv_setCar _ _ _ (hw carEntity car0 hcar0) hw))
            · split
              · split
                · rename_i car2 hcar2
                  refine CapInv_setCar_of_getCar ?_ hcar2 _ rfl rfl
                  exact CapInv_unloadAtFloor _ _ _ _ (CapInv_setPos _ _ _
                    (CapInv_setCar _ _ _ (hw carEntity car0 hcar0) hw))
                · exact CapInv_unloadAtFloor _ _ _ _ (CapInv_setPos _ _ _
                    (CapInv_setCar _ _ _ (hw carEntity car0 hcar0) hw))
              · exact CapInv_setPos _ _ _ (CapInv_setCar _ _ _ (hw carEntity car0 hcar0)
                  (CapInv_setCar _ _ _ (hw carEntity car0 hcar0) hw))
      · split
        · split
          · rename_i car3 hcar3
            refine CapInv_setCar_of_getCar ?_ hcar3 _ rfl rfl
            exact loadAtFloor_CapInv _ _ _ _ (CapInv_setCar _ _ _ (hw carEntity car0 hcar0)
              (CapInv_setCar _ _ _ (hw carEntity car0 hcar0) hw))
          · exact loadAtFloor_CapInv _ _ _ _ (CapInv_setCar _ _ _ (hw carEntity car0 hcar0)
              (CapInv_setCar _ _ _ (hw carEntity car0 hcar0) hw))
        · exact CapInv_setCar _ _ _ (hw carEntity car0 hcar0)
            (CapInv_setCar _ _ _ (hw carEntity car0 hcar0) hw)
      · split
        · exact CapInv_setCar _ _ _ (hw carEntity car0 hcar0)
            (CapInv_setCar _ _ _ (hw carEntity car0 hcar0) hw)
        · exact CapInv_setCar _ _ _ (hw carEntity car0 hcar0)
            (CapInv_setCar _ _ _ (hw carEntity car0 hcar0) hw)
  · exact hw


theorem CapInv_syncCars (w : ECSWorld) (fbc : List (ℚ × List ℚ))
    (banks : List ElevatorBank) (hw : CapInv w) : CapInv (syncCars w fbc banks) := by
  unfold syncCars
  refine foldl_preserves _ _ ?_ _ (foldl_preserves _ _ ?_ w hw)
  · intro acc p _ hacc
    split
    · exact hacc
    · refine foldl_preserves _ _ ?_ _ (CapInv_destroyEntity _ _ hacc)
      intro acc2 agentEntity _ hacc2
      split
      · split
        · exact CapInv_setAgent _ _ _ hacc2
        · exact hacc2
      · exact hacc2
  · intro acc p _ hacc
    split
    · exact hacc
    · rename_i bank hbank
      split
      · rename_i existingCarId hid
        split
        · rename_i existingCar hcar
          exact CapInv_setCar_of_getCar hacc hcar _ rfl rfl
        · exact hacc
      · dsimp only
        refine CapInv_addCar _ _ _ ?_ ?_
        · norm_num
        · intro e car hcar
          rw [getCar_addPos, getCar_createEntity] at hcar
          exact hacc e car hcar

theorem CapInv_dispatchAgent (fbc : List (ℚ × List ℚ)) (banks : List ElevatorBank)
    (carsByBank : List (Nat × List Nat)) (agentEntity : Nat) (acc : ECSWorld)
    (hw : CapInv acc) : CapInv (dispatchAgent acc fbc banks carsByBank agentEntity) := by
  unfold dispatchAgent
  split
  · exact hw
  · rename_i agent hag
    split
    · exact hw
    · split
      · exact hw
      · split
        · rename_i shaftX sourceFloor targetFloor hsx hsf htf
          split
          · exact hw
          · rename_i bank hbank
            dsimp only
            split
            · exact hw
            · rename_i bestCarEntity hbest
              split
              · exact hw
              · rename_i selectedCar hcar
                have hsel : CapInv ((acc.setCar bestCarEntity
                    (addStop (addStop selectedCar sourceFloor) targetFloor)).setAgent agentEntity
                    { agent with assignedCarId := some bestCarEntity, callRegistered := true }) := by
                  refine CapInv_setAgent _ _ _ ?_
                  refine CapInv_setCar _ _ _ ?_ hw
                  rw [addStop_occupants, addStop_occupants, addStop_capacity, addStop_capacity]
                  exact hw bestCarEntity selectedCar hcar
                split
                · split
                  · exact hsel
                  · rename_i waitX hres
                    split
                    · exact CapInv_setAgent _ _ _ hsel
                    · exact hsel
                · exact hsel
        · exact hw

theorem CapInv_dispatchCalls (w : ECSWorld) (fbc : List (ℚ × List ℚ))
    (banks : List ElevatorBank) (hw : CapInv w) : CapInv (dispatchCalls w fbc banks) := by
  unfold dispatchCalls
  dsimp only
  refine foldl_preserves _ _ ?_ w hw
  intro acc a _ hacc
  exact CapInv_dispatchAgent fbc banks (carsByBankMap w) a acc hacc

theorem CapInv_arrangeQueueLines (w : ECSWorld) (hw : CapInv w) :
    CapInv (arrangeQueueLines w) := by
  unfold arrangeQueueLines
  dsimp only
  refine foldl_preserves _ _ ?_ w hw
  intro acc group _ hacc
  dsimp only
  refine foldl_preserves _ _ ?_ acc hacc
  intro acc2 pair _ hacc2
  split
  · exact hacc2
  · exact CapInv_setPos _ _ _ hacc2

theorem CapInv_updateCars (w : ECSWorld) (deltaMs : ℚ) (fbc : List (ℚ × List ℚ))
    (hw : CapInv w) : CapInv (updateCars w deltaMs fbc) := by
  unfold updateCars
  refine foldl_preserves _ _ ?_ w hw
  intro acc carEntity _ hacc
  exact CapInv_updateOneCar deltaMs fbc carEntity acc hacc

theorem CapInv_syncRiders (w : ECSWorld) (hw : CapInv w) : CapInv (syncRiders w) := by
  unfold syncRiders
  refine foldl_preserves _ _ ?_ w hw
  intro acc a _ hacc
  split
  · split
    · exact hacc
    · split
      · exact CapInv_setAgent _ _ _ hacc
      · split
        · exact CapInv_setAgent _ _ _ hacc
        · exact CapInv_setPos _ _ _ hacc
  · exact hacc


/-- C4: no elevator car ever holds more occupants than its capacity.
`ElevatorSystem.update` preserves the capacity bound through all five of
its passes, and `loadAtFloor` grows a car's occupant list by at most
`remainingCap` (the floor of `capacity - occupants.length`, clamped at 0),
keeping it within the car's capacity. -/
theorem elevatorUpdate_capacity_invariant (w : ECSWorld) (deltaMs : ℚ)
    (hw : CapInv w) :
    CapInv (elevatorUpdate w deltaMs) ∧
    (∀ cE col f car, w.getCar cE = some car →
      ∃ carF, (loadAtFloor w cE col f).getCar cE = some carF ∧
        carF.occupants.length ≤ car.occupants.length + remainingCap car ∧
        (carF.occupants.length : ℚ) ≤ carF.capacity) := by
  constructor
  · unfold elevatorUpdate
    exact CapInv_syncRiders _ (CapInv_updateCars _ _ _ (CapInv_arrangeQueueLines _
      (CapInv_dispatchCalls _ _ _ (CapInv_syncCars _ _ _ hw))))
  · intro cE col f car hcar
    have hCap := loadAtFloor_CapInv w cE col f hw
    unfold loadAtFloor
    rw [hcar]
    dsimp only
    obtain ⟨carF, hF, hcapF, -, hlenF, -, -⟩ :=
      foldBoard_car cE col f ((loadQueue w cE col f).take (remainingCap car)) w car hcar
    have hget : (((loadQueue w cE col f).drop (remainingCap car)).foldl clearOverflowAgent
        (((loadQueue w cE col f).take (remainingCap car)).foldl
          (boardOneAgent cE col f) w)).getCar cE = some carF := by
      rw [foldClear_getCar]
      exact hF
    refine ⟨carF, hget, ?_, ?_⟩
    · have htk : ((loadQueue w cE col f).take (remainingCap car)).length ≤ remainingCap car :=
        List.length_take_le _ _
      omega
    · have hCap2 : CapInv (((loadQueue w cE col f).drop (remainingCap car)).foldl
          clearOverflowAgent (((loadQueue w cE col f).take (remainingCap car)).foldl
            (boardOneAgent cE col f) w)) := by
        have h1 := hCap
        unfold loadAtFloor at h1
        rw [hcar] at h1
        exact h1
      exact hCap2 cE carF hget

def capCar : ElevatorCar :=
  { state := ElevState.IDLE
    direction := Dir.NONE
    speed := 28/10
    column := 2
    bankId := 0
    stopQueue := []
    phaseTimerMs := 0
    capacity := 4
    occupants := [9] }

def capWitnessWorld : ECSWorld :=
  { nextEntityId := 2
    entities := [1]
    position := [(1, ⟨2, 0⟩)]
    agent := []
    floor := []
    elevator := []
    elevatorCar := [(1, capCar)]
    floatingText := [] }

theorem elevatorUpdate_capacity_invariant_witness :
    CapInv (elevatorUpdate capWitnessWorld 16) :=
  (elevatorUpdate_capacity_invariant capWitnessWorld 16 (by
    intro e car hcar
    rw [show capWitnessWorld.getCar e =
        if 1 = e then some capCar else none from storeGet_cons _ _ _] at hcar
    by_cases h : 1 = e
    · rw [if_pos h] at hcar
      cases hcar
      show ((1 : ℕ) : ℚ) ≤ 4
      norm_num
    · rw [if_neg h] at hcar
      exact Option.noConfusion hcar)).1


/-! ### C5: stop queues after an update -/

theorem dedupeFold_nodup (l : List ℚ) :
    ∀ acc : List ℚ, acc.Nodup →
      (l.foldl (fun result stop => if stop ∈ result then result else result ++ [stop])
        acc).Nodup := by
  induction l with
  | nil => intro acc h; exact h
  | cons x xs ih =>
    intro acc h
    rw [List.foldl_cons]
    by_cases hx : x ∈ acc
    · rw [if_pos hx]
      exact ih acc h
    · rw [if_neg hx]
      refine ih _ (h.append (List.nodup_singleton x) ?_)
      intro a ha hb
      rw [List.mem_singleton] at hb
      subst hb
      exact hx ha

theorem dedupeFold_mem (l : List ℚ) :
    ∀ (acc : List ℚ) (s : ℚ),
      s ∈ l.foldl (fun result stop => if stop ∈ result then result else result ++ [stop]) acc →
      s ∈ acc ∨ s ∈ l := by
  induction l with
  | nil => intro acc s h; exact Or.inl h
  | cons x xs ih =>
    intro acc s h
    rw [List.foldl_cons] at h
    by_cases hx : x ∈ acc
    · rw [if_pos hx] at h
      rcases ih acc s h with h1 | h2
      · exact Or.inl h1
      · exact Or.inr (List.mem_cons_of_mem x h2)
    · rw [if_neg hx] at h
      rcases ih _ s h with h1 | h2
      · rcases List.mem_append.mp h1 with h3 | h4
        · exact Or.inl h3
        · rw [List.mem_singleton] at h4
          subst h4
          exact Or.inr (List.mem_cons_self _ _)
      · exact Or.inr (List.mem_cons_of_mem x h2)

theorem dedupeStops_nodup (l : List ℚ) : (dedupeStops l).Nodup :=
  dedupeFold_nodup l [] List.nodup_nil

theorem mem_dedupeStops (l : List ℚ) (s : ℚ) (h : s ∈ dedupeStops l) : s ∈ l := by
  rcases dedupeFold_mem l [] s h with h1 | h2
  · cases h1
  · exact h2

theorem getPos_setPos_isSome (w : ECSWorld) (e x : Nat) (v : Pos)
    (h : (w.getPos x).isSome = true) : ((w.setPos e v).getPos x).isSome = true := by
  by_cases hx : x = e
  · subst hx
    rw [getPos_setPos_self]
    rfl
  · rw [getPos_setPos_ne _ _ _ _ hx]
    exact h

theorem getPos_boardOneAgent_isSome (carEntity : Nat) (col f : ℚ) (acc : ECSWorld)
    (a x : Nat) (h : (acc.getPos x).isSome = true) :
    ((boardOneAgent carEntity col f acc a).getPos x).isSome = true := by
  unfold boardOneAgent
  repeat' first
    | split
    | dsimp only
    | (rw [getPos_setCar])
    | (apply getPos_setPos_isSome)
  all_goals exact h

theorem foldBoard_getPos_isSome (carEntity : Nat) (col f : ℚ) (l : List Nat) :
    ∀ (acc : ECSWorld) (x : Nat), (acc.getPos x).isSome = true →
      ((l.foldl (boardOneAgent carEntity col f) acc).getPos x).isSome = true := by
  induction l with
  | nil => intro acc x h; exact h
  | cons y ys ih =>
    intro acc x h
    rw [List.foldl_cons]
    exact ih _ x (getPos_boardOneAgent_isSome carEntity col f acc y x h)

theorem loadAtFloor_getPos_isSome (w : ECSWorld) (carEntity : Nat) (column floor : ℚ)
    (x : Nat) (h : (w.getPos x).isSome = true) :
    ((loadAtFloor w carEntity column floor).getPos x).isSome = true := by
  unfold loadAtFloor
  split
  · exact h
  · dsimp only
    rw [foldClear_getPos]
    exact foldBoard_getPos_isSome carEntity column floor _ w x h

theorem unloadAtFloor_getPos_isSome (w : ECSWorld) (carEntity : Nat) (column floor : ℚ)
    (x : Nat) (h : (w.getPos x).isSome = true) :
    ((unloadAtFloor w carEntity column floor).getPos x).isSome = true := by
  unfold unloadAtFloor
  split
  · exact h
  · refine foldl_preserves (P := fun w2 => (w2.getPos x).isSome = true) _ _ ?_ w h
    intro acc a _ hacc
    repeat' first | split | dsimp only
    all_goals first
      | exact hacc
      | (simp only [getPos_setAgent, getPos_setCar]
         first
           | exact hacc
           | (apply getPos_setPos_isSome
              exact hacc))


theorem unloadAtFloor_getCar_ne (w : ECSWorld) (carEntity : Nat) (column floor : ℚ)
    (e : Nat) (h : e ≠ carEntity) :
    (unloadAtFloor w carEntity column floor).getCar e = w.getCar e := by
  unfold unloadAtFloor
  split
  · rfl
  · refine foldl_preserves (P := fun w2 => w2.getCar e = w.getCar e) _ _ ?_ w rfl
    intro acc a _ hacc
    repeat' first
      | split
      | dsimp only
      | (rw [getCar_setCar_ne _ _ _ _ h])
      | (rw [getCar_setAgent])
      | (rw [getCar_setPos])
    all_goals exact hacc

theorem loadAtFloor_getCar_ne (w : ECSWorld) (carEntity : Nat) (column floor : ℚ)
    (e : Nat) (h : e ≠ carEntity) :
    (loadAtFloor w carEntity column floor).getCar e = w.getCar e := by
  unfold loadAtFloor
  split
  · rfl
  · dsimp only
    rw [foldClear_getCar, foldBoard_getCar_ne _ _ _ _ _ _ h]

theorem updateOneCar_getCar_ne (acc : ECSWorld) (deltaMs : ℚ) (fbc : List (ℚ × List ℚ))
    (carEntity e : Nat) (h : e ≠ carEntity) :
    (updateOneCar acc deltaMs fbc carEntity).getCar e = acc.getCar e := by
  unfold updateOneCar
  repeat' first
    | split
    | dsimp only
    | (rw [unloadAtFloor_getCar_ne _ _ _ _ _ h])
    | (rw [loadAtFloor_getCar_ne _ _ _ _ _ h])
    | (rw [getCar_setCar_ne _ _ _ _ h])
    | (rw [getCar_setPos])

theorem updateOneCar_getPos_isSome (acc : ECSWorld) (deltaMs : ℚ) (fbc : List (ℚ × List ℚ))
    (carEntity x : Nat) (h : (acc.getPos x).isSome = true) :
    ((updateOneCar acc deltaMs fbc carEntity).getPos x).isSome = true := by
  unfold updateOneCar
  repeat' first
    | split
    | dsimp only
    | (apply unloadAtFloor_getPos_isSome)
    | (apply loadAtFloor_getPos_isSome)
    | (rw [getPos_setCar])
    | (apply getPos_setPos_isSome)
  all_goals exact h

theorem foldUpdate_getCar_not_mem (deltaMs : ℚ) (fbc : List (ℚ × List ℚ)) (l : List Nat) :
    ∀ (acc : ECSWorld) (e : Nat), e ∉ l →
      (l.foldl (fun a c => updateOneCar a deltaMs fbc c) acc).getCar e = acc.getCar e := by
  induction l with
  | nil => intro acc e _; rfl
  | cons y ys ih =>
    intro acc e he
    rw [List.mem_cons, not_or] at he
    rw [List.foldl_cons, ih _ e he.2, updateOneCar_getCar_ne _ _ _ _ _ he.1]

theorem foldUpdate_getPos_isSome (deltaMs : ℚ) (fbc : List (ℚ × List ℚ)) (l : List Nat) :
    ∀ (acc : ECSWorld) (x : Nat), (acc.getPos x).isSome = true →
      ((l.foldl (fun a c => updateOneCar a deltaMs fbc c) acc).getPos x).isSome = true := by
  induction l with
  | nil => intro acc x h; exact h
  | cons y ys ih =>
    intro acc x h
    rw [List.foldl_cons]
    exact ih _ x (updateOneCar_getPos_isSome acc deltaMs fbc y x h)

theorem addStop_of_mem (car : ElevatorCar) (f : ℚ) (h : f ∈ car.stopQueue) :
    addStop car f = car := by
  unfold addStop
  rw [if_pos h]

theorem unloadAtFloor_car (w : ECSWorld) (carEntity : Nat) (column floor : ℚ)
    (c : ElevatorCar) (hc : w.getCar carEntity = some c) (hfl : floor ∈ c.stopQueue) :
    ∃ c2, (unloadAtFloor w carEntity column floor).getCar carEntity = some c2 ∧
      c2.stopQueue = c.stopQueue ∧ c2.column = c.column := by
  unfold unloadAtFloor
  rw [hc]
  dsimp only
  refine foldl_preserves (P := fun w2 => ∃ c2, w2.getCar carEntity = some c2 ∧
      c2.stopQueue = c.stopQueue ∧ c2.column = c.column) _ _ ?_ w ⟨c, hc, rfl, rfl⟩
  intro acc a _ hacc
  obtain ⟨c2, hc2, hq2, hcol2⟩ := hacc
  split
  · rename_i agent posv hag hpos
    split
    · exact ⟨c2, hc2, hq2, hcol2⟩
    · split
      · exact ⟨c2, hc2, hq2, hcol2⟩
      · split
        · split
          · rename_i car hcar
            rw [hc2] at hcar
            injection hcar with hcc
            subst hcc
            rw [addStop_of_mem _ _ (by rw [hq2]; exact hfl)]
            exact ⟨c2, getCar_setCar_self _ _ _, hq2, hcol2⟩
          · exact ⟨c2, hc2, hq2, hcol2⟩
        · rename_i exitX hres
          split
          · rename_i car hcar
            rw [getCar_setAgent, getCar_setPos, hc2] at hcar
            injection hcar with hcc
            subst hcc
            exact ⟨_, getCar_setCar_self _ _ _, hq2, hcol2⟩
          · exact ⟨c2, by rw [getCar_setAgent, getCar_setPos]; exact hc2, hq2, hcol2⟩
  · exact ⟨c2, hc2, hq2, hcol2⟩


theorem mem_of_head?_eq {α : Type} (l : List α) (a : α) (h : l.head? = some a) : a ∈ l := by
  cases l with
  | nil => exact Option.noConfusion h
  | cons x xs =>
    rw [List.head?_cons] at h
    injection h with h1
    rw [← h1]
    exact List.mem_cons_self _ _

theorem updateOneCar_own_queue (acc : ECSWorld) (deltaMs : ℚ) (fbc : List (ℚ × List ℚ))
    (e : Nat) (car0 : ElevatorCar) (hcar0 : acc.getCar e = some car0)
    (hpos : (acc.getPos e).isSome = true)
    (hunl : car0.state = ElevState.UNLOADING → deltaMs < car0.phaseTimerMs) :
    ∀ car, (updateOneCar acc deltaMs fbc e).getCar e = some car →
      car.column = car0.column ∧
      ∀ served, mapGet fbc car0.column = some served →
        car.stopQueue.Nodup ∧ ∀ s, s ∈ car.stopQueue → s ∈ served := by
  obtain ⟨position, hpos2⟩ := Option.isSome_iff_exists.mp hpos
  intro car hcar
  unfold updateOneCar at hcar
  rw [hcar0, hpos2] at hcar
  dsimp only at hcar
  cases hsrv : mapGet fbc car0.column with
  | none =>
    rw [hsrv] at hcar
    dsimp only at hcar
    rw [hcar0] at hcar
    injection hcar with hcc
    subst hcc
    refine ⟨rfl, ?_⟩
    intro served hserved
    exact Option.noConfusion hserved
  | some served0 =>
    rw [hsrv] at hcar
    dsimp only at hcar
    have hKnd :
        (dedupeStops (car0.stopQueue.filter (fun stop => decide (stop ∈ served0)))).Nodup :=
      dedupeStops_nodup _
    have hKsub : ∀ s,
        s ∈ dedupeStops (car0.stopQueue.filter (fun stop => decide (stop ∈ served0))) →
        s ∈ served0 := by
      intro s hs
      have h2 := mem_dedupeStops _ s hs
      rw [List.mem_filter] at h2
      exact of_decide_eq_true h2.2
    split at hcar
    · -- IDLE
      split at hcar
      · rw [getCar_setCar_self] at hcar
        injection hcar with hcc
        subst hcc
        refine ⟨rfl, ?_⟩
        intro served hserved
        injection hserved with hsv
        subst hsv
        exact ⟨hKnd, hKsub⟩
      · rw [getCar_setCar_self] at hcar
        injection hcar with hcc
        subst hcc
        refine ⟨rfl, ?_⟩
        intro served hserved
        injection hserved with hsv
        subst hsv
        exact ⟨hKnd, hKsub⟩
    · -- MOVING
      split at hcar
      · rw [getCar_setCar_self] at hcar
        injection hcar with hcc
        subst hcc
        refine ⟨rfl, ?_⟩
        intro served hserved
        injection hserved with hsv
        subst hsv
        exact ⟨hKnd, hKsub⟩
      · rename_i targetFloor hhead
        obtain ⟨c2, hc2, hq2, hcol2⟩ := unloadAtFloor_car
          ((acc.setCar e { car0 with stopQueue := dedupeStops (car0.stopQueue.filter (fun stop => decide (stop ∈ served0))) }).setPos
            e ⟨position.x, targetFloor⟩)
          e car0.column targetFloor
          { car0 with stopQueue := dedupeStops (car0.stopQueue.filter (fun stop => decide (stop ∈ served0))) }
          (by rw [getCar_setPos, getCar_setCar_self])
          (mem_of_head?_eq _ _ hhead)
        split at hcar
        · -- arrival within epsilon
          split at hcar
          · rename_i car2 heq2
            rw [hc2] at heq2
            injection heq2 with hc22
            subst hc22
            rw [getCar_setCar_self] at hcar
            injection hcar with hcc
            subst hcc
            refine ⟨hcol2, ?_⟩
            intro served hserved
            injection hserved with hsv
            subst hsv
            have hq2b : c2.stopQueue =
                dedupeStops (car0.stopQueue.filter (fun stop => decide (stop ∈ served0))) := hq2
            constructor
            · show c2.stopQueue.Nodup
              rw [hq2b]
              exact hKnd
            · intro s hs
              have hs2 : s ∈ c2.stopQueue := hs
              rw [hq2b] at hs2
              exact hKsub s hs2
          · rename_i heq2
            rw [hc2] at heq2
            exact Option.noConfusion heq2
        · split at hcar
          · -- moving down
            split at hcar
            · -- reached target
              split at hcar
              · rename_i car2 heq2
                rw [hc2] at heq2
                injection heq2 with hc22
                subst hc22
                rw [getCar_setCar_self] at hcar
                injection hcar with hcc
                subst hcc
                refine ⟨hcol2, ?_⟩
                intro served hserved
                injection hserved with hsv
                subst hsv
                have hq2b : c2.stopQueue =
                    dedupeStops (car0.stopQueue.filter (fun stop => decide (stop ∈ served0))) := hq2
                constructor
                · show c2.stopQueue.Nodup
                  rw [hq2b]
                  exact hKnd
                · intro s hs
                  have hs2 : s ∈ c2.stopQueue := hs
                  rw [hq2b] at hs2
                  exact hKsub s hs2
              · rename_i heq2
                rw [hc2] at heq2
                exact Option.noConfusion heq2
            · rw [getCar_setPos, getCar_setCar_self] at hcar
              injection hcar with hcc
              subst hcc
              refine ⟨rfl, ?_⟩
              intro served hserved
              injection hserved with hsv
              subst hsv
              exact ⟨hKnd, hKsub⟩
          · split at hcar
            · -- reached target going up
              split at hcar
              · rename_i car2 heq2
                rw [hc2] at heq2
                injection heq2 with hc22
                subst hc22
                rw [getCar_setCar_self] at hcar
                injection hcar with hcc
                subst hcc
                refine ⟨hcol2, ?_⟩
                intro served hserved
                injection hserved with hsv
                subst hsv
                have hq2b : c2.stopQueue =
                    dedupeStops (car0.stopQueue.filter (fun stop => decide (stop ∈ served0))) := hq2
                constructor
                · show c2.stopQueue.Nodup
                  rw [hq2b]
                  exact hKnd
                · intro s hs
                  have hs2 : s ∈ c2.stopQueue := hs
                  rw [hq2b] at hs2
                  exact hKsub s hs2
              · rename_i heq2
                rw [hc2] at heq2
                exact Option.noConfusion heq2
            · rw [getCar_setPos, getCar_setCar_self] at hcar
              injection hcar with hcc
              subst hcc
              refine ⟨rfl, ?_⟩
              intro served hserved
              injection hserved with hsv
              subst hsv
              exact ⟨hKnd, hKsub⟩
    · -- UNLOADING
      rename_i hstate
      split at hcar
      · rename_i hle
        exact absurd hle (not_le.mpr (by linarith [hunl hstate]))
      · rw [getCar_setCar_self] at hcar
        injection hcar with hcc
        subst hcc
        refine ⟨rfl, ?_⟩
        intro served hserved
        injection hserved with hsv
        subst hsv
        exact ⟨hKnd, hKsub⟩
    · -- LOADING
      rename_i hstate
      split at hcar
      · split at hcar
        · -- head of queue equals the floor: drop it
          rw [getCar_setCar_self] at hcar
          injection hcar with hcc
          subst hcc
          refine ⟨rfl, ?_⟩
          intro served hserved
          injection hserved with hsv
          subst hsv
          constructor
          · exact List.Nodup.sublist (List.tail_sublist _) hKnd
          · intro s hs
            exact hKsub s ((List.tail_sublist _).subset hs)
        · rw [getCar_setCar_self] at hcar
          injection hcar with hcc
          subst hcc
          refine ⟨rfl, ?_⟩
          intro served hserved
          injection hserved with hsv
          subst hsv
          constructor
          · exact hKnd.filter _
          · intro s hs
            exact hKsub s (List.mem_filter.mp hs).1
      · rw [getCar_setCar_self] at hcar
        injection hcar with hcc
        subst hcc
        refine ⟨rfl, ?_⟩
        intro served hserved
        injection hserved with hsv
        subst hsv
        exact ⟨hKnd, hKsub⟩


/-- C5 (amended): after `updateCars`, every car that entered the pass with a
position holds a duplicate-free stop queue containing only floors of its
column's served list, provided no car finishes its `UNLOADING` pause during
this tick (a finishing car runs `loadAtFloor`, which enqueues boarding
agents' target floors without re-checking the served set). -/
theorem updateCars_stopQueue_invariant (w : ECSWorld) (deltaMs : ℚ)
    (fbc : List (ℚ × List ℚ)) (hnodup : w.entities.Nodup)
    (hunl : ∀ e car, w.getCar e = some car → car.state = ElevState.UNLOADING →
      deltaMs < car.phaseTimerMs) :
    ∀ e, e ∈ w.queryPosCar → ∀ car served,
      (updateCars w deltaMs fbc).getCar e = some car →
      mapGet fbc car.column = some served →
      car.stopQueue.Nodup ∧ ∀ s, s ∈ car.stopQueue → s ∈ served := by
  intro e he car served hcar hserved
  obtain ⟨l₁, l₂, hsplit⟩ := List.append_of_mem he
  have hq : w.queryPosCar.Nodup := hnodup.filter _
  rw [hsplit, List.nodup_append] at hq
  have he1 : e ∉ l₁ := fun hmem => hq.2.2 hmem (List.mem_cons_self _ _)
  have he2 : e ∉ l₂ := (List.nodup_cons.mp hq.2.1).1
  unfold updateCars at hcar
  rw [hsplit, List.foldl_append, List.foldl_cons] at hcar
  have hA_car : (l₁.foldl (fun a c => updateOneCar a deltaMs fbc c) w).getCar e = w.getCar e :=
    foldUpdate_getCar_not_mem deltaMs fbc l₁ w e he1
  have hmem := he
  unfold ECSWorld.queryPosCar at hmem
  rw [List.mem_filter, Bool.and_eq_true] at hmem
  obtain ⟨car0, hcar0⟩ := Option.isSome_iff_exists.mp hmem.2.2
  have hA_pos : ((l₁.foldl (fun a c => updateOneCar a deltaMs fbc c) w).getPos e).isSome = true :=
    foldUpdate_getPos_isSome deltaMs fbc l₁ w e hmem.2.1
  have hstep := updateOneCar_own_queue (l₁.foldl (fun a c => updateOneCar a deltaMs fbc c) w)
    deltaMs fbc e car0 (by rw [hA_car]; exact hcar0) hA_pos (hunl e car0 hcar0)
  rw [foldUpdate_getCar_not_mem deltaMs fbc l₂ _ e he2] at hcar
  obtain ⟨hcol, hqOK⟩ := hstep car hcar
  rw [hcol] at hserved
  exact hqOK served hserved

def c5Agent : Agent :=
  { mood := Mood.neutral
    speed := 1
    phase := Phase.WAIT_AT_SHAFT
    stress := 0
    waitMs := 1000
    sourceFloorY := some 0
    targetFloorY := some 5
    targetX := 1
    targetY := 0
    desiredDirection := Dir.UP
    assignedShaftX := some 2
    waitX := some 1
    assignedCarId := some 2
    callRegistered := true
    despawnOnArrival := false }

def c5Car : ElevatorCar :=
  { state := ElevState.UNLOADING
    direction := Dir.NONE
    speed := 28/10
    column := 2
    bankId := 1
    stopQueue := []
    phaseTimerMs := 10
    capacity := 4
    occupants := [] }

def c5World : ECSWorld :=
  { nextEntityId := 4
    entities := [1, 2, 3]
    position := [(1, ⟨2, 0⟩), (2, ⟨2, 0⟩), (3, ⟨1, 0⟩)]
    agent := [(3, c5Agent)]
    floor := []
    elevator := [(1, ())]
    elevatorCar := [(2, c5Car)]
    floatingText := [] }

/-- C5 is refuted as stated: in `c5World` the shaft at column 2 serves only
floor 0, yet one tick boards the waiting agent (whose target floor 5 is not
served) while the car finishes `UNLOADING`, so after `ElevatorSystem.update`
the car's stop queue holds floor 5, a floor with no shaft segment at the
car's column. -/
theorem stopQueue_unserved_counterexample :
    ∃ car, (elevatorUpdate c5World 16).getCar 2 = some car ∧
      car.column = 2 ∧
      mapGet (getShaftFloorsByColumn (elevatorUpdate c5World 16)) car.column = some [0] ∧
      5 ∈ car.stopQueue ∧ (5 : ℚ) ∉ ([0] : List ℚ) := by
  have h : (elevatorUpdate c5World 16).getCar 2 = some
      { state := ElevState.LOADING
        direction := Dir.NONE
        speed := 28/10
        column := 2
        bankId := 1
        stopQueue := [5]
        phaseTimerMs := 500
        capacity := 4
        occupants := [3] } := by
    with_unfolding_all rfl
  refine ⟨_, h, rfl, ?_, ?_, ?_⟩
  · with_unfolding_all rfl
  · simp
  · simp

def c5bCar : ElevatorCar :=
  { state := ElevState.UNLOADING
    direction := Dir.NONE
    speed := 28/10
    column := 2
    bankId := 1
    stopQueue := []
    phaseTimerMs := 1000
    capacity := 4
    occupants := [] }

def c5bWorld : ECSWorld :=
  { nextEntityId := 4
    entities := [1, 2, 3]
    position := [(1, ⟨2, 0⟩), (2, ⟨2, 0⟩), (3, ⟨1, 0⟩)]
    agent := [(3, c5Agent)]
    floor := []
    elevator := [(1, ())]
    elevatorCar := [(2, c5bCar)]
    floatingText := [] }

theorem updateCars_stopQueue_invariant_witness :
    ∃ car, (updateCars c5bWorld 16 [((2 : ℚ), [(0 : ℚ)])]).getCar 2 = some car ∧
      car.stopQueue.Nodup ∧ (∀ s, s ∈ car.stopQueue → s ∈ ([(0 : ℚ)] : List ℚ)) := by
  have hfin : (updateCars c5bWorld 16 [((2 : ℚ), [(0 : ℚ)])]).getCar 2 =
      some { c5bCar with stopQueue := [], phaseTimerMs := 984 } := by
    with_unfolding_all rfl
  have happ := updateCars_stopQueue_invariant c5bWorld 16 [((2 : ℚ), [(0 : ℚ)])]
    (by decide)
    (by
      intro e car hcar
      rw [show c5bWorld.getCar e = if 2 = e then some c5bCar else none
          from storeGet_cons _ _ _] at hcar
      by_cases h : 2 = e
      · rw [if_pos h] at hcar
        injection hcar with hcc
        subst hcc
        intro _
        show (16 : ℚ) < 1000
        norm_num
      · rw [if_neg h] at hcar
        exact Option.noConfusion hcar)
    2 (by with_unfolding_all decide) _ [(0 : ℚ)] hfin (by with_unfolding_all rfl)
  exact ⟨_, hfin, happ.1, happ.2⟩


/-! ### C6: assigned car ids and agent phases -/

/-- The dispatch-lock invariant that actually holds between ticks: an agent
holding a car assignment has its call registered and is walking to the
shaft, waiting at it, or riding. -/
def AgentInv (w : ECSWorld) : Prop :=
  ∀ e agent, w.getAgent e = some agent → agent.assignedCarId ≠ none →
    agent.callRegistered = true ∧
    (agent.phase = Phase.WAIT_AT_SHAFT ∨ agent.phase = Phase.WALK_TO_SHAFT ∨
      agent.phase = Phase.RIDING)

theorem AgentInv_of_getAgent_eq {w w2 : ECSWorld}
    (h : ∀ e, w2.getAgent e = w.getAgent e) (hw : AgentInv w) : AgentInv w2 := by
  intro e agent hag
  exact hw e agent (by rw [← h e]; exact hag)

theorem AgentInv_setPos (w : ECSWorld) (e : Nat) (v : Pos) (hw : AgentInv w) :
    AgentInv (w.setPos e v) :=
  AgentInv_of_getAgent_eq (fun e2 => getAgent_setPos w e e2 v) hw

theorem AgentInv_setCar (w : ECSWorld) (e : Nat) (v : ElevatorCar) (hw : AgentInv w) :
    AgentInv (w.setCar e v) :=
  AgentInv_of_getAgent_eq (fun e2 => getAgent_setCar w e e2 v) hw

theorem AgentInv_setAgent (w : ECSWorld) (e : Nat) (v : Agent)
    (hv : v.assignedCarId ≠ none → v.callRegistered = true ∧
      (v.phase = Phase.WAIT_AT_SHAFT ∨ v.phase = Phase.WALK_TO_SHAFT ∨
        v.phase = Phase.RIDING))
    (hw : AgentInv w) : AgentInv (w.setAgent e v) := by
  intro e2 agent hag
  by_cases he : e2 = e
  · subst he
    rw [getAgent_setAgent_self] at hag
    injection hag with hv2
    subst hv2
    exact hv
  · rw [getAgent_setAgent_ne _ _ _ _ he] at hag
    exact hw e2 agent hag

theorem getAgent_destroyEntity (w : ECSWorld) (t e : Nat) :
    (w.destroyEntity t).getAgent e = if e = t then none else w.getAgent e := by
  by_cases he : e = t
  · rw [if_pos he, he]
    exact storeGet_storeDel_self _ _
  · rw [if_neg he]
    exact storeGet_storeDel_ne _ _ _ he

theorem AgentInv_destroyEntity (w : ECSWorld) (t : Nat) (hw : AgentInv w) :
    AgentInv (w.destroyEntity t) := by
  intro e agent hag
  rw [getAgent_destroyEntity] at hag
  by_cases he : e = t
  · rw [if_pos he] at hag
    exact Option.noConfusion hag
  · rw [if_neg he] at hag
    exact hw e agent hag

theorem getAgent_createEntity (w : ECSWorld) (e : Nat) :
    ((w.createEntity).2).getAgent e = w.getAgent e := rfl

theorem getAgent_addPos (w : ECSWorld) (e e2 : Nat) (v : Pos) :
    (w.addPos e v).getAgent e2 = w.getAgent e2 := by
  unfold ECSWorld.addPos
  split <;> rfl

theorem getAgent_addCar (w : ECSWorld) (e e2 : Nat) (v : ElevatorCar) :
    (w.addCar e v).getAgent e2 = w.getAgent e2 := by
  unfold ECSWorld.addCar
  split <;> rfl

theorem AgentInv_syncCars (w : ECSWorld) (fbc : List (ℚ × List ℚ))
    (banks : List ElevatorBank) (hw : AgentInv w) : AgentInv (syncCars w fbc banks) := by
  unfold syncCars
  refine foldl_preserves _ _ ?_ _ (foldl_preserves _ _ ?_ w hw)
  · intro acc p _ hacc
    split
    · exact hacc
    · refine foldl_preserves _ _ ?_ _ (AgentInv_destroyEntity _ _ hacc)
      intro acc2 agentEntity _ hacc2
      split
      · split
        · refine AgentInv_setAgent _ _ _ ?_ hacc2
          intro hne
          exact absurd rfl hne
        · exact hacc2
      · exact hacc2
  · intro acc p _ hacc
    split
    · exact hacc
    · rename_i bank hbank
      split
      · split
        · exact AgentInv_setCar _ _ _ hacc
        · exact hacc
      · dsimp only
        refine AgentInv_of_getAgent_eq ?_ hacc
        intro e2
        rw [getAgent_addCar, getAgent_addPos, getAgent_createEntity]

theorem AgentInv_dispatchAgent (fbc : List (ℚ × List ℚ)) (banks : List ElevatorBank)
    (carsByBank : List (Nat × List Nat)) (agentEntity : Nat) (acc : ECSWorld)
    (hw : AgentInv acc) : AgentInv (dispatchAgent acc fbc banks carsByBank agentEntity) := by
  unfold dispatchAgent
  split
  · exact hw
  · rename_i agent hag
    split
    · exact hw
    · rename_i hphase
      split
      · exact hw
      · split
        · rename_i shaftX sourceFloor targetFloor hsx hsf htf
          split
          · exact hw
          · rename_i bank hbank
            dsimp only
            split
            · exact hw
            · rename_i bestCarEntity hbest
              split
              · exact hw
              · rename_i selectedCar hcar
                have hph : agent.phase = Phase.WAIT_AT_SHAFT := not_not.mp hphase
                have hsel : AgentInv ((acc.setCar bestCarEntity
                    (addStop (addStop selectedCar sourceFloor) targetFloor)).setAgent agentEntity
                    { agent with assignedCarId := some bestCarEntity, callRegistered := true }) := by
                  refine AgentInv_setAgent _ _ _ ?_ (AgentInv_setCar _ _ _ hw)
                  intro _
                  exact ⟨rfl, Or.inl hph⟩
                split
                · split
                  · exact hsel
                  · rename_i waitX hres
                    split
                    · rename_i agent2 hag2
                      rw [getAgent_setAgent_self] at hag2
                      injection hag2 with hag2v
                      subst hag2v
                      refine AgentInv_setAgent _ _ _ ?_ hsel
                      intro _
                      exact ⟨rfl, Or.inr (Or.inl rfl)⟩
                    · exact hsel
                · exact hsel
        · exact hw

theorem AgentInv_dispatchCalls (w : ECSWorld) (fbc : List (ℚ × List ℚ))
    (banks : List ElevatorBank) (hw : AgentInv w) : AgentInv (dispatchCalls w fbc banks) := by
  unfold dispatchCalls
  dsimp only
  refine foldl_preserves _ _ ?_ w hw
  intro acc a _ hacc
  exact AgentInv_dispatchAgent fbc banks (carsByBankMap w) a acc hacc

theorem AgentInv_arrangeQueueLines (w : ECSWorld) (hw : AgentInv w) :
    AgentInv (arrangeQueueLines w) := by
  unfold arrangeQueueLines
  dsimp only
  refine foldl_preserves _ _ ?_ w hw
  intro acc group _ hacc
  dsimp only
  refine foldl_preserves _ _ ?_ acc hacc
  intro acc2 pair _ hacc2
  split
  · exact hacc2
  · exact AgentInv_setPos _ _ _ hacc2

theorem AgentInv_unloadAtFloor (w : ECSWorld) (carEntity : Nat) (column floor : ℚ)
    (hw : AgentInv w) : AgentInv (unloadAtFloor w carEntity column floor) := by
  unfold unloadAtFloor
  split
  · exact hw
  · refine foldl_preserves _ _ ?_ w hw
    intro acc a _ hacc
    split
    · rename_i agent posv hag hpos
      split
      · exact hacc
      · split
        · exact hacc
        · split
          · split
            · exact AgentInv_setCar _ _ _ hacc
            · exact hacc
          · rename_i exitX hres
            dsimp only
            have h2 : AgentInv ((acc.setPos a ⟨exitX, floor⟩).setAgent a
                { agent with
                    phase := Phase.WALK_TO_TARGET
                    sourceFloorY := some floor
                    assignedCarId := none
                    assignedShaftX := none
                    waitX := none
                    callRegistered := false
                    waitMs := 0 }) := by
              refine AgentInv_setAgent _ _ _ ?_ (AgentInv_setPos _ _ _ hacc)
              intro hne
              exact absurd rfl hne
            split
            · exact AgentInv_setCar _ _ _ h2
            · exact h2
    · exact hacc

theorem AgentInv_boardOneAgent (carEntity : Nat) (col f : ℚ) (acc : ECSWorld) (a : Nat)
    (hw : AgentInv acc) : AgentInv (boardOneAgent carEntity col f acc a) := by
  unfold boardOneAgent
  split
  · rename_i agent posv hag hpos
    have h1 : AgentInv ((acc.setAgent a
        { agent with phase := Phase.RIDING, waitMs := 0 }).setPos a ⟨col, f⟩) := by
      refine AgentInv_setPos _ _ _ ?_
      refine AgentInv_setAgent _ _ _ ?_ hw
      intro hne
      have h2 := hw a agent hag hne
      exact ⟨h2.1, Or.inr (Or.inr rfl)⟩
    repeat' first | split | dsimp only
    all_goals exact h1
  · exact hw

theorem AgentInv_clearOverflowAgent (acc : ECSWorld) (a : Nat) (hw : AgentInv acc) :
    AgentInv (clearOverflowAgent acc a) := by
  unfold clearOverflowAgent
  split
  · refine AgentInv_setAgent _ _ _ ?_ hw
    intro hne
    exact absurd rfl hne
  · exact hw

theorem AgentInv_loadAtFloor (w : ECSWorld) (carEntity : Nat) (column floor : ℚ)
    (hw : AgentInv w) : AgentInv (loadAtFloor w carEntity column floor) := by
  unfold loadAtFloor
  split
  · exact hw
  · dsimp only
    refine foldl_preserves _ _ ?_ _ (foldl_preserves _ _ ?_ w hw)
    · intro acc a _ hacc
      exact AgentInv_clearOverflowAgent acc a hacc
    · intro acc a _ hacc
      exact AgentInv_boardOneAgent carEntity column floor acc a hacc

theorem AgentInv_updateOneCar (deltaMs : ℚ) (fbc : List (ℚ × List ℚ)) (carEntity : Nat)
    (acc : ECSWorld) (hw : AgentInv acc) : AgentInv (updateOneCar acc deltaMs fbc carEntity) := by
  unfold updateOneCar
  split
  · rename_i car0 position hcar0 hpos
    split
    · exact hw
    · rename_i servedFloors hserved
      dsimp only
      split
      · split
        · exact AgentInv_setCar _ _ _ (AgentInv_setCar _ _ _ hw)
        · exact AgentInv_setCar _ _ _ (AgentInv_setCar _ _ _ hw)
      · split
        · exact AgentInv_setCar _ _ _ (AgentInv_setCar _ _ _ hw)
        · rename_i targetFloor hhead
          split
          · split
            · exact AgentInv_setCar _ _ _ (AgentInv_unloadAtFloor _ _ _ _
                (AgentInv_setPos _ _ _ (AgentInv_setCar _ _ _ hw)))
            · exact AgentInv_unloadAtFloor _ _ _ _
                (AgentInv_setPos _ _ _ (AgentInv_setCar _ _ _ hw))
          · split
            · split
              · split
                · exact AgentInv_setCar _ _ _ (AgentInv_unloadAtFloor _ _ _ _
                    (AgentInv_setPos _ _ _ (AgentInv_setCar _ _ _ hw)))
                · exact AgentInv_unloadAtFloor _ _ _ _
                    (AgentInv_setPos _ _ _ (AgentInv_setCar _ _ _ hw))
              · exact AgentInv_setPos _ _ _ (AgentInv_setCar _ _ _ (AgentInv_setCar _ _ _ hw))
            · split
              · split
                · exact AgentInv_setCar _ _ _ (AgentInv_unloadAtFloor _ _ _ _
                    (AgentInv_setPos _ _ _ (AgentInv_setCar _ _ _ hw)))
                · exact AgentInv_unloadAtFloor _ _ _ _
                    (AgentInv_setPos _ _ _ (AgentInv_setCar _ _ _ hw))
              · exact AgentInv_setPos _ _ _ (AgentInv_setCar _ _ _ (AgentInv_setCar _ _ _ hw))
      · split
        · split
          · exact AgentInv_setCar _ _ _ (AgentInv_loadAtFloor _ _ _ _
              (AgentInv_setCar _ _ _ (AgentInv_setCar _ _ _ hw)))
          · exact AgentInv_loadAtFloor _ _ _ _
              (AgentInv_setCar _ _ _ (AgentInv_setCar _ _ _ hw))
        · exact AgentInv_setCar _ _ _ (AgentInv_setCar _ _ _ hw)
      · split
        · exact AgentInv_setCar _ _ _ (AgentInv_setCar _ _ _ hw)
        · exact AgentInv_setCar _ _ _ (AgentInv_setCar _ _ _ hw)
  · exact hw

theorem AgentInv_updateCars (w : ECSWorld) (deltaMs : ℚ) (fbc : List (ℚ × List ℚ))
    (hw : AgentInv w) : AgentInv (updateCars w deltaMs fbc) := by
  unfold updateCars
  refine foldl_preserves _ _ ?_ w hw
  intro acc carEntity _ hacc
  exact AgentInv_updateOneCar deltaMs fbc carEntity acc hacc

theorem AgentInv_syncRiders (w : ECSWorld) (hw : AgentInv w) : AgentInv (syncRiders w) := by
  unfold syncRiders
  refine foldl_preserves _ _ ?_ w hw
  intro acc a _ hacc
  split
  · rename_i agent posv hag hpos
    split
    · exact hacc
    · split
      · rename_i hnone
        refine AgentInv_setAgent _ _ _ ?_ hacc
        intro hne
        exact absurd hnone hne
      · split
        · refine AgentInv_setAgent _ _ _ ?_ hacc
          intro hne
          exact absurd rfl hne
        · exact AgentInv_setPos _ _ _ hacc
  · exact hacc


/-- C6 (amended): the invariant `AgentInv` — a non-null `assignedCarId`
implies the call is registered and the phase is `WAIT_AT_SHAFT`,
`WALK_TO_SHAFT` or `RIDING` — is preserved by `ElevatorSystem.update`
through all five passes. -/
theorem assignedCarId_phase_invariant (w : ECSWorld) (deltaMs : ℚ) (hw : AgentInv w) :
    AgentInv (elevatorUpdate w deltaMs) := by
  unfold elevatorUpdate
  exact AgentInv_syncRiders _ (AgentInv_updateCars _ _ _ (AgentInv_arrangeQueueLines _
    (AgentInv_dispatchCalls _ _ _ (AgentInv_syncCars _ _ _ hw))))

def c6Agent : Agent :=
  { mood := Mood.neutral
    speed := 1
    phase := Phase.WAIT_AT_SHAFT
    stress := 0
    waitMs := 0
    sourceFloorY := some 0
    targetFloorY := some 5
    targetX := 0
    targetY := 0
    desiredDirection := Dir.DOWN
    assignedShaftX := some 2
    waitX := none
    assignedCarId := none
    callRegistered := false
    despawnOnArrival := false }

def c6Car : ElevatorCar :=
  { state := ElevState.IDLE
    direction := Dir.NONE
    speed := 28/10
    column := 3
    bankId := 1
    stopQueue := []
    phaseTimerMs := 0
    capacity := 4
    occupants := [] }

def c6Floor : Floor :=
  { zone := RoomZone.HALLWAY
    occupied := false
    rent := 0
    windowSeed := 0 }

def c6World : ECSWorld :=
  { nextEntityId := 7
    entities := [1, 2, 3, 4, 5, 6]
    position := [(1, ⟨2, 0⟩), (2, ⟨3, 0⟩), (3, ⟨3, 5⟩), (4, ⟨3, 0⟩), (5, ⟨1, 0⟩), (6, ⟨2, 0⟩)]
    agent := [(5, c6Agent)]
    floor := [(6, c6Floor)]
    elevator := [(1, ()), (2, ()), (3, ())]
    elevatorCar := [(4, c6Car)]
    floatingText := [] }

/-- C6 is refuted as stated: in `c6World` the claimed iff holds for every
agent, but one `ElevatorSystem.update` dispatches the waiting agent to the
car on the adjacent column of its bank, leaving it in phase
`WALK_TO_SHAFT` with `assignedCarId` set — a state the claimed iff rules
out. -/
theorem assignedCarId_phase_counterexample :
    (∀ e agent, c6World.getAgent e = some agent →
      ((agent.assignedCarId ≠ none) ↔
        ((agent.phase = Phase.WAIT_AT_SHAFT ∧ agent.callRegistered = true) ∨
          agent.phase = Phase.RIDING))) ∧
    ∃ agent, (elevatorUpdate c6World 16).getAgent 5 = some agent ∧
      agent.assignedCarId = some 4 ∧
      agent.phase = Phase.WALK_TO_SHAFT ∧
      ¬ ((agent.phase = Phase.WAIT_AT_SHAFT ∧ agent.callRegistered = true) ∨
        agent.phase = Phase.RIDING) := by
  constructor
  · intro e agent hag
    rw [show c6World.getAgent e = if 5 = e then some c6Agent else none
        from storeGet_cons _ _ _] at hag
    by_cases h : 5 = e
    · rw [if_pos h] at hag
      injection hag with hv
      subst hv
      decide
    · rw [if_neg h] at hag
      exact Option.noConfusion hag
  · have h : (elevatorUpdate c6World 16).getAgent 5 = some
        { mood := Mood.neutral
          speed := 1
          phase := Phase.WALK_TO_SHAFT
          stress := 0
          waitMs := 0
          sourceFloorY := some 0
          targetFloorY := some 5
          targetX := 0
          targetY := 0
          desiredDirection := Dir.DOWN
          assignedShaftX := some 3
          waitX := some 2
          assignedCarId := some 4
          callRegistered := true
          despawnOnArrival := false } := by
      with_unfolding_all rfl
    exact ⟨_, h, rfl, rfl, by decide⟩

theorem assignedCarId_phase_invariant_witness :
    AgentInv (elevatorUpdate c6World 16) :=
  assignedCarId_phase_invariant c6World 16 (by
    intro e agent hag
    rw [show c6World.getAgent e = if 5 = e then some c6Agent else none
        from storeGet_cons _ _ _] at hag
    by_cases h : 5 = e
    · rw [if_pos h] at hag
      injection hag with hv
      subst hv
      intro hne
      exact absurd rfl hne
    · rw [if_neg h] at hag
      exact Option.noConfusion hag)


/-! ### C8: deleting a shaft column destroys its car and resets its agents -/

theorem mem_mapSet {κ α : Type} [DecidableEq κ] (m : List (κ × α)) (k : κ) (v : α)
    (p : κ × α) (h : p ∈ mapSet m k v) : p = (k, v) ∨ p ∈ m := by
  unfold mapSet at h
  split at h
  · rw [List.mem_map] at h
    obtain ⟨q, hq, hpq⟩ := h
    by_cases hqk : q.1 = k
    · rw [if_pos hqk] at hpq
      exact Or.inl hpq.symm
    · rw [if_neg hqk] at hpq
      exact Or.inr (hpq ▸ hq)
  · rcases List.mem_append.mp h with h1 | h2
    · exact Or.inr h1
    · rw [List.mem_singleton] at h2
      exact Or.inl h2

theorem carsByColumnMap_mem (w : ECSWorld) :
    ∀ p ∈ carsByColumnMap w, ∃ car, w.getCar p.2 = some car ∧ car.column = p.1 := by
  unfold carsByColumnMap
  have hgen : ∀ (l : List Nat) (m : List (ℚ × Nat)),
      (∀ p ∈ m, ∃ car, w.getCar p.2 = some car ∧ car.column = p.1) →
      ∀ p ∈ l.foldl
        (fun m e =>
          match w.getCar e with
          | some car => mapSet m car.column e
          | none => m)
        m, ∃ car, w.getCar p.2 = some car ∧ car.column = p.1 := by
    intro l
    induction l with
    | nil => intro m hm p hp; exact hm p hp
    | cons x xs ih =>
      intro m hm p hp
      rw [List.foldl_cons] at hp
      refine ih _ ?_ p hp
      intro q hq
      cases hx : w.getCar x with
      | none =>
        rw [hx] at hq
        exact hm q hq
      | some carx =>
        rw [hx] at hq
        rcases mem_mapSet _ _ _ q hq with h1 | h2
        · subst h1
          exact ⟨carx, hx, rfl⟩
        · exact hm q h2
  intro p hp
  exact hgen _ [] (by intro q hq; cases hq) p hp

theorem getCar_none_updateOneCar (acc : ECSWorld) (deltaMs : ℚ) (fbc : List (ℚ × List ℚ))
    (c x : Nat) (h : acc.getCar x = none) :
    (updateOneCar acc deltaMs fbc c).getCar x = none := by
  by_cases hcx : x = c
  · subst hcx
    unfold updateOneCar
    split
    · rename_i car0 position hcar0 hpos
      rw [h] at hcar0
      exact Option.noConfusion hcar0
    · exact h
  · rw [updateOneCar_getCar_ne _ _ _ _ _ hcx]
    exact h

theorem getCar_none_updateCars (w : ECSWorld) (deltaMs : ℚ) (fbc : List (ℚ × List ℚ))
    (x : Nat) (h : w.getCar x = none) : (updateCars w deltaMs fbc).getCar x = none := by
  unfold updateCars
  refine foldl_preserves (P := fun w2 => w2.getCar x = none) _ _ ?_ w h
  intro acc c _ hacc
  exact getCar_none_updateOneCar acc deltaMs fbc c x hacc

theorem getCar_none_dispatchAgent (fbc : List (ℚ × List ℚ)) (banks : List ElevatorBank)
    (carsByBank : List (Nat × List Nat)) (agentEntity : Nat) (acc : ECSWorld) (x : Nat)
    (h : acc.getCar x = none) :
    (dispatchAgent acc fbc banks carsByBank agentEntity).getCar x = none := by
  unfold dispatchAgent
  split
  · exact h
  · rename_i agent hag
    split
    · exact h
    · split
      · exact h
      · split
        · rename_i shaftX sourceFloor targetFloor hsx hsf htf
          split
          · exact h
          · rename_i bank hbank
            dsimp only
            split
            · exact h
            · rename_i bestCarEntity hbest
              split
              · exact h
              · rename_i selectedCar hcar
                have hne : x ≠ bestCarEntity := by
                  intro hx
                  rw [← hx, h] at hcar
                  exact Option.noConfusion hcar
                have h2 : ((acc.setCar bestCarEntity
                    (addStop (addStop selectedCar sourceFloor) targetFloor)).setAgent agentEntity
                    { agent with assignedCarId := some bestCarEntity, callRegistered := true }).getCar x = none := by
                  rw [getCar_setAgent, getCar_setCar_ne _ _ _ _ hne]
                  exact h
                split
                · split
                  · exact h2
                  · split
                    · rw [getCar_setAgent]
                      exact h2
                    · exact h2
                · exact h2
        · exact h

theorem getCar_none_dispatchCalls (w : ECSWorld) (fbc : List (ℚ × List ℚ))
    (banks : List ElevatorBank) (x : Nat) (h : w.getCar x = none) :
    (dispatchCalls w fbc banks).getCar x = none := by
  unfold dispatchCalls
  dsimp only
  refine foldl_preserves (P := fun w2 => w2.getCar x = none) _ _ ?_ w h
  intro acc a _ hacc
  exact getCar_none_dispatchAgent fbc banks (carsByBankMap w) a acc x hacc

theorem getCar_arrangeQueueLines (w : ECSWorld) (x : Nat) :
    (arrangeQueueLines w).getCar x = w.getCar x := by
  unfold arrangeQueueLines
  dsimp only
  refine foldl_preserves (P := fun w2 => w2.getCar x = w.getCar x) _ _ ?_ w rfl
  intro acc group _ hacc
  dsimp only
  refine foldl_preserves (P := fun w2 => w2.getCar x = w.getCar x) _ _ ?_ acc hacc
  intro acc2 pair _ hacc2
  split
  · exact hacc2
  · rw [getCar_setPos]
    exact hacc2

theorem getCar_syncRiders (w : ECSWorld) (x : Nat) :
    (syncRiders w).getCar x = w.getCar x := by
  unfold syncRiders
  refine foldl_preserves (P := fun w2 => w2.getCar x = w.getCar x) _ _ ?_ w rfl
  intro acc a _ hacc
  split
  · split
    · exact hacc
    · split
      · rw [getCar_setAgent]
        exact hacc
      · split
        · rw [getCar_setAgent]
          exact hacc
        · rw [getCar_setPos]
          exact hacc
  · exact hacc


theorem foldl_pres {β α : Type} {P : β → Prop} (step : β → α → β) (l : List α)
    (h : ∀ acc a, a ∈ l → P acc → P (step acc a)) :
    ∀ acc, P acc → P (l.foldl step acc) := by
  induction l with
  | nil => intro acc hp; exact hp
  | cons x xs ih =>
    intro acc hp
    rw [List.foldl_cons]
    exact ih (fun acc2 a ha hp2 => h acc2 a (List.mem_cons_of_mem _ ha) hp2) _
      (h acc x (List.mem_cons_self _ _) hp)

theorem foldl_trigger {β α : Type} {P Q : β → Prop} (step : β → α → β) :
    ∀ (l : List α) (t : α), t ∈ l →
      (∀ acc a, a ∈ l → P acc → P (step acc a)) →
      (∀ acc, P acc → Q (step acc t)) →
      (∀ acc a, a ∈ l → Q acc → Q (step acc a)) →
      ∀ acc, P acc → Q (l.foldl step acc) := by
  intro l
  induction l with
  | nil => intro t ht; cases ht
  | cons x xs ih =>
    intro t ht hPP hPQ hQQ acc hp
    rw [List.foldl_cons]
    rcases List.mem_cons.mp ht with h1 | h2
    · subst h1
      exact foldl_pres step xs
        (fun acc2 a ha hq => hQQ acc2 a (List.mem_cons_of_mem _ ha) hq) _ (hPQ acc hp)
    · exact ih t h2
        (fun acc2 a ha hp2 => hPP acc2 a (List.mem_cons_of_mem _ ha) hp2) hPQ
        (fun acc2 a ha hq => hQQ acc2 a (List.mem_cons_of_mem _ ha) hq)
        _ (hPP acc x (List.mem_cons_self _ _) hp)

theorem entities_addCar (w : ECSWorld) (e : Nat) (v : ElevatorCar) :
    (w.addCar e v).entities = w.entities := by
  unfold ECSWorld.addCar
  split <;> rfl

theorem entities_addPos2 (w : ECSWorld) (e : Nat) (v : Pos) :
    (w.addPos e v).entities = w.entities := by
  unfold ECSWorld.addPos
  split <;> rfl

theorem entities_createEntity (w : ECSWorld) :
    ((w.createEntity).2).entities = w.entities ++ [w.nextEntityId] := rfl


/-- C8: once a shaft column disappears from the served map, the next
`ElevatorSystem.update` destroys the column's registered car inside
`syncCars` and resets every agent assigned to it (riders included) to
`WAIT_AT_SHAFT` with the assignment and call registration cleared; the car
entity stays destroyed through the whole update. -/
theorem shaft_deletion_cleanup (w : ECSWorld) (deltaMs : ℚ) (cE : Nat) (car : ElevatorCar)
    (hcar : w.getCar cE = some car)
    (hmem : (car.column, cE) ∈ carsByColumnMap w)
    (hdel : ∀ p ∈ getShaftFloorsByColumn w, p.1 ≠ car.column) :
    ((syncCars w (getShaftFloorsByColumn w)
        (buildBanks (getShaftFloorsByColumn w))).getCar cE = none ∧
      cE ∉ (syncCars w (getShaftFloorsByColumn w)
        (buildBanks (getShaftFloorsByColumn w))).entities) ∧
    (∀ e agent0, w.getAgent e = some agent0 → agent0.assignedCarId = some cE →
      w.getCar e = none → e ∈ w.entities →
      (syncCars w (getShaftFloorsByColumn w)
          (buildBanks (getShaftFloorsByColumn w))).getAgent e =
        some { agent0 with
                 assignedCarId := none
                 waitX := none
                 callRegistered := false
                 phase := Phase.WAIT_AT_SHAFT }) ∧
    (elevatorUpdate w deltaMs).getCar cE = none := by
  have hQ : (syncCars w (getShaftFloorsByColumn w)
      (buildBanks (getShaftFloorsByColumn w))).getCar cE = none ∧
      cE ∉ (syncCars w (getShaftFloorsByColumn w)
        (buildBanks (getShaftFloorsByColumn w))).entities := by
    unfold syncCars
    dsimp only
    refine foldl_trigger (P := fun (_ : ECSWorld) => True)
      (Q := fun (u : ECSWorld) => u.getCar cE = none ∧ cE ∉ u.entities) _ _ _ hmem ?_ ?_ ?_ _ trivial
    · intro acc p _ _
      trivial
    · intro acc _
      split
      · rename_i htrue
        dsimp only at htrue
        rw [List.any_eq_true] at htrue
        obtain ⟨q, hq, hq2⟩ := htrue
        rw [decide_eq_true_eq] at hq2
        exact absurd hq2 (hdel q hq)
      · refine foldl_pres
          (P := fun (u : ECSWorld) => u.getCar cE = none ∧ cE ∉ u.entities) _ _ ?_ _ ?_
        · intro acc2 a _ hacc2
          split
          · split
            · exact hacc2
            · exact hacc2
          · exact hacc2
        · constructor
          · rw [getCar_destroyEntity, if_pos rfl]
          · intro hmem2
            unfold ECSWorld.destroyEntity at hmem2
            dsimp only at hmem2
            rw [List.mem_filter] at hmem2
            have h2 := hmem2.2
            rw [decide_eq_true_eq] at h2
            exact h2 rfl
    · intro acc p _ hacc
      split
      · exact hacc
      · refine foldl_pres
          (P := fun (u : ECSWorld) => u.getCar cE = none ∧ cE ∉ u.entities) _ _ ?_ _ ?_
        · intro acc2 a _ hacc2
          split
          · split
            · exact hacc2
            · exact hacc2
          · exact hacc2
        · constructor
          · rw [getCar_destroyEntity]
            split
            · rfl
            · exact hacc.1
          · intro hmem2
            unfold ECSWorld.destroyEntity at hmem2
            dsimp only at hmem2
            rw [List.mem_filter] at hmem2
            exact hacc.2 hmem2.1
  have hB : ∀ e agent0, w.getAgent e = some agent0 → agent0.assignedCarId = some cE →
      w.getCar e = none → e ∈ w.entities →
      (syncCars w (getShaftFloorsByColumn w)
          (buildBanks (getShaftFloorsByColumn w))).getAgent e =
        some { agent0 with
                 assignedCarId := none
                 waitX := none
                 callRegistered := false
                 phase := Phase.WAIT_AT_SHAFT } := by
    intro e agent0 hag0 hcid hnocar hent
    have hne_cE : e ≠ cE := by
      intro h
      rw [h, hcar] at hnocar
      exact Option.noConfusion hnocar
    have hvalne : ∀ p, p ∈ carsByColumnMap w → p.2 ≠ e := by
      intro p hp heq
      obtain ⟨car', hcar', -⟩ := carsByColumnMap_mem w p hp
      rw [heq, hnocar] at hcar'
      exact Option.noConfusion hcar'
    unfold syncCars
    dsimp only
    refine foldl_trigger
      (P := fun (u : ECSWorld) => e ∈ u.entities ∧ (u.getAgent e = some agent0 ∨
        u.getAgent e = some { agent0 with
          assignedCarId := none
          waitX := none
          callRegistered := false
          phase := Phase.WAIT_AT_SHAFT }))
      (Q := fun (u : ECSWorld) => u.getAgent e = some { agent0 with
          assignedCarId := none
          waitX := none
          callRegistered := false
          phase := Phase.WAIT_AT_SHAFT })
      _ _ _ hmem ?_ ?_ ?_ _ ?_
    · -- P is preserved by every column entry
      intro acc p hp hPa
      split
      · exact hPa
      · have hpne : e ≠ p.2 := fun h => hvalne p hp h.symm
        have hPa1 : e ∈ (acc.destroyEntity p.2).entities ∧
            ((acc.destroyEntity p.2).getAgent e = some agent0 ∨
              (acc.destroyEntity p.2).getAgent e = some { agent0 with
                assignedCarId := none
                waitX := none
                callRegistered := false
                phase := Phase.WAIT_AT_SHAFT }) := by
          constructor
          · unfold ECSWorld.destroyEntity
            dsimp only
            rw [List.mem_filter]
            exact ⟨hPa.1, decide_eq_true hpne⟩
          · rw [getAgent_destroyEntity, if_neg hpne]
            exact hPa.2
        refine foldl_pres (P := fun (u : ECSWorld) => e ∈ u.entities ∧
            (u.getAgent e = some agent0 ∨ u.getAgent e = some { agent0 with
              assignedCarId := none
              waitX := none
              callRegistered := false
              phase := Phase.WAIT_AT_SHAFT })) _ _ ?_ _ hPa1
        intro acc2 a _ hp2
        by_cases hae : a = e
        · subst hae
          split
          · rename_i agent hagx
            split
            · rcases hp2.2 with h' | h'
              · rw [h'] at hagx
                injection hagx with hv
                subst hv
                refine ⟨hp2.1, Or.inr ?_⟩
                rw [getAgent_setAgent_self]
              · rw [h'] at hagx
                injection hagx with hv
                subst hv
                rename_i hcond
                exact absurd hcond (by intro hh; exact Option.noConfusion hh)
            · exact hp2
          · exact hp2
        · split
          · split
            · refine ⟨hp2.1, ?_⟩
              rw [getAgent_setAgent_ne _ _ _ _ (Ne.symm hae)]
              exact hp2.2
            · exact hp2
          · exact hp2
    · -- the deleted column's entry clears the agent
      intro acc hPa
      split
      · rename_i htrue
        dsimp only at htrue
        rw [List.any_eq_true] at htrue
        obtain ⟨q, hq, hq2⟩ := htrue
        rw [decide_eq_true_eq] at hq2
        exact absurd hq2 (hdel q hq)
      · have hPa1 : e ∈ (acc.destroyEntity cE).entities ∧
            ((acc.destroyEntity cE).getAgent e = some agent0 ∨
              (acc.destroyEntity cE).getAgent e = some { agent0 with
                assignedCarId := none
                waitX := none
                callRegistered := false
                phase := Phase.WAIT_AT_SHAFT }) := by
          constructor
          · unfold ECSWorld.destroyEntity
            dsimp only
            rw [List.mem_filter]
            exact ⟨hPa.1, decide_eq_true hne_cE⟩
          · rw [getAgent_destroyEntity, if_neg hne_cE]
            exact hPa.2
        have hqm : e ∈ (acc.destroyEntity cE).queryAgent := by
          unfold ECSWorld.queryAgent
          rw [List.mem_filter]
          refine ⟨hPa1.1, ?_⟩
          rcases hPa1.2 with h' | h' <;> rw [h'] <;> rfl
        refine foldl_trigger
          (P := fun (u : ECSWorld) => u.getAgent e = some agent0 ∨
            u.getAgent e = some { agent0 with
              assignedCarId := none
              waitX := none
              callRegistered := false
              phase := Phase.WAIT_AT_SHAFT })
          (Q := fun (u : ECSWorld) => u.getAgent e = some { agent0 with
              assignedCarId := none
              waitX := none
              callRegistered := false
              phase := Phase.WAIT_AT_SHAFT })
          _ _ _ hqm ?_ ?_ ?_ _ hPa1.2
        · intro acc2 a _ hp2
          by_cases hae : a = e
          · subst hae
            split
            · rename_i agent hagx
              split
              · rcases hp2 with h' | h'
                · rw [h'] at hagx
                  injection hagx with hv
                  subst hv
                  right
                  rw [getAgent_setAgent_self]
                · rw [h'] at hagx
                  injection hagx with hv
                  subst hv
                  rename_i hcond
                  exact absurd hcond (by intro hh; exact Option.noConfusion hh)
              · exact hp2
            · exact hp2
          · split
            · split
              · rw [getAgent_setAgent_ne _ _ _ _ (Ne.symm hae)]
                exact hp2
              · exact hp2
            · exact hp2
        · intro acc2 hp2
          split
          · rename_i agent hagx
            split
            · rcases hp2 with h' | h'
              · rw [h'] at hagx
                injection hagx with hv
                subst hv
                rw [getAgent_setAgent_self]
              · rw [h'] at hagx
                injection hagx with hv
                subst hv
                rename_i hcond
                exact absurd hcond (by intro hh; exact Option.noConfusion hh)
            · rcases hp2 with h' | h'
              · rw [h'] at hagx
                injection hagx with hv
                subst hv
                rename_i hcond
                exact absurd hcid hcond
              · exact h'
          · rename_i hagx
            rcases hp2 with h' | h' <;> rw [h'] at hagx <;> exact Option.noConfusion hagx
        · intro acc2 a _ hq2
          by_cases hae : a = e
          · subst hae
            split
            · rename_i agent hagx
              rw [hq2] at hagx
              injection hagx with hv
              subst hv
              split
              · rename_i hcond
                exact absurd hcond (by intro hh; exact Option.noConfusion hh)
              · exact hq2
            · exact hq2
          · split
            · split
              · rw [getAgent_setAgent_ne _ _ _ _ (Ne.symm hae)]
                exact hq2
              · exact hq2
            · exact hq2
    · -- the cleared state is preserved by the remaining entries
      intro acc p hp hq
      split
      · exact hq
      · have hpne : e ≠ p.2 := fun h => hvalne p hp h.symm
        have hq1 : (acc.destroyEntity p.2).getAgent e = some { agent0 with
            assignedCarId := none
            waitX := none
            callRegistered := false
            phase := Phase.WAIT_AT_SHAFT } := by
          rw [getAgent_destroyEntity, if_neg hpne]
          exact hq
        refine foldl_pres (P := fun (u : ECSWorld) => u.getAgent e = some { agent0 with
            assignedCarId := none
            waitX := none
            callRegistered := false
            phase := Phase.WAIT_AT_SHAFT }) _ _ ?_ _ hq1
        intro acc2 a _ hq2
        by_cases hae : a = e
        · subst hae
          split
          · rename_i agent hagx
            rw [hq2] at hagx
            injection hagx with hv
            subst hv
            split
            · rename_i hcond
              exact absurd hcond (by intro hh; exact Option.noConfusion hh)
            · exact hq2
          · exact hq2
        · split
          · split
            · rw [getAgent_setAgent_ne _ _ _ _ (Ne.symm hae)]
              exact hq2
            · exact hq2
          · exact hq2
    · -- P holds after the car-spawning pass
      refine foldl_pres (P := fun (u : ECSWorld) => e ∈ u.entities ∧
          (u.getAgent e = some agent0 ∨ u.getAgent e = some { agent0 with
            assignedCarId := none
            waitX := none
            callRegistered := false
            phase := Phase.WAIT_AT_SHAFT })) _ _ ?_ w ⟨hent, Or.inl hag0⟩
      intro acc p _ hPa
      split
      · exact hPa
      · rename_i bank hbank
        split
        · split
          · exact hPa
          · exact hPa
        · constructor
          · rw [entities_addCar, entities_addPos2, entities_createEntity]
            exact List.mem_append_left _ hPa.1
          · rw [show ∀ (u : ECSWorld) (x : Nat) (v : ElevatorCar), (u.addCar x v).getAgent e =
              u.getAgent e from fun u x v => getAgent_addCar u x e v]
            rw [show ∀ (u : ECSWorld) (x : Nat) (v : Pos), (u.addPos x v).getAgent e =
              u.getAgent e from fun u x v => getAgent_addPos u x e v]
            exact hPa.2
  refine ⟨hQ, hB, ?_⟩
  unfold elevatorUpdate
  rw [getCar_syncRiders]
  refine getCar_none_updateCars _ _ _ _ ?_
  rw [getCar_arrangeQueueLines]
  refine getCar_none_dispatchCalls _ _ _ _ ?_
  exact hQ.1


def c8Agent : Agent :=
  { mood := Mood.neutral
    speed := 1
    phase := Phase.RIDING
    stress := 0
    waitMs := 0
    sourceFloorY := some 0
    targetFloorY := some 5
    targetX := 0
    targetY := 0
    desiredDirection := Dir.UP
    assignedShaftX := some 2
    waitX := some 1
    assignedCarId := some 2
    callRegistered := true
    despawnOnArrival := false }

def c8Car : ElevatorCar :=
  { state := ElevState.MOVING
    direction := Dir.UP
    speed := 28/10
    column := 2
    bankId := 1
    stopQueue := [5]
    phaseTimerMs := 0
    capacity := 4
    occupants := [3] }

def c8World : ECSWorld :=
  { nextEntityId := 4
    entities := [2, 3]
    position := [(2, ⟨2, 0⟩), (3, ⟨2, 0⟩)]
    agent := [(3, c8Agent)]
    floor := []
    elevator := []
    elevatorCar := [(2, c8Car)]
    floatingText := [] }

theorem shaft_deletion_cleanup_witness :
    (elevatorUpdate c8World 16).getCar 2 = none ∧
    (syncCars c8World (getShaftFloorsByColumn c8World)
        (buildBanks (getShaftFloorsByColumn c8World))).getAgent 3 =
      some { c8Agent with
               assignedCarId := none
               waitX := none
               callRegistered := false
               phase := Phase.WAIT_AT_SHAFT } := by
  have h := shaft_deletion_cleanup c8World 16 2 c8Car
    (by with_unfolding_all rfl)
    (by with_unfolding_all decide)
    (by
      intro p hp
      rw [show getShaftFloorsByColumn c8World = ([] : List (ℚ × List ℚ))
        from by with_unfolding_all rfl] at hp
      cases hp)
  exact ⟨h.2.2, h.2.1 3 c8Agent (by with_unfolding_all rfl) (by with_unfolding_all rfl)
    (by with_unfolding_all rfl) (by decide)⟩


/-! ### C9: rent collection at the midnight minute boundary -/

/-- The text of the `+$` popup; JS renders `\x7b`floor.rent`\x7d` with number
formatting, which on the integer rents used prints the numerator. -/
def rentString (rent : ℚ) : String := "+$" ++ toString rent.num

/-- `Game.spawnFloatingText(x, y, text)`. -/
def spawnFloatingText (w : ECSWorld) (x y : ℚ) (text : String) : ECSWorld :=
  let popup := w.nextEntityId
  let w1 := (w.createEntity).2
  let w2 := w1.addPos popup ⟨x, y⟩
  w2.addFloatingText popup
    { text := text
      color := "#4ade80"
      ageMs := 0
      ttlMs := 1200
      risePerSecond := 4/5 }

/-- `Game.collectRentAtMidnight()` (run when `minuteOfDay` hits 0); the
`gameStateStore` money is threaded as `funds`. -/
def collectRentAtMidnight (w : ECSWorld) (funds : ℚ) : ECSWorld × ℚ :=
  let result := w.queryPosFloor.foldl
    (fun (acc : ECSWorld × ℚ) floorEntity =>
      match acc.1.getPos floorEntity, acc.1.getFloor floorEntity with
      | some position, some floor =>
        if floor.occupied = false ∨ floor.rent ≤ 0 then acc
        else
          (spawnFloatingText acc.1 position.x (position.y - 3/20) (rentString floor.rent),
            acc.2 + floor.rent)
      | _, _ => acc)
    (w, 0)
  (result.1, if result.2 > 0 then funds + result.2 else funds)

def c9Floor (occupied : Bool) (rent : ℚ) : Floor :=
  { zone := RoomZone.OFFICE
    occupied := occupied
    rent := rent
    windowSeed := 0 }

def c9World : ECSWorld :=
  { nextEntityId := 4
    entities := [1, 2, 3]
    position := [(1, ⟨1, 5⟩), (2, ⟨2, 5⟩), (3, ⟨3, 5⟩)]
    agent := []
    floor := [(1, c9Floor true 100), (2, c9Floor true 0), (3, c9Floor true 250)]
    elevator := []
    elevatorCar := []
    floatingText := [] }

/-- C9 is refuted as stated: with occupied floors of rent 100, 0 and 250
the midnight collection adds exactly 350 to the funds, but it spawns only
two floating texts, because the `rent <= 0` guard skips the rent-0 floor
entirely (no popup is spawned there). -/
theorem midnight_rent_counterexample :
    (collectRentAtMidnight c9World 1000).2 = 1000 + 350 ∧
    ((collectRentAtMidnight c9World 1000).1).floatingText.length = 2 ∧
    ((collectRentAtMidnight c9World 1000).1).floatingText.length ≠ 3 := by
  refine ⟨?_, ?_, ?_⟩
  · with_unfolding_all rfl
  · with_unfolding_all rfl
  · intro h
    rw [show ((collectRentAtMidnight c9World 1000).1).floatingText.length = 2
      from by with_unfolding_all rfl] at h
    exact absurd h (by decide)

/-- C9 (amended): at the midnight boundary the payout is the sum of the
rents of the occupied floors with positive rent (350 here), the funds grow
by exactly that payout, and one `+$` popup is spawned 0.15 above each such
floor's position — so the rent-100 and rent-250 floors get popups while
the rent-0 floor gets none. -/
theorem midnight_rent_amended (funds : ℚ) :
    (collectRentAtMidnight c9World funds).2 = funds + 350 ∧
    ((collectRentAtMidnight c9World funds).1).floatingText =
      [(4, { text := "+$100"
             color := "#4ade80"
             ageMs := 0
             ttlMs := 1200
             risePerSecond := 4/5 }),
       (5, { text := "+$250"
             color := "#4ade80"
             ageMs := 0
             ttlMs := 1200
             risePerSecond := 4/5 })] ∧
    ((collectRentAtMidnight c9World funds).1).getPos 4 = some ⟨1, 97/20⟩ ∧
    ((collectRentAtMidnight c9World funds).1).getPos 5 = some ⟨3, 97/20⟩ := by
  refine ⟨?_, ?_, ?_, ?_⟩
  · with_unfolding_all rfl
  · with_unfolding_all rfl
  · with_unfolding_all rfl
  · with_unfolding_all rfl


end Hive
